import Mathlib

/-!
# call-hierarchy: a verification development

A shallow embedding of the Go program `call-hierarchy` (packages `gopls`, `d2`
and `main`) and theorems about it.

* Go strings are Lean `String`s; the text-processing helpers work on the
  underlying `List Char` by structural recursion.
* Go `int` is `Int`; `strconv.Atoi` is modelled with its 64-bit range clamp.
* `regexp` is embedded for the fragment the source uses: sequences of literal
  characters, character classes, greedy `+` repetitions of a class, and capture
  groups around such repetitions, with Go's leftmost-first (greedy, backtracking
  priority) match semantics.
* The subprocess call `run` is a parameter of the functions that use it.
* `BuildGraph` is a step relation over the coordinator loop and its worker
  goroutines; a schedule is the list of scheduler choices.
-/

namespace Gopls

/-! ## Entity model (`gopls/gopls.go`, lines 12-47) -/

/-- A range of characters in a file. -/
structure Location where
  File : String
  Line : Int
  startCol : Int
  endCol : Int
deriving DecidableEq, Repr

structure symbol where
  name : String
  symbolType : String
  location : Location
deriving DecidableEq, Repr

structure Function where
  Name : String
  Location : Location
deriving DecidableEq, Repr

/-- Site(s) of a call to the focal function from within a function. -/
structure CallSite where
  Function : Function
  Locations : List Location
deriving DecidableEq, Repr

structure Node where
  Callers : List CallSite
  Function : Function
  callees : List CallSite
deriving DecidableEq, Repr

/-- The Go zero value `Location{}`. -/
def Location.zero : Location := ⟨"", 0, 0, 0⟩

/-- The Go zero value `symbol{}`. -/
def symbol.zero : symbol := ⟨"", "", Location.zero⟩

/-- The Go zero value `Function{}`. -/
def Function.zero : Function := ⟨"", Location.zero⟩

/-- The Go zero value `Node{}`. -/
def Node.zero : Node := ⟨[], Function.zero, []⟩

/-! ## The parts of the Go standard library the source uses -/

/-- The white space of `unicode.IsSpace`, which `strings.TrimSpace` strips. -/
def isSpace (c : Char) : Bool :=
  c = '\t' || c = '\n' || c.toNat = 11 || c.toNat = 12 || c = '\r' || c = ' ' ||
  c.toNat = 0x85 || c.toNat = 0xA0 || c.toNat = 0x1680 ||
  (0x2000 ≤ c.toNat && c.toNat ≤ 0x200A) ||
  c.toNat = 0x2028 || c.toNat = 0x2029 || c.toNat = 0x202F || c.toNat = 0x205F ||
  c.toNat = 0x3000

/-- The function `strings.TrimSpace`. -/
def TrimSpace (s : String) : String :=
  ⟨((s.data.dropWhile isSpace).reverse.dropWhile isSpace).reverse⟩

/-- Pieces of a character list between newline characters. -/
def splitNewline : List Char → List (List Char)
  | [] => [[]]
  | c :: s =>
    if c = '\n' then [] :: splitNewline s
    else
      match splitNewline s with
      | l :: ls => (c :: l) :: ls
      | [] => [[c]]

/-- The call `strings.Split(s, "\n")`. -/
def SplitLines (s : String) : List String :=
  (splitNewline s.data).map String.mk

/-- The function `strings.HasPrefix`. -/
def HasPrefix (s pre : String) : Bool :=
  pre.data.isPrefixOf s.data

/-- The function `strings.CutSuffix`. -/
def CutSuffix (s suffix : String) : String × Bool :=
  if suffix.data.isSuffixOf s.data then
    (⟨s.data.take (s.data.length - suffix.data.length)⟩, true)
  else (s, false)

/-- Whether `sub` occurs in `s` at some position. -/
def containsChars (sub : List Char) : List Char → Bool
  | [] => sub.isPrefixOf []
  | c :: s => sub.isPrefixOf (c :: s) || containsChars sub s

/-- The function `strings.Contains`. -/
def Contains (s sub : String) : Bool :=
  containsChars sub.data s.data

/-- The function `strings.ToLower`, by `Char.toLower` on each character: the
ASCII letters are lowered, every other character is kept. (Go also lowers the
letters outside ASCII; none of them becomes a letter of "test", the one text the
source looks for in a lowered name.) -/
def ToLower (s : String) : String :=
  ⟨s.data.map Char.toLower⟩

/-- Value of an ASCII digit. -/
def digitVal (c : Char) : Nat := c.toNat - 48

/-- The class `[0-9]`. -/
def isDigit (c : Char) : Bool := 48 ≤ c.toNat && c.toNat ≤ 57

/-- The number a string of decimal digits denotes. -/
def decimalValue (ds : List Char) : Nat :=
  ds.foldl (fun acc c => 10 * acc + digitVal c) 0

/-- The function `strconv.Atoi` for a 64-bit `int`: the value and whether the
error is nil. A syntax error gives 0; a value out of range gives the nearest
representable integer (and an error). -/
def Atoi (s : String) : Int × Bool :=
  let p : Bool × List Char :=
    match s.data with
    | '+' :: t => (false, t)
    | '-' :: t => (true, t)
    | t => (false, t)
  if p.2.isEmpty || !(p.2.all isDigit) then (0, false)
  else
    let v := decimalValue p.2
    if p.1 then
      if 2 ^ 63 < v then (-(2 ^ 63 : Int), false) else (-(v : Int), true)
    else
      if 2 ^ 63 - 1 < v then ((2 ^ 63 - 1 : Int), false) else ((v : Int), true)

/-! ## Regular expressions (`regexp`), for the fragment the source uses -/

/-- One item of a pattern. -/
inductive Re where
  /-- a literal character -/
  | chr (c : Char)
  /-- one character of a class, such as `[er]` -/
  | cls (p : Char → Bool)
  /-- the greedy repetition `p+` of a class, not captured, such as `\d+` -/
  | plus (p : Char → Bool)
  /-- the capture group `(p+)` -/
  | group (p : Char → Bool)

/-- A pattern: a sequence of items. -/
abbrev Regex := List Re

/-- The pattern matching the text `s` literally. -/
def lit (s : String) : Regex := s.data.map Re.chr

/-- The class `\w`. -/
def isWord (c : Char) : Bool :=
  isDigit c || (65 ≤ c.toNat && c.toNat ≤ 90) || (97 ≤ c.toNat && c.toNat ≤ 122) || c = '_'

/-- The class `\S`: not one of `[\t\n\f\r ]`. -/
def notSpace (c : Char) : Bool :=
  !(c = '\t' || c = '\n' || c.toNat = 12 || c = '\r' || c = ' ')

/-- The class `.`: every character but the newline. -/
def anyChar (c : Char) : Bool := !(c = '\n')

/-- Greedy `p+` followed by the continuation `k`: the longest run of `p` is
tried first, shorter ones after it. Returns the run and the result of `k`. -/
def greedy {β : Type} (p : Char → Bool) (k : List Char → Option β) :
    List Char → Option (List Char × β)
  | [] => none
  | c :: s =>
    if p c then
      match greedy p k s with
      | some (cap, r) => some (c :: cap, r)
      | none =>
        match k s with
        | some r => some ([c], r)
        | none => none
    else none

/-- Match of a pattern at the start of `s`: the captured groups in order and
the text left after the match. -/
def matchAt : Regex → List Char → Option (List (List Char) × List Char)
  | [], s => some ([], s)
  | Re.chr c :: r, s =>
    match s with
    | [] => none
    | x :: t => if x = c then matchAt r t else none
  | Re.cls p :: r, s =>
    match s with
    | [] => none
    | x :: t => if p x then matchAt r t else none
  | Re.plus p :: r, s =>
    match greedy p (matchAt r) s with
    | some (_, res) => some res
    | none => none
  | Re.group p :: r, s =>
    match greedy p (matchAt r) s with
    | some (cap, (caps, rest)) => some (cap :: caps, rest)
    | none => none

/-- Leftmost match of a pattern in `s`: group 0 (the matched text) followed by
the captured groups, or `[]` when there is no match. -/
def findSubmatch (re : Regex) : List Char → List (List Char)
  | [] =>
    match matchAt re [] with
    | some (caps, _) => [] :: caps
    | none => []
  | c :: s =>
    match matchAt re (c :: s) with
    | some (caps, rest) => (c :: s).take ((c :: s).length - rest.length) :: caps
    | none => findSubmatch re s

/-- The method `(*Regexp).FindStringSubmatch`; nil is `[]`. -/
def FindStringSubmatch (re : Regex) (s : String) : List String :=
  (findSubmatch re s.data).map String.mk

/-- Successive non-overlapping leftmost matches; `skip` characters of the last
match are still to be passed over. -/
def findAllSubmatch (re : Regex) : Nat → List Char → List (List (List Char))
  | _, [] => []
  | skip + 1, _ :: s => findAllSubmatch re skip s
  | 0, c :: s =>
    match matchAt re (c :: s) with
    | some (caps, rest) =>
      ((c :: s).take ((c :: s).length - rest.length) :: caps) ::
        findAllSubmatch re ((c :: s).length - rest.length - 1) s
    | none => findAllSubmatch re 0 s

/-- The call `(*Regexp).FindAllStringSubmatch(s, -1)`. -/
def FindAllStringSubmatch (re : Regex) (s : String) : List (List String) :=
  (findAllSubmatch re 0 s.data).map (fun m => m.map String.mk)

/-! ## `gopls/gopls.go` -/

/-- The function `mustInt`: `strconv.Atoi` with the error dropped. -/
def mustInt (a : String) : Int := (Atoi a).1

/-- The pattern `(\w+) (\w+) (\d+):(\d+)-(\d+):(\d+)` of `parseSymbolsResponse`. -/
def reSymbols : Regex :=
  [Re.group isWord, Re.chr ' ', Re.group isWord, Re.chr ' ', Re.group isDigit, Re.chr ':',
   Re.group isDigit, Re.chr '-', Re.group isDigit, Re.chr ':', Re.group isDigit]

/-- The pattern `(\d+):(\d+)-(\d+)`, the tail of three patterns of the source
and the whole of `rangePattern`. -/
def rangePattern : Regex :=
  [Re.group isDigit, Re.chr ':', Re.group isDigit, Re.chr '-', Re.group isDigit]

/-- The pattern `function (\w+) in (\S+):(\d+):(\d+)-(\d+)` of `parseFunctionDef`. -/
def reFunctionDef : Regex :=
  lit "function " ++ [Re.group isWord] ++ lit " in " ++ [Re.group notSpace, Re.chr ':'] ++
    rangePattern

/-- The pattern
`calle[er]\[\d+\]: ranges (.+) in (.+) from/to function (.+) in (.+):(\d+):(\d+)-(\d+)`
of `parseCallSite`. -/
def reCallSite : Regex :=
  lit "calle" ++ [Re.cls (fun c => c = 'e' || c = 'r'), Re.chr '[', Re.plus isDigit] ++
    lit "]: ranges " ++ [Re.group anyChar] ++ lit " in " ++ [Re.group anyChar] ++
    lit " from/to function " ++ [Re.group anyChar] ++ lit " in " ++
    [Re.group anyChar, Re.chr ':'] ++ rangePattern

/-- The function `parseSymbolsResponse`. -/
def parseSymbolsResponse (line file : String) : Except String symbol :=
  let ms := FindStringSubmatch reSymbols line
  if ms.length ≠ 7 then Except.ok symbol.zero
  else
    let lineNum := mustInt (ms.getD 3 "")
    let endLineNum := mustInt (ms.getD 5 "")
    if endLineNum ≠ lineNum then
      Except.error ("start and end line numbers differ (" ++ toString lineNum ++ " vs " ++
        toString endLineNum ++ ") in response for symbols query: " ++ line)
    else
      Except.ok
        { name := ms.getD 1 ""
          symbolType := ms.getD 2 ""
          location :=
            { File := file
              Line := lineNum
              startCol := mustInt (ms.getD 4 "")
              endCol := mustInt (ms.getD 6 "") } }

/-- The function `parseFunctionDef`. -/
def parseFunctionDef (line : String) : Except String Function :=
  let ms := FindStringSubmatch reFunctionDef line
  if ms.length ≠ 6 then Except.error ("unexpected format: " ++ line)
  else
    Except.ok
      { Name := ms.getD 1 ""
        Location :=
          { File := ms.getD 2 ""
            Line := mustInt (ms.getD 3 "")
            startCol := mustInt (ms.getD 4 "")
            endCol := mustInt (ms.getD 5 "") } }

/-- The method `Function.isAnonymous`. -/
def Function.isAnonymous (f : Function) : String × Bool :=
  CutSuffix f.Name ".func()"

/-- The method `Function.IsTest`. -/
def Function.IsTest (f : Function) : Bool :=
  Contains (ToLower f.Name) "test"

/-- The method `Location.String`: `fmt.Sprintf("%s:%d:%d-%d", ...)`. -/
def Location.String (r : Location) : String :=
  r.File ++ ":" ++ toString r.Line ++ ":" ++ toString r.startCol ++ "-" ++ toString r.endCol

/-- The method `Function.LocationString`. -/
def Function.LocationString (f : Function) : String :=
  f.Location.String

/-- The function `parseCallSite`. -/
def parseCallSite (line : String) : Except String CallSite :=
  let ms := FindStringSubmatch reCallSite line
  if ms.length ≠ 8 then Except.error ("unexpected format: '" ++ line ++ "'")
  else
    let rangeMatches := FindAllStringSubmatch rangePattern (ms.getD 1 "")
    let ranges : List Location := rangeMatches.map (fun m =>
      { File := ms.getD 2 ""
        Line := (Atoi (m.getD 1 "")).1
        startCol := (Atoi (m.getD 2 "")).1
        endCol := (Atoi (m.getD 3 "")).1 })
    Except.ok
      { Function :=
          { Name := ms.getD 3 ""
            Location :=
              { File := ms.getD 4 ""
                Line := mustInt (ms.getD 5 "")
                startCol := mustInt (ms.getD 6 "")
                endCol := mustInt (ms.getD 7 "") } }
        Locations := ranges }

/-- The loop of `parseCallHierarchyResponse` over the lines still to read, with the
node parsed so far. On an error the source returns the partial node next to the
error; its callers drop that node, and so does this embedding. -/
def parseCallHierarchyLines : Node → List String → Except String Node
  | parsed, [] => Except.ok parsed
  | parsed, line :: rest =>
    if HasPrefix line "identifier" then
      match parseFunctionDef line with
      | Except.error e => Except.error e
      | Except.ok d => parseCallHierarchyLines { parsed with Function := d } rest
    else
      match parseCallSite line with
      | Except.error e => Except.error e
      | Except.ok callSites =>
        if HasPrefix line "caller" then
          parseCallHierarchyLines { parsed with Callers := parsed.Callers ++ [callSites] } rest
        else if HasPrefix line "callee" then
          parseCallHierarchyLines { parsed with callees := parsed.callees ++ [callSites] } rest
        else Except.error ("unexpected line: " ++ line)

/-- The function `parseCallHierarchyResponse`. -/
def parseCallHierarchyResponse (response : String) : Except String Node :=
  parseCallHierarchyLines Node.zero (SplitLines (TrimSpace response))

/-- The loop of `GetFunction` over the lines of the symbol listing. -/
def lookupSymbol (name file : String) : List String → Except String Function
  | [] => Except.error ("failed to locate symbol " ++ name ++ " in file " ++ file)
  | line :: rest =>
    match parseSymbolsResponse line file with
    | Except.error e => Except.error e
    | Except.ok sym =>
      if (sym.symbolType = "Function" ∨ sym.symbolType = "Method") ∧ sym.name = name then
        Except.ok { Name := sym.name, Location := sym.location }
      else lookupSymbol name file rest

/-- The function `GetFunction`; `run` is the subprocess call of the source,
given the executable and its arguments. -/
def GetFunction (run : List String → Except String String) (name file : String) :
    Except String Function :=
  match run ["gopls", "symbols", file] with
  | Except.error e => Except.error e
  | Except.ok output => lookupSymbol name file (SplitLines (TrimSpace output))

/-- The loop of `CallHierarchy` over the parsed callers: an anonymous caller gets
the function enclosing it; the first failed lookup ends the loop. -/
def resolveAnonymous (run : List String → Except String String) :
    List CallSite → Except String (List CallSite)
  | [] => Except.ok []
  | c :: cs =>
    if c.Function.isAnonymous.2 then
      match GetFunction run c.Function.isAnonymous.1 c.Function.Location.File with
      | Except.error e => Except.error e
      | Except.ok f =>
        match resolveAnonymous run cs with
        | Except.error e => Except.error e
        | Except.ok cs1 => Except.ok ({ c with Function := f } :: cs1)
    else
      match resolveAnonymous run cs with
      | Except.error e => Except.error e
      | Except.ok cs1 => Except.ok (c :: cs1)

/-- The function `CallHierarchy`. -/
def CallHierarchy (run : List String → Except String String) (position : String) :
    Except String Node :=
  match run ["gopls", "call_hierarchy", position] with
  | Except.error e => Except.error e
  | Except.ok output =>
    match parseCallHierarchyResponse output with
    | Except.error e => Except.error e
    | Except.ok node =>
      match resolveAnonymous run node.Callers with
      | Except.error e => Except.error e
      | Except.ok callers => Except.ok { node with Callers := callers }

end Gopls

deriving instance DecidableEq for Except

namespace D2

/-! ## `d2/d2.go` -/

structure Edge where
  From : Gopls.CallSite
  To : Gopls.Function
deriving DecidableEq, Repr

structure Graph where
  Edges : List Edge
deriving DecidableEq, Repr

/-- The lines `Graph.Write` prints for the edges (its second loop), or `none`
when an index `e.From.Locations[0]` is out of range and the program panics.
`relDir` is the source's helper of that name, which reads the working
directory. -/
def edgeLinesOf (relDir : String → String) : List Edge → Option (List String)
  | [] => some []
  | e :: es =>
    match e.From.Locations with
    | [] => none
    | l :: _ =>
      match edgeLinesOf relDir es with
      | none => none
      | some ls =>
        some ((relDir e.From.Function.Location.File ++ "." ++ e.From.Function.Name ++ " -> " ++
          relDir e.To.Location.File ++ "." ++ e.To.Name ++ " # " ++ l.String) :: ls)

/-- The edge lines of `Graph.Write`. -/
def Graph.edgeLines (relDir : String → String) (g : Graph) : Option (List String) :=
  edgeLinesOf relDir g.Edges

end D2

namespace Main

open Gopls D2

/-! ## `main.go`: `BuildGraph` as a step relation

The coordinator is the `for`/`select` loop of `BuildGraph`; each received task
starts a worker goroutine. A worker's program counter names the access to the
shared variables it makes next. One step is one access: a test of a shared
variable and the statement it guards are two steps, the test of `visited`,
`counter.incr()` and the marking are three steps, and `g.Edges = append(...)` is
a read of `g.Edges` and a later write. Only the tests of a worker's own values
(`err != nil`, `IsTest`) go with the access after them. -/

/-- The type `Counter`; its mutex makes `incr` and `decr` atomic, each one step here. -/
structure Counter where
  count : Int
deriving DecidableEq, Repr

/-- The method `Counter.incr`. -/
def Counter.incr (c : Counter) : Counter := ⟨c.count + 1⟩

/-- The method `Counter.decr`. -/
def Counter.decr (c : Counter) : Counter := ⟨c.count - 1⟩

/-- The local constant `maxLineages` of `BuildGraph`, also the capacity of `tasks`. -/
def maxLineages : Int := 20

/-- Where a worker goroutine stands. -/
inductive PC where
  /-- line 64: about to call `gopls.CallHierarchy` -/
  | query
  /-- line 69: at the head of the `range` loop, with the callers still to visit -/
  | loop (rest : List CallSite)
  /-- line 73: `g.Edges` has been read as `old`, about to write the appended slice -/
  | append (c : CallSite) (rest : List CallSite) (old : List Edge)
  /-- line 74: about to test `visited[c.Function]` -/
  | visit (c : CallSite) (rest : List CallSite)
  /-- line 75: about to call `counter.incr()` -/
  | incr (c : CallSite) (rest : List CallSite)
  /-- line 76: about to set `visited[c.Function] = true` -/
  | mark (c : CallSite) (rest : List CallSite)
  /-- line 77: about to send `c.Function` on `tasks` -/
  | send (c : CallSite) (rest : List CallSite)
  /-- line 55, deferred: about to compare the counter with `maxLineages` -/
  | exitBound
  /-- line 57, deferred: about to close `done`, the counter having reached the bound -/
  | closeBound
  /-- line 59, deferred: about to call `counter.decr()` -/
  | exitDecr
  /-- line 60, deferred: about to compare the counter with zero -/
  | exitZero
  /-- line 61, deferred: about to close `done`, the counter having been zero -/
  | closeZero
  /-- the goroutine has returned -/
  | finished
deriving DecidableEq, Repr

structure Worker where
  f : Function
  pc : PC
deriving DecidableEq, Repr

/-- The coordinator: still in its loop, or returned with the pair of results. -/
inductive Coordinator where
  | running
  | returned (g : Graph) (err : Option String)
deriving DecidableEq, Repr

/-- The shared state of one call of `BuildGraph`. -/
structure State where
  /-- the buffered channel `tasks` (capacity `maxLineages`), oldest first -/
  tasks : List Function
  /-- the values of goroutines blocked in a send on the unbuffered channel `errors` -/
  errors : List String
  /-- whether the channel `done` is closed -/
  done : Bool
  /-- the variable `counter` -/
  counter : Counter
  /-- the keys of the map `visited` (all with value true) -/
  visited : List Function
  /-- the graph `g` -/
  g : Graph
  /-- the worker goroutines, in the order they were started -/
  workers : List Worker
  coord : Coordinator
  /-- the process died of a runtime panic: `close` of a closed channel -/
  panicked : Bool
deriving DecidableEq, Repr

/-- A choice of the scheduler: a case of the coordinator's `select`, or the next
step of the worker with the given index. -/
inductive Action where
  | recvTask
  | recvError
  | recvDone
  | worker (i : Nat)
deriving DecidableEq, Repr

/-- The state when the coordinator enters its loop (lines 33-43). -/
def init (f : Function) : State :=
  { tasks := [f], errors := [], done := false, counter := ⟨1⟩, visited := [f], g := ⟨[]⟩,
    workers := [], coord := Coordinator.running, panicked := false }

/-- The statement `close(done)`: a second close panics, and the process is dead from
then on, whatever the program counters say. -/
def closeDone (s : State) : State :=
  if s.done then { s with panicked := true } else { s with done := true }

/-- The statement `visited[x] = true` on the keys of the map. -/
def markVisited (visited : List Function) (x : Function) : List Function :=
  if x ∈ visited then visited else visited ++ [x]

/-- The state with worker `i` at program counter `pc`. -/
def setPC (s : State) (i : Nat) (w : Worker) (pc : PC) : State :=
  { s with workers := s.workers.set i { w with pc := pc } }

/-- The next step of a worker for the function `f` that stands at the first program
counter: the shared state after it and the program counter it moves to; `none` when
the worker is blocked or has returned. `callHierarchy` is `gopls.CallHierarchy`. -/
def workerNext (callHierarchy : String → Except String Node) (f : Function) (s : State) :
    PC → Option (State × PC)
  | PC.query =>
    match callHierarchy f.LocationString with
    | Except.error _ => some (s, PC.exitBound)
    | Except.ok node => some (s, PC.loop node.Callers)
  | PC.loop [] => some (s, PC.exitBound)
  | PC.loop (c :: rest) =>
    if c.Function.IsTest then some (s, PC.loop rest)
    else some (s, PC.append c rest s.g.Edges)
  | PC.append c rest old => some ({ s with g := ⟨old ++ [⟨c, f⟩]⟩ }, PC.visit c rest)
  | PC.visit c rest =>
    if c.Function ∈ s.visited then some (s, PC.loop rest) else some (s, PC.incr c rest)
  | PC.incr c rest => some ({ s with counter := s.counter.incr }, PC.mark c rest)
  | PC.mark c rest =>
    some ({ s with visited := markVisited s.visited c.Function }, PC.send c rest)
  | PC.send c rest =>
    if (s.tasks.length : Int) < maxLineages then
      some ({ s with tasks := s.tasks ++ [c.Function] }, PC.loop rest)
    else none
  | PC.exitBound =>
    if s.counter.count ≥ maxLineages then some (s, PC.closeBound) else some (s, PC.exitDecr)
  | PC.closeBound => some (closeDone s, PC.exitDecr)
  | PC.exitDecr => some ({ s with counter := s.counter.decr }, PC.exitZero)
  | PC.exitZero =>
    if s.counter.count = 0 then some (s, PC.closeZero) else some (s, PC.finished)
  | PC.closeZero => some (closeDone s, PC.finished)
  | PC.finished => none

/-- The next step of worker `w`, which has index `i`. -/
def workerStep (callHierarchy : String → Except String Node) (s : State) (i : Nat)
    (w : Worker) : Option State :=
  match workerNext callHierarchy w.f s w.pc with
  | some (s1, pc) => some (setPC s1 i w pc)
  | none => none

/-- One step of `BuildGraph`; `none` when the chosen action cannot run. Nothing
runs after a panic. -/
def step (callHierarchy : String → Except String Node) (s : State) (a : Action) :
    Option State :=
  if s.panicked then none
  else
    match a with
    | Action.recvTask =>
      match s.coord, s.tasks with
      | Coordinator.running, f :: rest =>
        some { s with tasks := rest, workers := s.workers ++ [⟨f, PC.query⟩] }
      | _, _ => none
    | Action.recvError =>
      match s.coord, s.errors with
      | Coordinator.running, e :: rest =>
        some { s with errors := rest, coord := Coordinator.returned ⟨[]⟩ (some e) }
      | _, _ => none
    | Action.recvDone =>
      match s.coord with
      | Coordinator.running =>
        if s.done then some { s with coord := Coordinator.returned s.g none } else none
      | _ => none
    | Action.worker i =>
      match s.workers.get? i with
      | some w => workerStep callHierarchy s i w
      | none => none

/-- The state after the scheduler's choices `sched`, from `s`. -/
def exec (callHierarchy : String → Except String Node) (s : State) :
    List Action → Option State
  | [] => some s
  | a :: sched =>
    match step callHierarchy s a with
    | some s1 => exec callHierarchy s1 sched
    | none => none

/-- The result of `BuildGraph`, once the coordinator has returned. -/
def State.result (s : State) : Option (Graph × Option String) :=
  match s.coord with
  | Coordinator.running => none
  | Coordinator.returned g err => some (g, err)

/-- The pair `BuildGraph(f)` returns when the scheduler makes the choices `sched`;
`none` when the schedule cannot run or leaves the coordinator in its loop. -/
def BuildGraph (callHierarchy : String → Except String Node) (f : Function)
    (sched : List Action) : Option (Graph × Option String) :=
  (exec callHierarchy (init f) sched).bind State.result

/-! ### Invariants of the step relation -/

/-- Nothing is ever sent on `errors`, so the coordinator never returns an error. -/
def NoError (s : State) : Prop :=
  s.errors = [] ∧ ∀ g e, s.coord = Coordinator.returned g e → e = none

/-- The worker has executed `counter.decr()`. -/
def pastDecr (w : Worker) : Bool :=
  match w.pc with
  | PC.exitZero => true
  | PC.closeZero => true
  | PC.finished => true
  | _ => false

/-- The worker has executed `counter.incr()` for a caller it has not marked yet. -/
def atMark (w : Worker) : Bool :=
  match w.pc with
  | PC.mark _ _ => true
  | _ => false

/-- The functions marked visited, with the workers between `counter.incr()` and the
marking, are no more than the counter and the workers that have decremented it. -/
def Outstanding (s : State) : Prop :=
  s.visited.Nodup ∧
    (s.visited.length : Int) + (s.workers.countP atMark : Nat) ≤
      s.counter.count + (s.workers.countP pastDecr : Nat)

/-- The caller a worker is working on is not a test function, and neither is the
caller of an edge it has read. -/
def pcNonTest : PC → Prop
  | PC.append c _ old =>
    c.Function.IsTest = false ∧ ∀ e ∈ old, e.From.Function.IsTest = false
  | PC.visit c _ => c.Function.IsTest = false
  | PC.incr c _ => c.Function.IsTest = false
  | PC.mark c _ => c.Function.IsTest = false
  | PC.send c _ => c.Function.IsTest = false
  | _ => True

/-- No test function but the start function `f` has entered the crawl. -/
structure TestFree (f : Function) (s : State) : Prop where
  edges : ∀ e ∈ s.g.Edges, e.From.Function.IsTest = false
  visited : ∀ x ∈ s.visited, x.IsTest = true → x = f
  tasks : ∀ x ∈ s.tasks, x.IsTest = true → x = f
  workers : ∀ w ∈ s.workers, pcNonTest w.pc ∧ (w.f.IsTest = true → w.f = f)
  returned : ∀ g e, s.coord = Coordinator.returned g e →
    ∀ ed ∈ g.Edges, ed.From.Function.IsTest = false

/-! ### Concrete caller relations and schedules -/

/-- A function of the file `a.go`, defined on line `l`. -/
def fnAt (name : String) (l : Nat) : Function := ⟨name, ⟨"a.go", l, 1, 2⟩⟩

/-- A call site inside the function `fnAt name l`, one line below its definition. -/
def siteIn (name : String) (l : Nat) : CallSite := ⟨fnAt name l, [⟨"a.go", l + 1, 3, 4⟩]⟩

/-- The start function of the examples. -/
def startFn : Function := fnAt "f" 1

/-- The start function has the `n` callers `c` of lines 10, 11, ..., which have no
callers themselves. No query fails. -/
def callersOfStart (n : Nat) (pos : String) : Except String Node :=
  if pos = "a.go:1:1-2" then
    Except.ok ⟨(List.range n).map (fun i => siteIn "c" (10 + i)), startFn, []⟩
  else Except.ok ⟨[], Function.zero, []⟩

/-- Every query fails. -/
def failingQuery (_ : String) : Except String Node := Except.error "exit status 2: "

/-- The start function is called by itself, by a test function and by `c`. -/
def withTestCaller (pos : String) : Except String Node :=
  if pos = "a.go:1:1-2" then
    Except.ok ⟨[siteIn "f" 1, siteIn "TestF" 5, siteIn "c" 9], startFn, []⟩
  else Except.ok ⟨[], Function.zero, []⟩

/-- The worker `i` runs `n` statements. -/
def runs (i n : Nat) : List Action := List.replicate n (Action.worker i)

/-- Two callers: the start worker runs to its end, both callers are started and
run in lock step to their ends. -/
def schedTwoCallers : List Action :=
  [Action.recvTask] ++ runs 0 17 ++ [Action.recvTask, Action.recvTask] ++
    [Action.worker 1, Action.worker 2, Action.worker 1, Action.worker 2, Action.worker 1,
     Action.worker 2, Action.worker 1, Action.worker 2, Action.worker 1, Action.worker 2,
     Action.worker 1, Action.worker 2]

/-- The start worker visits `n` callers (the coordinator starts the first of them
before the last send), compares the counter with `maxLineages` and, the bound being
reached, closes `done`. -/
def schedManyCallers (n : Nat) : List Action :=
  [Action.recvTask] ++ runs 0 (6 * n) ++ [Action.recvTask] ++ runs 0 4

/-- Two callers, one worker after the other: each worker runs to its end before the
next is started, and the coordinator takes `done` at the end. -/
def schedTwoCallersInTurn : List Action :=
  [Action.recvTask] ++ runs 0 17 ++ [Action.recvTask] ++ runs 1 5 ++ [Action.recvTask] ++
    runs 2 6 ++ [Action.recvDone]

/-- A failed query: the only worker runs to its end, the coordinator takes `done`. -/
def schedFailingQuery : List Action :=
  [Action.recvTask] ++ runs 0 5 ++ [Action.recvDone]

/-- A crawl of `withTestCaller` to its end. -/
def schedWithTestCaller : List Action :=
  [Action.recvTask] ++ runs 0 15 ++ [Action.recvTask] ++ runs 1 6 ++ [Action.recvDone]

/-- The state after a schedule, for the concrete crawls below (the initial state
when the schedule cannot run). -/
def stateAfter (callHierarchy : String → Except String Node) (sched : List Action) : State :=
  (exec callHierarchy (init startFn) sched).getD (init startFn)

end Main

namespace Gopls

/-! ### Vocabulary for the statements about the parsers -/

/-- The classes of the capture groups of a pattern, in order. -/
def groupClasses : Regex → List (Char → Bool)
  | [] => []
  | Re.group p :: r => p :: groupClasses r
  | _ :: r => groupClasses r

/-- The error of `GetFunction` when no line matches. -/
def notFound (name file : String) : String :=
  "failed to locate symbol " ++ name ++ " in file " ++ file

/-- A subprocess that prints `output`, whatever it is asked. -/
def printing (output : String) (_ : List String) : Except String String :=
  Except.ok output

/-- The name carries the marker of an anonymous function. -/
def Anonymous (f : Function) : Prop :=
  ∃ X : String, f.Name = X ++ ".func()"

/-- A subprocess for one position and one file: it prints `response` for the call
hierarchy of `position` and `listing` for every other request. -/
def goplsFor (position response listing : String) (args : List String) :
    Except String String :=
  if args = ["gopls", "call_hierarchy", position] then Except.ok response
  else Except.ok listing

/-- The lookups of the anonymous callers of a list succeed, as a check that can be
evaluated. -/
def lookupsSucceed (run : List String → Except String String) (cs : List CallSite) : Bool :=
  cs.all (fun c => !c.Function.isAnonymous.2 ||
    match GetFunction run c.Function.isAnonymous.1 c.Function.Location.File with
    | Except.ok _ => true
    | Except.error _ => false)

end Gopls

namespace Gopls

/-! ### Well-formed call-hierarchy blocks -/

/-- A decimal numeral that fits Go's `int`. -/
def Numeral (s : String) : Prop :=
  s.data ≠ [] ∧ (∀ c ∈ s.data, isDigit c = true) ∧ decimalValue s.data < 2 ^ 63

/-- The number a numeral denotes. -/
def numeralValue (s : String) : Int := (decimalValue s.data : Nat)

/-- A non-empty text without white space: a file path or a function name. -/
def Token (s : String) : Prop :=
  s.data ≠ [] ∧ ∀ c ∈ s.data, isSpace c = false

/-- A non-empty text of letters, digits and underscores. -/
def Word (s : String) : Prop :=
  s.data ≠ [] ∧ ∀ c ∈ s.data, isWord c = true

/-- One range `line:startCol-endCol` of a caller or callee line. -/
structure RangeText where
  line : String
  startCol : String
  endCol : String
deriving DecidableEq, Repr

/-- The fields of a caller or callee line. -/
structure CallLine where
  /-- a `caller[i]` line, not a `callee[i]` line -/
  caller : Bool
  index : String
  ranges : List RangeText
  file : String
  name : String
  defFile : String
  defLine : String
  defStartCol : String
  defEndCol : String
deriving DecidableEq, Repr

/-- The fields of the identifier line. -/
structure IdentLine where
  name : String
  file : String
  line : String
  startCol : String
  endCol : String
deriving DecidableEq, Repr

/-- The text `line:startCol-endCol`. -/
def RangeText.text (r : RangeText) : String :=
  r.line ++ ":" ++ r.startCol ++ "-" ++ r.endCol

/-- The ranges, separated by a comma and a blank. -/
def rangesText : List RangeText → String
  | [] => ""
  | [r] => r.text
  | r :: rs => r.text ++ ", " ++ rangesText rs

/-- The text of a caller or callee line. -/
def CallLine.text (c : CallLine) : String :=
  (if c.caller then "caller[" else "callee[") ++ c.index ++ "]: ranges " ++
    rangesText c.ranges ++ " in " ++ c.file ++ " from/to function " ++ c.name ++ " in " ++
    c.defFile ++ ":" ++ c.defLine ++ ":" ++ c.defStartCol ++ "-" ++ c.defEndCol

/-- The text of the identifier line. -/
def IdentLine.text (i : IdentLine) : String :=
  "identifier: function " ++ i.name ++ " in " ++ i.file ++ ":" ++ i.line ++ ":" ++
    i.startCol ++ "-" ++ i.endCol

/-- Lines joined by newline characters. -/
def joinLines : List String → String
  | [] => ""
  | [l] => l
  | l :: ls => l ++ "\n" ++ joinLines ls

/-- The text of a block: the identifier line among caller and callee lines. -/
def blockText (pre : List CallLine) (i : IdentLine) (post : List CallLine) : String :=
  joinLines (pre.map CallLine.text ++ [i.text] ++ post.map CallLine.text)

def RangeText.WF (r : RangeText) : Prop :=
  Numeral r.line ∧ Numeral r.startCol ∧ Numeral r.endCol

/-- A well-formed caller or callee line: a numeric index, one range or more, file
paths and function name without white space, numerals that fit `int`. -/
def CallLine.WF (c : CallLine) : Prop :=
  (c.index.data ≠ [] ∧ ∀ x ∈ c.index.data, isDigit x = true) ∧
    c.ranges ≠ [] ∧ (∀ r ∈ c.ranges, r.WF) ∧ Token c.file ∧ Token c.name ∧
    Token c.defFile ∧ Numeral c.defLine ∧ Numeral c.defStartCol ∧ Numeral c.defEndCol

/-- A well-formed identifier line: a function name of word characters, a file path
without white space, numerals that fit `int`. -/
def IdentLine.WF (i : IdentLine) : Prop :=
  Word i.name ∧ Token i.file ∧ Numeral i.line ∧ Numeral i.startCol ∧ Numeral i.endCol

/-- The location a range of a line denotes, in the file named on the line. -/
def RangeText.location (file : String) (r : RangeText) : Location :=
  ⟨file, numeralValue r.line, numeralValue r.startCol, numeralValue r.endCol⟩

/-- The call site a caller or callee line denotes. -/
def CallLine.site (c : CallLine) : CallSite :=
  { Function :=
      ⟨c.name, ⟨c.defFile, numeralValue c.defLine, numeralValue c.defStartCol,
        numeralValue c.defEndCol⟩⟩
    Locations := c.ranges.map (RangeText.location c.file) }

/-- The function the identifier line denotes. -/
def IdentLine.function (i : IdentLine) : Function :=
  ⟨i.name, ⟨i.file, numeralValue i.line, numeralValue i.startCol, numeralValue i.endCol⟩⟩

/-- The number of literal characters `ch` in a pattern. -/
def countLit (ch : Char) : Regex → Nat
  | [] => 0
  | Re.chr c :: r => (if c = ch then 1 else 0) + countLit ch r
  | _ :: r => countLit ch r

/-- The pattern `:(\d+):(\d+)-(\d+)`, the tail of two patterns of the source. -/
def reTail : Regex := Re.chr ':' :: rangePattern

instance (s : String) : Decidable (Numeral s) := by
  unfold Numeral
  infer_instance

instance (s : String) : Decidable (Token s) := by
  unfold Token
  infer_instance

instance (s : String) : Decidable (Word s) := by
  unfold Word
  infer_instance

instance (r : RangeText) : Decidable r.WF := by
  unfold RangeText.WF
  infer_instance

instance (c : CallLine) : Decidable c.WF := by
  unfold CallLine.WF
  infer_instance

instance (i : IdentLine) : Decidable i.WF := by
  unfold IdentLine.WF
  infer_instance

/-- Text that the class `.` matches and that holds no blank. -/
def Blankless (l : List Char) : Prop :=
  l ≠ [] ∧ (∀ c ∈ l, anyChar c = true) ∧ l.count ' ' = 0

/-- Digits: a non-empty run of the class `[0-9]`. -/
def Digits (l : List Char) : Prop := l ≠ [] ∧ ∀ c ∈ l, isDigit c = true

/-- A line that `strings.TrimSpace` and the split at newlines leave as it is:
not empty, without a newline, and with no white space at either end. -/
def Clean (l : String) : Prop :=
  l.data ≠ [] ∧ (∀ c ∈ l.data, c ≠ '\n') ∧ (∀ c ∈ l.data.head?, isSpace c = false) ∧
    ∀ c ∈ l.data.reverse.head?, isSpace c = false

end Gopls
namespace Gopls

/-! ### Symbol listings -/

/-- The fields of a line `<name> <kind> <line>:<col>-<endLine>:<endCol>` of a symbol
listing, such as `Invoke Function 47:6-47:12`. -/
structure SymbolLine where
  name : String
  kind : String
  line : String
  col : String
  endLine : String
  endCol : String
deriving DecidableEq, Repr

/-- The text of a symbol line. -/
def SymbolLine.text (l : SymbolLine) : String :=
  l.name ++ " " ++ l.kind ++ " " ++ l.line ++ ":" ++ l.col ++ "-" ++ l.endLine ++ ":" ++
    l.endCol

/-- The text of a symbol listing: its lines, one per symbol. -/
def listingText (ls : List SymbolLine) : String :=
  joinLines (ls.map SymbolLine.text)

/-- The form of a symbol line: a name without white space, a kind of letters, digits
and underscores, numerals that fit `int`. -/
def SymbolLine.Format (l : SymbolLine) : Prop :=
  Token l.name ∧ Word l.kind ∧ Numeral l.line ∧ Numeral l.col ∧ Numeral l.endLine ∧
    Numeral l.endCol

/-- The line reports equal start and end line numbers. -/
def SymbolLine.singleLine (l : SymbolLine) : Prop :=
  numeralValue l.endLine = numeralValue l.line

/-- The line is of kind "Function" or "Method". -/
def SymbolLine.isFunction (l : SymbolLine) : Bool :=
  l.kind = "Function" || l.kind = "Method"

/-- The line is of kind "Function" or "Method" and its name is the sought name. -/
def SymbolLine.named (sought : String) (l : SymbolLine) : Bool :=
  l.isFunction && l.name = sought

/-- The identifier a name ends in: its longest suffix of ASCII letters, digits and
underscores. The name `(*T).Bar` ends in `Bar`, the name `Bar` in `Bar`. -/
def identOf (name : String) : String :=
  ⟨(name.data.reverse.takeWhile isWord).reverse⟩

/-- What stands in a name before the identifier it ends in: `(*T).` in `(*T).Bar`. -/
def qualifierOf (name : String) : String :=
  ⟨(name.data.reverse.dropWhile isWord).reverse⟩

/-- The line is of kind "Function" or "Method" and its name ends in the sought
identifier. -/
def SymbolLine.endsIn (sought : String) (l : SymbolLine) : Bool :=
  l.isFunction && (identOf l.name = sought && identOf l.name ≠ "")

/-- The location a symbol line reports in `file`. -/
def SymbolLine.location (file : String) (l : SymbolLine) : Location :=
  ⟨file, numeralValue l.line, numeralValue l.col, numeralValue l.endCol⟩

/-- The lookup in the words of the specification: the first line of kind "Function"
or "Method" whose name is the sought name, as a function of `file`. -/
def firstNamed (sought file : String) (ls : List SymbolLine) : Except String Function :=
  match ls.find? (SymbolLine.named sought) with
  | some l => Except.ok ⟨l.name, l.location file⟩
  | none => Except.error (notFound sought file)

/-- The lookup by the identifier a name ends in: the first line of kind "Function" or
"Method" whose name ends in the sought identifier, as a function of `file`. -/
def firstEndingIn (sought file : String) (ls : List SymbolLine) : Except String Function :=
  match ls.find? (SymbolLine.endsIn sought) with
  | some l => Except.ok ⟨sought, l.location file⟩
  | none => Except.error (notFound sought file)

/-- The error of `parseSymbolsResponse` for a line whose span has two line numbers. -/
def differError (l : SymbolLine) : String :=
  "start and end line numbers differ (" ++ toString (numeralValue l.line) ++ " vs " ++
    toString (numeralValue l.endLine) ++ ") in response for symbols query: " ++ l.text

instance (l : SymbolLine) : Decidable l.Format := by
  unfold SymbolLine.Format
  infer_instance

instance (l : SymbolLine) : Decidable l.singleLine := by
  unfold SymbolLine.singleLine
  infer_instance

end Gopls

namespace Gopls

/-! ### The example response of the source -/

/-- The constant `exampleResponse`. -/
def exampleResponse : String :=
    "caller[0]: ranges 174:18-31 in /Users/dan/src/temporalio/temporal/service/history/ndc/workflow_resetter.go from/to function ResetWorkflow.func() in /Users/dan/src/temporalio/temporal/service/history/ndc/workflow_resetter.go:157:21-25" ++ "\n" ++
    "caller[1]: ranges 333:11-24 in /Users/dan/src/temporalio/temporal/service/history/ndc/workflow_resetter.go from/to function reapplyEventsToResetWorkflow in /Users/dan/src/temporalio/temporal/service/history/ndc/workflow_resetter.go:312:32-60" ++ "\n" ++
    "caller[2]: ranges 701:15-28 in /Users/dan/src/temporalio/temporal/service/history/ndc/workflow_resetter.go from/to function reapplyWorkflowEvents in /Users/dan/src/temporalio/temporal/service/history/ndc/workflow_resetter.go:673:32-53" ++ "\n" ++
    "caller[3]: ranges 833:28-41 in /Users/dan/src/temporalio/temporal/service/history/ndc/workflow_resetter_test.go from/to function TestReapplyEvents in /Users/dan/src/temporalio/temporal/service/history/ndc/workflow_resetter_test.go:790:33-50" ++ "\n" ++
    "identifier: function reapplyEvents in /Users/dan/src/temporalio/temporal/service/history/ndc/workflow_resetter.go:715:32-45" ++ "\n" ++
    "callee[0]: ranges 734:18-67 in /Users/dan/src/temporalio/temporal/service/history/ndc/workflow_resetter.go from/to function GetWorkflowExecutionUpdateAcceptedEventAttributes in /Users/dan/src/temporalio/api-go/history/v1/message.pb.go:4856:24-73" ++ "\n" ++
    "callee[1]: ranges 741:18-75 in /Users/dan/src/temporalio/temporal/service/history/ndc/workflow_resetter.go from/to function GetWorkflowExecutionUpdateRequestReappliedEventAttributes in /Users/dan/src/temporalio/api-go/history/v1/message.pb.go:4898:24-81" ++ "\n" ++
    "callee[2]: ranges 743:10-20 in /Users/dan/src/temporalio/temporal/service/history/ndc/workflow_resetter.go from/to function GetRequest in /Users/dan/src/temporalio/api-go/history/v1/message.pb.go:4414:66-76" ++ "\n" ++
    "callee[3]: ranges 721:16-28 in /Users/dan/src/temporalio/temporal/service/history/ndc/workflow_resetter.go from/to function GetEventType in /Users/dan/src/temporalio/api-go/history/v1/message.pb.go:4541:24-36" ++ "\n" ++
    "callee[4]: ranges 726:10-18 in /Users/dan/src/temporalio/temporal/service/history/ndc/workflow_resetter.go from/to function GetInput in /Users/dan/src/temporalio/api-go/history/v1/message.pb.go:2307:52-60" ++ "\n" ++
    "callee[5]: ranges 723:18-61 in /Users/dan/src/temporalio/temporal/service/history/ndc/workflow_resetter.go from/to function GetWorkflowExecutionSignaledEventAttributes in /Users/dan/src/temporalio/api-go/history/v1/message.pb.go:4716:24-67" ++ "\n" ++
    "callee[6]: ranges 727:10-21 in /Users/dan/src/temporalio/temporal/service/history/ndc/workflow_resetter.go from/to function GetIdentity in /Users/dan/src/temporalio/api-go/history/v1/message.pb.go:2314:52-63" ++ "\n" ++
    "callee[7]: ranges 724:30-58 in /Users/dan/src/temporalio/temporal/service/history/ndc/workflow_resetter.go from/to function AddWorkflowExecutionSignaled in /Users/dan/src/temporalio/temporal/service/history/workflow/mutable_state.go:154:3-31" ++ "\n" ++
    "callee[8]: ranges 729:10-37 in /Users/dan/src/temporalio/temporal/service/history/ndc/workflow_resetter.go from/to function GetSkipGenerateWorkflowTask in /Users/dan/src/temporalio/api-go/history/v1/message.pb.go:2328:52-79" ++ "\n" ++
    "callee[9]: ranges 735:30-77, 742:30-77 in /Users/dan/src/temporalio/temporal/service/history/ndc/workflow_resetter.go from/to function AddWorkflowExecutionUpdateRequestReappliedEvent in /Users/dan/src/temporalio/temporal/service/history/workflow/mutable_state.go:162:3-50" ++ "\n" ++
    "callee[10]: ranges 736:10-28 in /Users/dan/src/temporalio/temporal/service/history/ndc/workflow_resetter.go from/to function GetAcceptedRequest in /Users/dan/src/temporalio/api-go/history/v1/message.pb.go:4214:58-76" ++ "\n" ++
    "callee[11]: ranges 725:10-23 in /Users/dan/src/temporalio/temporal/service/history/ndc/workflow_resetter.go from/to function GetSignalName in /Users/dan/src/temporalio/api-go/history/v1/message.pb.go:2300:52-65" ++ "\n" ++
    "callee[12]: ranges 728:10-19 in /Users/dan/src/temporalio/temporal/service/history/ndc/workflow_resetter.go from/to function GetHeader in /Users/dan/src/temporalio/api-go/history/v1/message.pb.go:2321:52-61"

/-- The line that the function `test` of the source parses. -/
def exampleCallee9 : String :=
  "callee[9]: ranges 735:30-77, 742:30-77 in /Users/dan/src/temporalio/temporal/service/history/ndc/workflow_resetter.go from/to function AddWorkflowExecutionUpdateRequestReappliedEvent in /Users/dan/src/temporalio/temporal/service/history/workflow/mutable_state.go:162:3-50"

/-- The fields of the caller lines of `exampleResponse`, which stand before its
identifier line. -/
def exampleCallers : List CallLine :=
  [
    ⟨true, "0", [⟨"174", "18", "31"⟩],
      "/Users/dan/src/temporalio/temporal/service/history/ndc/workflow_resetter.go",
      "ResetWorkflow.func()",
      "/Users/dan/src/temporalio/temporal/service/history/ndc/workflow_resetter.go",
      "157", "21", "25"⟩,
    ⟨true, "1", [⟨"333", "11", "24"⟩],
      "/Users/dan/src/temporalio/temporal/service/history/ndc/workflow_resetter.go",
      "reapplyEventsToResetWorkflow",
      "/Users/dan/src/temporalio/temporal/service/history/ndc/workflow_resetter.go",
      "312", "32", "60"⟩,
    ⟨true, "2", [⟨"701", "15", "28"⟩],
      "/Users/dan/src/temporalio/temporal/service/history/ndc/workflow_resetter.go",
      "reapplyWorkflowEvents",
      "/Users/dan/src/temporalio/temporal/service/history/ndc/workflow_resetter.go",
      "673", "32", "53"⟩,
    ⟨true, "3", [⟨"833", "28", "41"⟩],
      "/Users/dan/src/temporalio/temporal/service/history/ndc/workflow_resetter_test.go",
      "TestReapplyEvents",
      "/Users/dan/src/temporalio/temporal/service/history/ndc/workflow_resetter_test.go",
      "790", "33", "50"⟩]

/-- The fields of the identifier line of `exampleResponse`. -/
def exampleIdent : IdentLine :=
  ⟨"reapplyEvents", "/Users/dan/src/temporalio/temporal/service/history/ndc/workflow_resetter.go", "715", "32", "45"⟩

/-- The fields of the callee lines of `exampleResponse`, which stand after its
identifier line. -/
def exampleCallees : List CallLine :=
  [
    ⟨false, "0", [⟨"734", "18", "67"⟩],
      "/Users/dan/src/temporalio/temporal/service/history/ndc/workflow_resetter.go",
      "GetWorkflowExecutionUpdateAcceptedEventAttributes",
      "/Users/dan/src/temporalio/api-go/history/v1/message.pb.go",
      "4856", "24", "73"⟩,
    ⟨false, "1", [⟨"741", "18", "75"⟩],
      "/Users/dan/src/temporalio/temporal/service/history/ndc/workflow_resetter.go",
      "GetWorkflowExecutionUpdateRequestReappliedEventAttributes",
      "/Users/dan/src/temporalio/api-go/history/v1/message.pb.go",
      "4898", "24", "81"⟩,
    ⟨false, "2", [⟨"743", "10", "20"⟩],
      "/Users/dan/src/temporalio/temporal/service/history/ndc/workflow_resetter.go",
      "GetRequest",
      "/Users/dan/src/temporalio/api-go/history/v1/message.pb.go",
      "4414", "66", "76"⟩,
    ⟨false, "3", [⟨"721", "16", "28"⟩],
      "/Users/dan/src/temporalio/temporal/service/history/ndc/workflow_resetter.go",
      "GetEventType",
      "/Users/dan/src/temporalio/api-go/history/v1/message.pb.go",
      "4541", "24", "36"⟩,
    ⟨false, "4", [⟨"726", "10", "18"⟩],
      "/Users/dan/src/temporalio/temporal/service/history/ndc/workflow_resetter.go",
      "GetInput",
      "/Users/dan/src/temporalio/api-go/history/v1/message.pb.go",
      "2307", "52", "60"⟩,
    ⟨false, "5", [⟨"723", "18", "61"⟩],
      "/Users/dan/src/temporalio/temporal/service/history/ndc/workflow_resetter.go",
      "GetWorkflowExecutionSignaledEventAttributes",
      "/Users/dan/src/temporalio/api-go/history/v1/message.pb.go",
      "4716", "24", "67"⟩,
    ⟨false, "6", [⟨"727", "10", "21"⟩],
      "/Users/dan/src/temporalio/temporal/service/history/ndc/workflow_resetter.go",
      "GetIdentity",
      "/Users/dan/src/temporalio/api-go/history/v1/message.pb.go",
      "2314", "52", "63"⟩,
    ⟨false, "7", [⟨"724", "30", "58"⟩],
      "/Users/dan/src/temporalio/temporal/service/history/ndc/workflow_resetter.go",
      "AddWorkflowExecutionSignaled",
      "/Users/dan/src/temporalio/temporal/service/history/workflow/mutable_state.go",
      "154", "3", "31"⟩,
    ⟨false, "8", [⟨"729", "10", "37"⟩],
      "/Users/dan/src/temporalio/temporal/service/history/ndc/workflow_resetter.go",
      "GetSkipGenerateWorkflowTask",
      "/Users/dan/src/temporalio/api-go/history/v1/message.pb.go",
      "2328", "52", "79"⟩,
    ⟨false, "9", [⟨"735", "30", "77"⟩, ⟨"742", "30", "77"⟩],
      "/Users/dan/src/temporalio/temporal/service/history/ndc/workflow_resetter.go",
      "AddWorkflowExecutionUpdateRequestReappliedEvent",
      "/Users/dan/src/temporalio/temporal/service/history/workflow/mutable_state.go",
      "162", "3", "50"⟩,
    ⟨false, "10", [⟨"736", "10", "28"⟩],
      "/Users/dan/src/temporalio/temporal/service/history/ndc/workflow_resetter.go",
      "GetAcceptedRequest",
      "/Users/dan/src/temporalio/api-go/history/v1/message.pb.go",
      "4214", "58", "76"⟩,
    ⟨false, "11", [⟨"725", "10", "23"⟩],
      "/Users/dan/src/temporalio/temporal/service/history/ndc/workflow_resetter.go",
      "GetSignalName",
      "/Users/dan/src/temporalio/api-go/history/v1/message.pb.go",
      "2300", "52", "65"⟩,
    ⟨false, "12", [⟨"728", "10", "19"⟩],
      "/Users/dan/src/temporalio/temporal/service/history/ndc/workflow_resetter.go",
      "GetHeader",
      "/Users/dan/src/temporalio/api-go/history/v1/message.pb.go",
      "2321", "52", "61"⟩]

/-- The fields of the line `exampleCallee9`. -/
def exampleCallee9Fields : CallLine :=
  ⟨false, "9", [⟨"735", "30", "77"⟩, ⟨"742", "30", "77"⟩],
    "/Users/dan/src/temporalio/temporal/service/history/ndc/workflow_resetter.go",
    "AddWorkflowExecutionUpdateRequestReappliedEvent",
    "/Users/dan/src/temporalio/temporal/service/history/workflow/mutable_state.go",
    "162", "3", "50"⟩

/-- A call-hierarchy response with an anonymous caller. -/
def anonResponse : String :=
  "caller[0]: ranges 174:18-31 in /r.go from/to function ResetWorkflow.func() in /r.go:157:21-25" ++
    "\n" ++
    "caller[1]: ranges 333:11-24 in /r.go from/to function reapplyEventsToResetWorkflow in /r.go:312:32-60" ++
    "\n" ++ "identifier: function reapplyEvents in /r.go:715:32-45"

/-- A symbol listing of the file of `anonResponse`. -/
def anonListing : String :=
  "workflowResetterImpl Struct 60:6-60:26" ++ "\n" ++ "ResetWorkflow Method 157:21-157:34"

/-- What `parseCallHierarchyResponse` gives for `anonResponse`. -/
def anonParsed : Node :=
  ⟨[⟨⟨"ResetWorkflow.func()", ⟨"/r.go", 157, 21, 25⟩⟩, [⟨"/r.go", 174, 18, 31⟩]⟩,
    ⟨⟨"reapplyEventsToResetWorkflow", ⟨"/r.go", 312, 32, 60⟩⟩, [⟨"/r.go", 333, 11, 24⟩]⟩],
    ⟨"reapplyEvents", ⟨"/r.go", 715, 32, 45⟩⟩, []⟩

/-- What `CallHierarchy` gives for `anonResponse` and `anonListing`. -/
def anonNode : Node :=
  ⟨[⟨⟨"ResetWorkflow", ⟨"/r.go", 157, 21, 34⟩⟩, [⟨"/r.go", 174, 18, 31⟩]⟩,
    ⟨⟨"reapplyEventsToResetWorkflow", ⟨"/r.go", 312, 32, 60⟩⟩, [⟨"/r.go", 333, 11, 24⟩]⟩],
    ⟨"reapplyEvents", ⟨"/r.go", 715, 32, 45⟩⟩, []⟩

/-- The listing `Foo Method 10:2-10:5`. -/
def fooListing : List SymbolLine := [⟨"Foo", "Method", "10", "2", "10", "5"⟩]

/-- A listing with a name that has letters outside ASCII. -/
def umlautListing : List SymbolLine := [⟨"größe", "Function", "3", "6", "3", "11"⟩]

/-- A method named with its receiver, as in the listing quoted above
`parseSymbolsResponse`, before a function with the same identifier. -/
def methodListing : List SymbolLine :=
  [⟨"(*T).Bar", "Method", "7", "8", "7", "11"⟩, ⟨"Bar", "Function", "3", "1", "3", "4"⟩]

/-- A struct spanning the lines 10 to 12 before the function `Bar`. -/
def structListing : List SymbolLine :=
  [⟨"Foo", "Struct", "10", "2", "12", "1"⟩, ⟨"Bar", "Function", "3", "1", "3", "4"⟩]

/-- The function `Bar` between a struct and a method, each on one line. -/
def mixedListing : List SymbolLine :=
  [⟨"Foo", "Struct", "10", "2", "10", "5"⟩, ⟨"Bar", "Function", "3", "1", "3", "4"⟩,
    ⟨"Baz", "Method", "4", "1", "4", "2"⟩]

end Gopls

namespace Main
open Gopls D2

/-! ## Theorems about `BuildGraph` -/

theorem exec_induction {ch : String → Except String Node} (P : State → Prop)
    (hstep : ∀ s a s1, P s → step ch s a = some s1 → P s1) :
    ∀ sched s s1, P s → exec ch s sched = some s1 → P s1 := by
  intro sched
  induction sched with
  | nil =>
    intro s s1 hs h
    simp only [exec, Option.some.injEq] at h
    exact h ▸ hs
  | cons a sched ih =>
    intro s s1 hs h
    simp only [exec] at h
    cases hst : step ch s a with
    | none => simp [hst] at h
    | some s2 =>
      simp only [hst] at h
      exact ih s2 s1 (hstep s a s2 hs hst) h

/-- Inversion of `step`. -/
theorem step_cases {ch : String → Except String Node} {s s1 : State} {a : Action}
    (h : step ch s a = some s1) :
    (∃ f rest, s.coord = Coordinator.running ∧ s.tasks = f :: rest ∧
        s1 = { s with tasks := rest, workers := s.workers ++ [⟨f, PC.query⟩] }) ∨
    (∃ e rest, s.coord = Coordinator.running ∧ s.errors = e :: rest ∧
        s1 = { s with errors := rest, coord := Coordinator.returned ⟨[]⟩ (some e) }) ∨
    (s.coord = Coordinator.running ∧ s.done = true ∧
        s1 = { s with coord := Coordinator.returned s.g none }) ∨
    (∃ i w, s.workers.get? i = some w ∧ workerStep ch s i w = some s1) := by
  unfold step at h
  split at h
  · simp at h
  · cases a with
    | recvTask =>
      left
      simp only at h
      split at h
      · rename_i hc ht
        simp only [Option.some.injEq] at h
        exact ⟨_, _, hc, ht, h.symm⟩
      · simp at h
    | recvError =>
      right; left
      simp only at h
      split at h
      · rename_i hc ht
        simp only [Option.some.injEq] at h
        exact ⟨_, _, hc, ht, h.symm⟩
      · simp at h
    | recvDone =>
      right; right; left
      simp only at h
      split at h
      · rename_i hc
        split at h
        · rename_i hd
          simp only [Option.some.injEq] at h
          exact ⟨hc, hd, h.symm⟩
        · simp at h
      · simp at h
    | worker i =>
      right; right; right
      simp only at h
      split at h
      · rename_i w hw
        exact ⟨i, w, hw, h⟩
      · simp at h


theorem closeDone_fields (s : State) :
    (closeDone s).tasks = s.tasks ∧ (closeDone s).errors = s.errors ∧
    (closeDone s).counter = s.counter ∧ (closeDone s).visited = s.visited ∧
    (closeDone s).g = s.g ∧ (closeDone s).workers = s.workers ∧
    (closeDone s).coord = s.coord := by
  unfold closeDone
  split <;> simp

/-- Inversion of `workerStep`. -/
theorem workerStep_next {ch : String → Except String Node} {s s1 : State} {i : Nat}
    {w : Worker} (h : workerStep ch s i w = some s1) :
    ∃ s2 pc, workerNext ch w.f s w.pc = some (s2, pc) ∧ s1 = setPC s2 i w pc := by
  unfold workerStep at h
  split at h
  · rename_i s2 pc hn
    simp only [Option.some.injEq] at h
    exact ⟨s2, pc, hn, h.symm⟩
  · cases h

/-- A worker's step leaves the list of workers, the channel `errors` and the
coordinator as they are. -/
theorem workerNext_frame {ch : String → Except String Node} {f : Function} {s s2 : State}
    {pc pc2 : PC} (h : workerNext ch f s pc = some (s2, pc2)) :
    s2.workers = s.workers ∧ s2.errors = s.errors ∧ s2.coord = s.coord := by
  have cd := closeDone_fields s
  cases pc with
  | query =>
    simp only [workerNext] at h
    split at h <;> simp only [Option.some.injEq, Prod.mk.injEq] at h <;>
      exact h.1 ▸ ⟨rfl, rfl, rfl⟩
  | loop rest =>
    cases rest with
    | nil =>
      simp only [workerNext, Option.some.injEq, Prod.mk.injEq] at h
      exact h.1 ▸ ⟨rfl, rfl, rfl⟩
    | cons c rest =>
      simp only [workerNext] at h
      split at h <;> simp only [Option.some.injEq, Prod.mk.injEq] at h <;>
        exact h.1 ▸ ⟨rfl, rfl, rfl⟩
  | append c rest old =>
    simp only [workerNext, Option.some.injEq, Prod.mk.injEq] at h
    exact h.1 ▸ ⟨rfl, rfl, rfl⟩
  | visit c rest =>
    simp only [workerNext] at h
    split at h <;> simp only [Option.some.injEq, Prod.mk.injEq] at h <;>
      exact h.1 ▸ ⟨rfl, rfl, rfl⟩
  | incr c rest =>
    simp only [workerNext, Option.some.injEq, Prod.mk.injEq] at h
    exact h.1 ▸ ⟨rfl, rfl, rfl⟩
  | mark c rest =>
    simp only [workerNext, Option.some.injEq, Prod.mk.injEq] at h
    exact h.1 ▸ ⟨rfl, rfl, rfl⟩
  | send c rest =>
    simp only [workerNext] at h
    split at h
    · simp only [Option.some.injEq, Prod.mk.injEq] at h
      exact h.1 ▸ ⟨rfl, rfl, rfl⟩
    · cases h
  | exitBound =>
    simp only [workerNext] at h
    split at h <;> simp only [Option.some.injEq, Prod.mk.injEq] at h <;>
      exact h.1 ▸ ⟨rfl, rfl, rfl⟩
  | closeBound =>
    simp only [workerNext, Option.some.injEq, Prod.mk.injEq] at h
    exact h.1 ▸ ⟨cd.2.2.2.2.2.1, cd.2.1, cd.2.2.2.2.2.2⟩
  | exitDecr =>
    simp only [workerNext, Option.some.injEq, Prod.mk.injEq] at h
    exact h.1 ▸ ⟨rfl, rfl, rfl⟩
  | exitZero =>
    simp only [workerNext] at h
    split at h <;> simp only [Option.some.injEq, Prod.mk.injEq] at h <;>
      exact h.1 ▸ ⟨rfl, rfl, rfl⟩
  | closeZero =>
    simp only [workerNext, Option.some.injEq, Prod.mk.injEq] at h
    exact h.1 ▸ ⟨cd.2.2.2.2.2.1, cd.2.1, cd.2.2.2.2.2.2⟩
  | finished => simp [workerNext] at h

theorem noError_step {ch : String → Except String Node} (s : State) (a : Action) (s1 : State)
    (hs : NoError s) (h : step ch s a = some s1) : NoError s1 := by
  rcases step_cases h with ⟨f, rest, hc, _, rfl⟩ | ⟨e, rest, _, he, _⟩ | ⟨hc, _, rfl⟩ |
    ⟨i, w, _, hw⟩
  · exact ⟨hs.1, fun g e hg => by simp [hc] at hg⟩
  · rw [hs.1] at he; cases he
  · refine ⟨hs.1, fun g e hg => ?_⟩
    simp only [Coordinator.returned.injEq] at hg
    exact hg.2.symm
  · obtain ⟨s2, pc, hn, rfl⟩ := workerStep_next hw
    obtain ⟨_, he, hc⟩ := workerNext_frame hn
    refine ⟨by simpa [setPC, he] using hs.1, fun g e hg => ?_⟩
    exact hs.2 g e (by simpa [setPC, hc] using hg)

theorem countP_set_of_get (p : Worker → Bool) :
    ∀ (l : List Worker) (i : Nat) (w w1 : Worker), l.get? i = some w →
      (l.set i w1).countP p + (if p w then 1 else 0) = l.countP p + (if p w1 then 1 else 0) := by
  intro l
  induction l with
  | nil => intro i w w1 h; simp at h
  | cons x l ih =>
    intro i w w1 h
    cases i with
    | zero =>
      simp only [List.get?_cons_zero, Option.some.injEq] at h
      subst h
      simp only [List.set_cons_zero, List.countP_cons]
      omega
    | succ i =>
      simp only [List.get?_cons_succ] at h
      have := ih i w w1 h
      simp only [List.set_cons_succ, List.countP_cons]
      omega

/-- The invariant `Outstanding` after a worker's step, from how the step changes the
four numbers it relates. -/
theorem outstanding_setPC {s s2 : State} {i : Nat} {w : Worker} {pc : PC}
    (hs : Outstanding s) (hget : s.workers.get? i = some w) (hw : s2.workers = s.workers)
    (hnd : s2.visited.Nodup)
    (hle : (s2.visited.length : Int) + (if atMark ⟨w.f, pc⟩ then 1 else 0) +
        (if pastDecr w then 1 else 0) + s.counter.count ≤
      (s.visited.length : Int) + (if atMark w then 1 else 0) +
        (if pastDecr ⟨w.f, pc⟩ then 1 else 0) + s2.counter.count) :
    Outstanding (setPC s2 i w pc) := by
  obtain ⟨_, hlen⟩ := hs
  have k1 := countP_set_of_get pastDecr s.workers i w ⟨w.f, pc⟩ hget
  have k2 := countP_set_of_get atMark s.workers i w ⟨w.f, pc⟩ hget
  refine ⟨hnd, ?_⟩
  simp only [setPC, hw]
  split at hle <;> split at hle <;> split at hle <;> split at hle <;>
    simp_all only [if_true, if_false, Bool.false_eq_true] <;> omega

theorem markVisited_nodup (v : List Function) (x : Function) (h : v.Nodup) :
    (markVisited v x).Nodup ∧ (markVisited v x).length ≤ v.length + 1 := by
  unfold markVisited
  split
  · exact ⟨h, Nat.le_succ _⟩
  · rename_i hx
    refine ⟨?_, by simp⟩
    rw [List.nodup_append]
    refine ⟨h, List.nodup_singleton _, ?_⟩
    intro y hy hy1
    simp only [List.mem_singleton] at hy1
    exact hx (hy1 ▸ hy)

theorem outstanding_step {ch : String → Except String Node} (s : State) (a : Action)
    (s1 : State) (hs : Outstanding s) (h : step ch s a = some s1) : Outstanding s1 := by
  rcases step_cases h with ⟨f, rest, _, _, rfl⟩ | ⟨e, rest, _, _, rfl⟩ | ⟨_, _, rfl⟩ |
    ⟨i, w, hget, hw⟩
  · refine ⟨hs.1, ?_⟩
    simp only [List.countP_append, List.countP_cons, List.countP_nil, pastDecr, atMark]
    simpa using hs.2
  · exact hs
  · exact hs
  · obtain ⟨s2, pc, hn, rfl⟩ := workerStep_next hw
    have hfr := (workerNext_frame hn).1
    have cd := closeDone_fields s
    obtain ⟨f, wpc⟩ := w
    simp only at hn
    cases wpc with
    | query =>
      simp only [workerNext] at hn
      split at hn <;> simp only [Option.some.injEq, Prod.mk.injEq] at hn <;>
        obtain ⟨rfl, rfl⟩ := hn <;>
        exact outstanding_setPC hs hget rfl hs.1 (by simp [atMark, pastDecr])
    | loop rest =>
      cases rest with
      | nil =>
        simp only [workerNext, Option.some.injEq, Prod.mk.injEq] at hn
        obtain ⟨rfl, rfl⟩ := hn
        exact outstanding_setPC hs hget rfl hs.1 (by simp [atMark, pastDecr])
      | cons c rest =>
        simp only [workerNext] at hn
        split at hn <;> simp only [Option.some.injEq, Prod.mk.injEq] at hn <;>
          obtain ⟨rfl, rfl⟩ := hn <;>
          exact outstanding_setPC hs hget rfl hs.1 (by simp [atMark, pastDecr])
    | append c rest old =>
      simp only [workerNext, Option.some.injEq, Prod.mk.injEq] at hn
      obtain ⟨rfl, rfl⟩ := hn
      exact outstanding_setPC hs hget rfl hs.1 (by simp [atMark, pastDecr])
    | visit c rest =>
      simp only [workerNext] at hn
      split at hn <;> simp only [Option.some.injEq, Prod.mk.injEq] at hn <;>
        obtain ⟨rfl, rfl⟩ := hn <;>
        exact outstanding_setPC hs hget rfl hs.1 (by simp [atMark, pastDecr])
    | incr c rest =>
      simp only [workerNext, Option.some.injEq, Prod.mk.injEq] at hn
      obtain ⟨rfl, rfl⟩ := hn
      exact outstanding_setPC hs hget rfl hs.1 (by simp [atMark, pastDecr, Counter.incr]; omega)
    | mark c rest =>
      simp only [workerNext, Option.some.injEq, Prod.mk.injEq] at hn
      obtain ⟨rfl, rfl⟩ := hn
      have hm := markVisited_nodup s.visited c.Function hs.1
      refine outstanding_setPC hs hget rfl hm.1 ?_
      have := hm.2
      simp only [atMark, pastDecr, if_true, if_false, Bool.false_eq_true]
      omega
    | send c rest =>
      simp only [workerNext] at hn
      split at hn
      · simp only [Option.some.injEq, Prod.mk.injEq] at hn
        obtain ⟨rfl, rfl⟩ := hn
        exact outstanding_setPC hs hget rfl hs.1 (by simp [atMark, pastDecr])
      · cases hn
    | exitBound =>
      simp only [workerNext] at hn
      split at hn <;> simp only [Option.some.injEq, Prod.mk.injEq] at hn <;>
        obtain ⟨rfl, rfl⟩ := hn <;>
        exact outstanding_setPC hs hget rfl hs.1 (by simp [atMark, pastDecr])
    | closeBound =>
      simp only [workerNext, Option.some.injEq, Prod.mk.injEq] at hn
      obtain ⟨rfl, rfl⟩ := hn
      exact outstanding_setPC hs hget cd.2.2.2.2.2.1 (cd.2.2.2.1 ▸ hs.1)
        (by simp [atMark, pastDecr, cd.2.2.2.1, cd.2.2.1])
    | exitDecr =>
      simp only [workerNext, Option.some.injEq, Prod.mk.injEq] at hn
      obtain ⟨rfl, rfl⟩ := hn
      exact outstanding_setPC hs hget rfl hs.1 (by simp [atMark, pastDecr, Counter.decr])
    | exitZero =>
      simp only [workerNext] at hn
      split at hn <;> simp only [Option.some.injEq, Prod.mk.injEq] at hn <;>
        obtain ⟨rfl, rfl⟩ := hn <;>
        exact outstanding_setPC hs hget rfl hs.1 (by simp [atMark, pastDecr])
    | closeZero =>
      simp only [workerNext, Option.some.injEq, Prod.mk.injEq] at hn
      obtain ⟨rfl, rfl⟩ := hn
      exact outstanding_setPC hs hget cd.2.2.2.2.2.1 (cd.2.2.2.1 ▸ hs.1)
        (by simp [atMark, pastDecr, cd.2.2.2.1, cd.2.2.1])
    | finished => simp [workerNext] at hn

theorem testFree_setPC {f : Function} {s s2 : State} {i : Nat} {w : Worker} {pc : PC}
    (hs : TestFree f s) (hget : s.workers.get? i = some w)
    (he : ∀ e ∈ s2.g.Edges, e.From.Function.IsTest = false)
    (hv : ∀ x ∈ s2.visited, x.IsTest = true → x = f)
    (ht : ∀ x ∈ s2.tasks, x.IsTest = true → x = f)
    (hw : s2.workers = s.workers) (hc : s2.coord = s.coord) (hp : pcNonTest pc) :
    TestFree f (setPC s2 i w pc) := by
  refine ⟨he, hv, ht, ?_, ?_⟩
  · intro x hx
    simp only [setPC, hw] at hx
    rcases List.mem_or_eq_of_mem_set hx with hx | rfl
    · exact hs.workers x hx
    · exact ⟨hp, (hs.workers w (List.get?_mem hget)).2⟩
  · intro g e hg
    exact hs.returned g e (by simpa [setPC, hc] using hg)

theorem testFree_step {ch : String → Except String Node} {f : Function} (s : State)
    (a : Action) (s1 : State) (hs : TestFree f s) (h : step ch s a = some s1) :
    TestFree f s1 := by
  rcases step_cases h with ⟨x, rest, hc, ht, rfl⟩ | ⟨e, rest, _, _, rfl⟩ | ⟨_, _, rfl⟩ |
    ⟨i, w, hget, hw⟩
  · refine ⟨hs.edges, hs.visited, fun y hy => hs.tasks y (by rw [ht]; exact List.mem_cons_of_mem _ hy),
      ?_, fun g e hg => by simp [hc] at hg⟩
    intro y hy
    simp only [List.mem_append, List.mem_singleton] at hy
    rcases hy with hy | rfl
    · exact hs.workers y hy
    · exact ⟨trivial, hs.tasks x (by rw [ht]; exact List.mem_cons_self _ _)⟩
  · refine ⟨hs.edges, hs.visited, hs.tasks, hs.workers, ?_⟩
    intro g e hg ed hed
    simp only [Coordinator.returned.injEq] at hg
    rw [← hg.1] at hed
    simp at hed
  · refine ⟨hs.edges, hs.visited, hs.tasks, hs.workers, ?_⟩
    intro g e hg ed hed
    simp only [Coordinator.returned.injEq] at hg
    rw [← hg.1] at hed
    exact hs.edges ed hed
  · have cd := closeDone_fields s
    have hwpc := (hs.workers w (List.get?_mem hget)).1
    obtain ⟨s2, pc, hn, rfl⟩ := workerStep_next hw
    have hclose : TestFree f (setPC (closeDone s) i w PC.exitDecr) ∧
        TestFree f (setPC (closeDone s) i w PC.finished) :=
      ⟨testFree_setPC hs hget (by rw [cd.2.2.2.2.1]; exact hs.edges)
          (by rw [cd.2.2.2.1]; exact hs.visited) (by rw [cd.1]; exact hs.tasks)
          cd.2.2.2.2.2.1 cd.2.2.2.2.2.2 trivial,
        testFree_setPC hs hget (by rw [cd.2.2.2.2.1]; exact hs.edges)
          (by rw [cd.2.2.2.1]; exact hs.visited) (by rw [cd.1]; exact hs.tasks)
          cd.2.2.2.2.2.1 cd.2.2.2.2.2.2 trivial⟩
    cases hpc : w.pc with
    | query =>
      rw [hpc] at hn
      simp only [workerNext] at hn
      split at hn <;> simp only [Option.some.injEq, Prod.mk.injEq] at hn <;>
        obtain ⟨rfl, rfl⟩ := hn <;>
        exact testFree_setPC hs hget hs.edges hs.visited hs.tasks rfl rfl trivial
    | loop rest =>
      rw [hpc] at hn
      cases rest with
      | nil =>
        simp only [workerNext, Option.some.injEq, Prod.mk.injEq] at hn
        obtain ⟨rfl, rfl⟩ := hn
        exact testFree_setPC hs hget hs.edges hs.visited hs.tasks rfl rfl trivial
      | cons c rest =>
        simp only [workerNext] at hn
        split at hn <;> simp only [Option.some.injEq, Prod.mk.injEq] at hn <;>
          obtain ⟨rfl, rfl⟩ := hn
        · exact testFree_setPC hs hget hs.edges hs.visited hs.tasks rfl rfl trivial
        · rename_i hnt
          exact testFree_setPC hs hget hs.edges hs.visited hs.tasks rfl rfl
            ⟨by simpa using hnt, hs.edges⟩
    | append c rest old =>
      rw [hpc] at hn hwpc
      simp only [workerNext, Option.some.injEq, Prod.mk.injEq] at hn
      obtain ⟨rfl, rfl⟩ := hn
      refine testFree_setPC hs hget ?_ hs.visited hs.tasks rfl rfl hwpc.1
      intro e he
      simp only [List.mem_append, List.mem_singleton] at he
      rcases he with he | rfl
      · exact hwpc.2 e he
      · exact hwpc.1
    | visit c rest =>
      rw [hpc] at hn hwpc
      simp only [workerNext] at hn
      split at hn <;> simp only [Option.some.injEq, Prod.mk.injEq] at hn <;>
        obtain ⟨rfl, rfl⟩ := hn
      · exact testFree_setPC hs hget hs.edges hs.visited hs.tasks rfl rfl trivial
      · exact testFree_setPC hs hget hs.edges hs.visited hs.tasks rfl rfl hwpc
    | incr c rest =>
      rw [hpc] at hn hwpc
      simp only [workerNext, Option.some.injEq, Prod.mk.injEq] at hn
      obtain ⟨rfl, rfl⟩ := hn
      exact testFree_setPC hs hget hs.edges hs.visited hs.tasks rfl rfl hwpc
    | mark c rest =>
      rw [hpc] at hn hwpc
      simp only [workerNext, Option.some.injEq, Prod.mk.injEq] at hn
      obtain ⟨rfl, rfl⟩ := hn
      refine testFree_setPC hs hget hs.edges ?_ hs.tasks rfl rfl hwpc
      intro x hx hxt
      simp only [markVisited] at hx
      split at hx
      · exact hs.visited x hx hxt
      · simp only [List.mem_append, List.mem_singleton] at hx
        rcases hx with hx | rfl
        · exact hs.visited x hx hxt
        · simp only [pcNonTest] at hwpc
          rw [hwpc] at hxt
          cases hxt
    | send c rest =>
      rw [hpc] at hn hwpc
      simp only [workerNext] at hn
      split at hn
      · simp only [Option.some.injEq, Prod.mk.injEq] at hn
        obtain ⟨rfl, rfl⟩ := hn
        refine testFree_setPC hs hget hs.edges hs.visited ?_ rfl rfl trivial
        intro x hx hxt
        simp only [List.mem_append, List.mem_singleton] at hx
        rcases hx with hx | rfl
        · exact hs.tasks x hx hxt
        · simp only [pcNonTest] at hwpc
          rw [hwpc] at hxt
          cases hxt
      · cases hn
    | exitBound =>
      rw [hpc] at hn
      simp only [workerNext] at hn
      split at hn <;> simp only [Option.some.injEq, Prod.mk.injEq] at hn <;>
        obtain ⟨rfl, rfl⟩ := hn <;>
        exact testFree_setPC hs hget hs.edges hs.visited hs.tasks rfl rfl trivial
    | closeBound =>
      rw [hpc] at hn
      simp only [workerNext, Option.some.injEq, Prod.mk.injEq] at hn
      obtain ⟨rfl, rfl⟩ := hn
      exact hclose.1
    | exitDecr =>
      rw [hpc] at hn
      simp only [workerNext, Option.some.injEq, Prod.mk.injEq] at hn
      obtain ⟨rfl, rfl⟩ := hn
      exact testFree_setPC hs hget hs.edges hs.visited hs.tasks rfl rfl trivial
    | exitZero =>
      rw [hpc] at hn
      simp only [workerNext] at hn
      split at hn <;> simp only [Option.some.injEq, Prod.mk.injEq] at hn <;>
        obtain ⟨rfl, rfl⟩ := hn <;>
        exact testFree_setPC hs hget hs.edges hs.visited hs.tasks rfl rfl trivial
    | closeZero =>
      rw [hpc] at hn
      simp only [workerNext, Option.some.injEq, Prod.mk.injEq] at hn
      obtain ⟨rfl, rfl⟩ := hn
      exact hclose.2
    | finished =>
      rw [hpc] at hn
      simp [workerNext] at hn

theorem testFree_init (f : Function) : TestFree f (init f) := by
  refine ⟨?_, ?_, ?_, ?_, ?_⟩ <;> simp [init]

theorem noError_init (f : Function) : NoError (init f) := by
  simp [NoError, init]

theorem outstanding_init (f : Function) : Outstanding (init f) := by
  simp [Outstanding, init]

theorem containsChars_iff (sub : List Char) :
    ∀ s : List Char, containsChars sub s = true ↔ ∃ pre post, s = pre ++ sub ++ post := by
  intro s
  induction s with
  | nil =>
    simp only [containsChars, List.isPrefixOf_iff_prefix]
    constructor
    · intro h
      exact ⟨[], [], by simpa using (List.prefix_nil.mp h).symm⟩
    · rintro ⟨pre, post, h⟩
      have h1 : pre ++ sub ++ post = [] := h.symm
      simp only [List.append_eq_nil] at h1
      rw [h1.1.2]
  | cons c s ih =>
    simp only [containsChars, Bool.or_eq_true, List.isPrefixOf_iff_prefix, ih]
    constructor
    · rintro (⟨t, ht⟩ | ⟨pre, post, h⟩)
      · exact ⟨[], t, by simpa using ht.symm⟩
      · exact ⟨c :: pre, post, by simp [h]⟩
    · rintro ⟨pre, post, h⟩
      cases pre with
      | nil => exact Or.inl ⟨post, by simpa using h.symm⟩
      | cons x pre =>
        simp only [List.cons_append, List.cons.injEq] at h
        exact Or.inr ⟨pre, post, h.2⟩

/-- C1, at the failing schedule: the start function has two caller-less callers, no
query fails and the counter stays below `maxLineages` after every step of the
schedule. When one worker runs after the other, `BuildGraph` returns exactly the two
edges. When the two callers' workers both decrement the counter before either
compares it with zero, both find it zero and `done` is closed twice: the process
panics while the coordinator is still in its loop, no further step can run, and
`BuildGraph` does not return. -/
theorem two_callers_double_close :
    BuildGraph (callersOfStart 2) startFn schedTwoCallersInTurn =
      some (⟨[⟨siteIn "c" 10, startFn⟩, ⟨siteIn "c" 11, startFn⟩]⟩, none) ∧
    (exec (callersOfStart 2) (init startFn) schedTwoCallers).map
        (fun s => (s.panicked, s.done, s.coord, s.g.Edges.length)) =
      some (true, true, Coordinator.running, 2) ∧
    (List.range (schedTwoCallers.length + 1)).all (fun n =>
        decide ((stateAfter (callersOfStart 2) (schedTwoCallers.take n)).counter.count < maxLineages)) =
      true ∧
    ∀ a, step (callersOfStart 2) (stateAfter (callersOfStart 2) schedTwoCallers) a = none := by
  refine ⟨by decide!, by decide!, by decide!, ?_⟩
  intro a
  have h : (stateAfter (callersOfStart 2) schedTwoCallers).panicked = true := by decide!
  simp [step, h]

/-- C2, at the failing input: when the query of the start function fails, the worker
only prints the error; its deferred exit brings the counter to zero and closes
`done`, and `BuildGraph` returns the graph without edges and a nil error. In no
execution at all does `BuildGraph` return a non-nil error, since no statement
sends on `errors`. -/
theorem failed_query_returns_nil_error :
    BuildGraph failingQuery startFn schedFailingQuery = some (⟨[]⟩, none) ∧
    ∀ (callHierarchy : String → Except String Node) (f : Function) (sched : List Action)
      (g : Graph) (err : Option String),
      BuildGraph callHierarchy f sched = some (g, err) → err = none := by
  refine ⟨by decide!, ?_⟩
  intro ch f sched g err hb
  unfold BuildGraph at hb
  cases h : exec ch (init f) sched with
  | none => simp [h] at hb
  | some s =>
  have hr : s.result = some (g, err) := by simpa [h] using hb
  have hs : NoError s := exec_induction NoError noError_step sched _ _ (noError_init f) h
  unfold State.result at hr
  split at hr
  · cases hr
  · rename_i g1 e1 hc
    simp only [Option.some.injEq, Prod.mk.injEq] at hr
    exact hr.2 ▸ hs.2 g1 e1 hc

/-- C3, as stated, fails: with 21 callers of the start function, `BuildGraph` returns
with 22 distinct functions marked visited, more than `maxLineages`. -/
theorem visited_exceeds_bound :
    ¬ ∀ (callHierarchy : String → Except String Node) (f : Function) (sched : List Action)
      (s : State), exec callHierarchy (init f) sched = some s → s.result.isSome = true →
      s.visited.Nodup ∧ (s.visited.length : Int) ≤ maxLineages := by
  intro h
  have h1 := h (callersOfStart 21) startFn (schedManyCallers 21 ++ [Action.recvDone])
    (stateAfter (callersOfStart 21) (schedManyCallers 21 ++ [Action.recvDone]))
    (by decide!) (by decide!)
  revert h1
  decide!

/-- C3 (amended): what `maxLineages` is compared with is the counter of outstanding
functions, not the number of visited ones. In every reachable state, every statement
of a worker being a step of its own (the test of `visited`, `counter.incr()` and the
marking are three steps), the keys of `visited` are distinct and their number is at
most the counter plus the number of workers that have already decremented it; a
worker at the start of its deferred exit goes on to `close(done)` exactly when the
counter is `maxLineages` or more; and that `close(done)` closes `done` or panics. -/
theorem bound_counts_outstanding (callHierarchy : String → Except String Node)
    (f : Function) (sched : List Action) (s : State)
    (h : exec callHierarchy (init f) sched = some s) :
    s.visited.Nodup ∧
      (s.visited.length : Int) ≤ s.counter.count + (s.workers.countP pastDecr : Nat) ∧
      (∀ i w, s.workers.get? i = some w → w.pc = PC.exitBound → s.panicked = false →
        step callHierarchy s (Action.worker i) =
          some (setPC s i w
            (if maxLineages ≤ s.counter.count then PC.closeBound else PC.exitDecr))) ∧
      ∀ i w, s.workers.get? i = some w → w.pc = PC.closeBound → s.panicked = false →
        (step callHierarchy s (Action.worker i)).map (fun s1 => s1.done || s1.panicked) =
          some true := by
  have hs := exec_induction Outstanding outstanding_step sched _ _ (outstanding_init f) h
  refine ⟨hs.1, ?_, ?_, ?_⟩
  · have := hs.2
    omega
  · intro i w hw hpc hp
    simp only [step, hp, Bool.false_eq_true, if_false, hw, workerStep, hpc, workerNext,
      ge_iff_le]
    by_cases hc : maxLineages ≤ s.counter.count
    · simp only [hc, if_true]
    · simp only [hc, if_false]
  · intro i w hw hpc hp
    simp only [step, hp, Bool.false_eq_true, if_false, hw, workerStep, hpc, workerNext,
      Option.map_some', setPC, closeDone]
    cases hd : s.done <;> simp [hp]

/-- C3 (amended) at the crawl of 21 callers, after the start worker has compared the
counter with `maxLineages`: 22 functions are visited, the counter is 22 and no worker
has decremented it. At the crawl of one caller, right after `counter.incr()`, one
function is visited and the counter is 2. -/
theorem bound_counts_outstanding_witness :
    exec (callersOfStart 21) (init startFn) (schedManyCallers 21) =
        some (stateAfter (callersOfStart 21) (schedManyCallers 21)) ∧
      (stateAfter (callersOfStart 21) (schedManyCallers 21)).visited.Nodup ∧
      ((stateAfter (callersOfStart 21) (schedManyCallers 21)).visited.length : Int) ≤
        (stateAfter (callersOfStart 21) (schedManyCallers 21)).counter.count +
          ((stateAfter (callersOfStart 21) (schedManyCallers 21)).workers.countP pastDecr :
            Nat) ∧
      (exec (callersOfStart 21) (init startFn) (schedManyCallers 21)).map
          (fun s => (s.visited.length, s.counter.count, s.workers.countP pastDecr)) =
        some (22, 22, 0) ∧
      (exec (callersOfStart 1) (init startFn) ([Action.recvTask] ++ runs 0 5)).map
          (fun s => (s.visited.length, s.counter.count, s.workers.countP pastDecr)) =
        some (1, 2, 0) :=
  ⟨by decide!,
    (bound_counts_outstanding (callersOfStart 21) startFn (schedManyCallers 21) _
      (by decide!)).1,
    (bound_counts_outstanding (callersOfStart 21) startFn (schedManyCallers 21) _
      (by decide!)).2.1,
    by decide!, by decide!⟩

/-- C8: `IsTest` holds exactly when the lower-cased name contains "test"; and in every
execution of `BuildGraph` no edge of the graph, in particular of the returned graph,
has a test function as its `From.Function`, and no test function other than the
start function is marked visited, waits in `tasks`, or is the function of a worker. -/
theorem test_callers_contribute_nothing (callHierarchy : String → Except String Node)
    (f : Function) (sched : List Action) (s : State)
    (h : exec callHierarchy (init f) sched = some s) :
    (∀ x : Function, x.IsTest = true ↔
        ∃ pre post, (ToLower x.Name).data = pre ++ "test".data ++ post) ∧
    (∀ g err, s.result = some (g, err) → ∀ e ∈ g.Edges, e.From.Function.IsTest = false) ∧
    (∀ e ∈ s.g.Edges, e.From.Function.IsTest = false) ∧
    (∀ x ∈ s.visited, x.IsTest = true → x = f) ∧
    (∀ x ∈ s.tasks, x.IsTest = true → x = f) ∧
    (∀ w ∈ s.workers, w.f.IsTest = true → w.f = f) := by
  have hs : TestFree f s :=
    exec_induction (TestFree f) (fun s a s1 => testFree_step s a s1) sched _ _
      (testFree_init f) h
  refine ⟨fun x => containsChars_iff _ _, ?_, hs.edges, hs.visited, hs.tasks,
    fun w hw => (hs.workers w hw).2⟩
  intro g err hr
  unfold State.result at hr
  split at hr
  · cases hr
  · rename_i g1 e1 hc
    simp only [Option.some.injEq, Prod.mk.injEq] at hr
    exact hr.1 ▸ hs.returned g1 e1 hc

/-- C8 at a finished crawl whose start function is called by itself, by `TestF` and
by `c`: the returned graph has the two edges of the callers that are no tests. -/
theorem test_callers_contribute_nothing_witness :
    exec withTestCaller (init startFn) schedWithTestCaller =
        some (stateAfter withTestCaller schedWithTestCaller) ∧
      (stateAfter withTestCaller schedWithTestCaller).result =
        some (⟨[⟨siteIn "f" 1, startFn⟩, ⟨siteIn "c" 9, startFn⟩]⟩, none) ∧
      ∀ e ∈ (stateAfter withTestCaller schedWithTestCaller).g.Edges,
        e.From.Function.IsTest = false :=
  ⟨by decide!, by decide!,
    (test_callers_contribute_nothing withTestCaller startFn schedWithTestCaller _
      (by decide!)).2.2.1⟩

/-- C10, at the failing schedule: the start function has 20 caller-less callers. Its
worker exits with the counter at 21 and closes `done`; the worker of the first
caller then reaches its own deferred exit with `done` closed and the counter still
at 21, not below `maxLineages`, and its `close(done)` panics. -/
theorem done_closed_twice :
    (exec (callersOfStart 20) (init startFn) (schedManyCallers 20 ++ runs 1 2)).map
        (fun s => (s.done, s.panicked, s.counter.count, s.workers.map (fun w => w.pc))) =
      some (true, false, 21, [PC.exitDecr, PC.exitBound]) ∧
    (exec (callersOfStart 20) (init startFn) (schedManyCallers 20 ++ runs 1 3)).map
        (fun s => (s.done, s.panicked, s.counter.count, s.workers.map (fun w => w.pc))) =
      some (true, false, 21, [PC.exitDecr, PC.closeBound]) ∧
    (exec (callersOfStart 20) (init startFn) (schedManyCallers 20 ++ runs 1 4)).map
        (fun s => (s.done, s.panicked)) = some (true, true) := by
  refine ⟨?_, ?_, ?_⟩ <;> decide!

end Main

namespace Gopls

/-! ## Lemmas about the pattern matcher -/

/-- What a greedy repetition returns is a non-empty run of the class, followed by
text on which the continuation gives the returned result. -/
theorem greedy_sound {β : Type} (p : Char → Bool) (k : List Char → Option β) :
    ∀ (s cap : List Char) (r : β), greedy p k s = some (cap, r) →
      cap ≠ [] ∧ (∀ c ∈ cap, p c = true) ∧ ∃ rest, s = cap ++ rest ∧ k rest = some r := by
  intro s
  induction s with
  | nil => intro cap r h; simp [greedy] at h
  | cons c s ih =>
    intro cap r h
    simp only [greedy] at h
    split at h
    · rename_i hp
      split at h
      · rename_i cap1 r1 hg
        simp only [Option.some.injEq, Prod.mk.injEq] at h
        obtain ⟨rfl, rfl⟩ := h
        obtain ⟨_, hall, rest, hs, hk⟩ := ih cap1 r1 hg
        refine ⟨by simp, ?_, rest, by simp [hs], hk⟩
        intro x hx
        rcases List.mem_cons.mp hx with rfl | hx
        · exact hp
        · exact hall x hx
      · split at h
        · rename_i r1 hk
          simp only [Option.some.injEq, Prod.mk.injEq] at h
          obtain ⟨rfl, rfl⟩ := h
          exact ⟨by simp, by simpa using hp, s, by simp, hk⟩
        · cases h
    · cases h

/-- A greedy repetition fails when the continuation fails after every run. -/
theorem greedy_none {β : Type} (p : Char → Bool) (k : List Char → Option β) :
    ∀ b : List Char,
      (∀ e b1, e ≠ [] → b = e ++ b1 → (∀ c ∈ e, p c = true) → k b1 = none) →
      greedy p k b = none := by
  intro b
  induction b with
  | nil => intro _; rfl
  | cons c b ih =>
    intro h
    simp only [greedy]
    split
    · rename_i hp
      have h1 : greedy p k b = none := by
        apply ih
        intro e b1 he hb hall
        apply h (c :: e) b1 (by simp) (by simp [hb])
        intro x hx
        rcases List.mem_cons.mp hx with rfl | hx
        · exact hp
        · exact hall x hx
      have h2 : k b = none := h [c] b (by simp) (by simp) (by simpa using hp)
      simp [h1, h2]
    · rfl

/-- A greedy repetition takes the run `a` when the continuation succeeds after it
and fails after every longer run. -/
theorem greedy_eq_some {β : Type} (p : Char → Bool) (k : List Char → Option β) :
    ∀ (a b : List Char) (r : β), a ≠ [] → (∀ c ∈ a, p c = true) → k b = some r →
      (∀ e b1, e ≠ [] → b = e ++ b1 → (∀ c ∈ e, p c = true) → k b1 = none) →
      greedy p k (a ++ b) = some (a, r) := by
  intro a
  induction a with
  | nil => intro b r h; exact absurd rfl h
  | cons c a ih =>
    intro b r _ hall hk hfail
    have hc : p c = true := hall c (List.mem_cons_self _ _)
    cases a with
    | nil =>
      show greedy p k (c :: b) = some ([c], r)
      simp only [greedy, hc, if_true, greedy_none p k b hfail, hk]
    | cons d a =>
      have := ih b r (by simp) (fun x hx => hall x (List.mem_cons_of_mem _ hx)) hk hfail
      show greedy p k (c :: (d :: a ++ b)) = some (c :: d :: a, r)
      simp only [greedy, hc, if_true] at this ⊢
      simp only [this]

/-- A greedy repetition takes the whole run of the class when the continuation
succeeds after it. -/
theorem greedy_max {β : Type} (p : Char → Bool) (k : List Char → Option β)
    (a b : List Char) (r : β) (ha : a ≠ []) (hall : ∀ c ∈ a, p c = true)
    (hb : ∀ c ∈ b.head?, p c = false) (hk : k b = some r) :
    greedy p k (a ++ b) = some (a, r) := by
  apply greedy_eq_some p k a b r ha hall hk
  intro e b1 he hbe hpe
  exfalso
  cases e with
  | nil => exact he rfl
  | cons x e =>
    have h1 := hb x (by simp [hbe])
    have h2 := hpe x (List.mem_cons_self _ _)
    rw [h1] at h2
    cases h2

/-- The captured groups of a match are non-empty runs of the groups' classes. -/
theorem matchAt_groups :
    ∀ (re : Regex) (s : List Char) (caps : List (List Char)) (rest : List Char),
      matchAt re s = some (caps, rest) →
      List.Forall₂ (fun p cap => cap ≠ [] ∧ ∀ c ∈ cap, p c = true) (groupClasses re) caps := by
  intro re
  induction re with
  | nil =>
    intro s caps rest h
    simp only [matchAt, Option.some.injEq, Prod.mk.injEq] at h
    rw [← h.1]
    exact List.Forall₂.nil
  | cons x re ih =>
    intro s caps rest h
    cases x with
    | chr c =>
      cases s with
      | nil => simp [matchAt] at h
      | cons y s =>
        simp only [matchAt] at h
        split at h
        · exact ih s caps rest h
        · cases h
    | cls p =>
      cases s with
      | nil => simp [matchAt] at h
      | cons y s =>
        simp only [matchAt] at h
        split at h
        · exact ih s caps rest h
        · cases h
    | plus p =>
      simp only [matchAt] at h
      split at h
      · rename_i cap res hg
        simp only [Option.some.injEq] at h
        subst h
        obtain ⟨_, _, rest1, _, hk⟩ := greedy_sound p _ s cap _ hg
        exact ih rest1 caps rest hk
      · cases h
    | group p =>
      simp only [matchAt] at h
      split at h
      · rename_i cap caps1 rest1 hg
        simp only [Option.some.injEq, Prod.mk.injEq] at h
        obtain ⟨rfl, rfl⟩ := h
        obtain ⟨hne, hall, rest2, _, hk⟩ := greedy_sound p _ s cap _ hg
        exact List.Forall₂.cons ⟨hne, hall⟩ (ih rest2 caps1 rest1 hk)
      · cases h

/-- A successful search returns group 0 and the captured groups of some match. -/
theorem findSubmatch_groups (re : Regex) :
    ∀ s : List Char, findSubmatch re s = [] ∨
      ∃ m caps, findSubmatch re s = m :: caps ∧
        List.Forall₂ (fun p cap => cap ≠ [] ∧ ∀ c ∈ cap, p c = true) (groupClasses re) caps := by
  intro s
  induction s with
  | nil =>
    simp only [findSubmatch]
    split
    · rename_i caps rest h
      exact Or.inr ⟨_, _, rfl, matchAt_groups re _ _ _ h⟩
    · exact Or.inl rfl
  | cons c s ih =>
    simp only [findSubmatch]
    split
    · rename_i caps rest h
      exact Or.inr ⟨_, _, rfl, matchAt_groups re _ _ _ h⟩
    · exact ih

/-- The name captured from a symbol line is a non-empty run of word characters. -/
theorem symbol_name_is_word (line : String)
    (h : (FindStringSubmatch reSymbols line).length = 7) :
    ((FindStringSubmatch reSymbols line).getD 1 "").data ≠ [] ∧
      ∀ c ∈ ((FindStringSubmatch reSymbols line).getD 1 "").data, isWord c = true := by
  unfold FindStringSubmatch at h ⊢
  rcases findSubmatch_groups reSymbols line.data with h0 | ⟨m, caps, hm, hf⟩
  · rw [h0] at h
    simp at h
  · rw [hm]
    simp only [groupClasses, reSymbols] at hf
    cases hf with
    | cons h1 _ => exact h1

end Gopls

namespace Gopls

/-! ## Theorems about the anonymous-caller fix-up -/

theorem cutSuffix_of_append (X suffix : String) :
    CutSuffix (X ++ suffix) suffix = (X, true) := by
  unfold CutSuffix
  have h : suffix.data.isSuffixOf (X ++ suffix).data = true := by
    rw [List.isSuffixOf_iff_suffix, String.data_append]
    exact List.suffix_append _ _
  rw [if_pos h]
  simp only [String.data_append, List.length_append, Nat.add_sub_cancel, List.take_left',
    Prod.mk.injEq, and_true]

theorem cutSuffix_true (s suffix : String) (h : (CutSuffix s suffix).2 = true) :
    s = (CutSuffix s suffix).1 ++ suffix := by
  unfold CutSuffix at h ⊢
  split at h
  · rename_i hs
    rw [if_pos hs]
    rw [List.isSuffixOf_iff_suffix] at hs
    obtain ⟨t, ht⟩ := hs
    apply String.ext
    simp only [String.data_append]
    rw [← ht]
    simp
  · cases h

theorem isAnonymous_iff (f : Function) : f.isAnonymous.2 = true ↔ Anonymous f := by
  constructor
  · intro h
    exact ⟨f.isAnonymous.1, cutSuffix_true _ _ h⟩
  · rintro ⟨X, hX⟩
    unfold Function.isAnonymous
    rw [hX, cutSuffix_of_append]

theorem isAnonymous_name (f : Function) (X : String) (h : f.Name = X ++ ".func()") :
    f.isAnonymous = (X, true) := by
  unfold Function.isAnonymous
  rw [h, cutSuffix_of_append]

/-- What the loop of `GetFunction` returns has the sought name, a non-empty run of
word characters. -/
theorem lookupSymbol_name (name file : String) :
    ∀ (ls : List String) (f : Function), lookupSymbol name file ls = Except.ok f →
      f.Name = name ∧ f.Name.data ≠ [] ∧ ∀ c ∈ f.Name.data, isWord c = true := by
  intro ls
  induction ls with
  | nil => intro f h; cases h
  | cons l ls ih =>
    intro f h
    simp only [lookupSymbol] at h
    split at h
    · cases h
    · rename_i sym hsym
      split at h
      · rename_i hcond
        simp only [Except.ok.injEq] at h
        subst h
        refine ⟨hcond.2, ?_⟩
        unfold parseSymbolsResponse at hsym
        simp only at hsym
        split at hsym
        · simp only [Except.ok.injEq] at hsym
          subst hsym
          rcases hcond.1 with hk | hk <;> simp [symbol.zero] at hk
        · rename_i h7
          split at hsym
          · cases hsym
          · simp only [Except.ok.injEq] at hsym
            subst hsym
            exact symbol_name_is_word l (by simpa using h7)
      · exact ih f h

theorem getFunction_name (run : List String → Except String String) (name file : String)
    (f : Function) (h : GetFunction run name file = Except.ok f) :
    f.Name = name ∧ ¬ Anonymous f := by
  unfold GetFunction at h
  split at h
  · cases h
  · obtain ⟨hn, _, hw⟩ := lookupSymbol_name name file _ f h
    refine ⟨hn, ?_⟩
    rintro ⟨X, hX⟩
    have := hw ')' (by rw [hX]; simp)
    revert this
    decide

/-- The relation between a parsed caller and the caller `CallHierarchy` returns in
its place. -/
theorem resolveAnonymous_ok (run : List String → Except String String) :
    ∀ (cs cs1 : List CallSite), resolveAnonymous run cs = Except.ok cs1 →
      List.Forall₂ (fun c c1 => c1.Locations = c.Locations ∧ ¬ Anonymous c1.Function ∧
        (∀ X : String, c.Function.Name = X ++ ".func()" →
          GetFunction run X c.Function.Location.File = Except.ok c1.Function ∧
            c1.Function.Name = X) ∧
        (¬ Anonymous c.Function → c1 = c)) cs cs1 := by
  intro cs
  induction cs with
  | nil =>
    intro cs1 h
    simp only [resolveAnonymous, Except.ok.injEq] at h
    subst h
    exact List.Forall₂.nil
  | cons c cs ih =>
    intro cs1 h
    simp only [resolveAnonymous] at h
    split at h
    · rename_i hanon
      split at h
      · cases h
      · rename_i f hf
        split at h
        · cases h
        · rename_i cs2 hcs2
          simp only [Except.ok.injEq] at h
          subst h
          refine List.Forall₂.cons ⟨rfl, (getFunction_name run _ _ f hf).2, ?_, ?_⟩ (ih cs2 hcs2)
          · intro X hX
            have hx := isAnonymous_name c.Function X hX
            rw [hx] at hf
            exact ⟨hf, (getFunction_name run _ _ f hf).1⟩
          · intro hna
            exact absurd ((isAnonymous_iff _).mp hanon) hna
    · rename_i hanon
      split at h
      · cases h
      · rename_i cs2 hcs2
        simp only [Except.ok.injEq] at h
        subst h
        have hna : ¬ Anonymous c.Function := fun ha => hanon ((isAnonymous_iff _).mpr ha)
        refine List.Forall₂.cons ⟨rfl, hna, ?_, fun _ => rfl⟩ (ih cs2 hcs2)
        intro X hX
        exact absurd ⟨X, hX⟩ hna

theorem resolveAnonymous_error (run : List String → Except String String) :
    ∀ (pre : List CallSite) (c : CallSite) (post : List CallSite) (X e : String),
      (∀ x ∈ pre, ∀ Y : String, x.Function.Name = Y ++ ".func()" →
        ∃ g, GetFunction run Y x.Function.Location.File = Except.ok g) →
      c.Function.Name = X ++ ".func()" →
      GetFunction run X c.Function.Location.File = Except.error e →
      resolveAnonymous run (pre ++ c :: post) = Except.error e := by
  intro pre
  induction pre with
  | nil =>
    intro c post X e _ hX he
    simp only [List.nil_append, resolveAnonymous, isAnonymous_name c.Function X hX, he, if_true]
  | cons x pre ih =>
    intro c post X e hpre hX he
    have ih1 := ih c post X e (fun y hy => hpre y (List.mem_cons_of_mem _ hy)) hX he
    rw [List.cons_append, resolveAnonymous, ih1]
    split
    · rename_i hanon
      have hx := cutSuffix_true _ _ hanon
      obtain ⟨g, hg⟩ := hpre x (List.mem_cons_self _ _) _ hx
      unfold Function.isAnonymous
      rw [hg]
    · rfl

theorem forall₂_right {α β : Type} {R : α → β → Prop} {P : β → Prop}
    (h : ∀ a b, R a b → P b) :
    ∀ {l1 : List α} {l2 : List β}, List.Forall₂ R l1 l2 → ∀ b ∈ l2, P b := by
  intro l1 l2 hf
  induction hf with
  | nil => intro b hb; cases hb
  | cons hab _ ih =>
    intro b hb
    rcases List.mem_cons.mp hb with rfl | hb
    · exact h _ _ hab
    · exact ih b hb

theorem forall₂_left {α β : Type} {R : α → β → Prop} :
    ∀ {l1 : List α} {l2 : List β}, List.Forall₂ R l1 l2 → ∀ a ∈ l1, ∃ b ∈ l2, R a b := by
  intro l1 l2 hf
  induction hf with
  | nil => intro a ha; cases ha
  | cons hab _ ih =>
    intro a ha
    rcases List.mem_cons.mp ha with rfl | ha
    · exact ⟨_, List.mem_cons_self _ _, hab⟩
    · obtain ⟨b, hb, hr⟩ := ih a ha
      exact ⟨b, List.mem_cons_of_mem _ hb, hr⟩

/-- The loop of `CallHierarchy` succeeds when the lookup of every anonymous caller
does. -/
theorem resolveAnonymous_succeeds (run : List String → Except String String) :
    ∀ (cs : List CallSite),
      (∀ c ∈ cs, ∀ X : String, c.Function.Name = X ++ ".func()" →
        ∃ g, GetFunction run X c.Function.Location.File = Except.ok g) →
      ∃ cs1, resolveAnonymous run cs = Except.ok cs1 := by
  intro cs
  induction cs with
  | nil => intro _; exact ⟨[], rfl⟩
  | cons c cs ih =>
    intro h
    obtain ⟨cs1, hcs1⟩ := ih (fun x hx => h x (List.mem_cons_of_mem _ hx))
    simp only [resolveAnonymous, hcs1]
    split
    · rename_i hanon
      obtain ⟨g, hg⟩ := h c (List.mem_cons_self _ _) _ (cutSuffix_true _ _ hanon)
      unfold Function.isAnonymous
      rw [hg]
      exact ⟨_, rfl⟩
    · exact ⟨_, rfl⟩

theorem lookupsSucceed_spec (run : List String → Except String String)
    (cs : List CallSite) (h : lookupsSucceed run cs = true) :
    ∀ c ∈ cs, ∀ X : String, c.Function.Name = X ++ ".func()" →
      ∃ g, GetFunction run X c.Function.Location.File = Except.ok g := by
  intro c hc X hX
  unfold lookupsSucceed at h
  rw [List.all_eq_true] at h
  have h1 := h c hc
  rw [isAnonymous_name c.Function X hX] at h1
  simp only [Bool.not_true, Bool.false_or] at h1
  split at h1
  · rename_i g hg
    exact ⟨g, hg⟩
  · cases h1

/-- C4: let the call-hierarchy query at `position` print `output`, parsed as `parsed`.
(1) When the lookup of every caller `X.func()` of `parsed` succeeds, `CallHierarchy`
returns a node. (2) The node `CallHierarchy` returns has the function and the callees
of `parsed`, no caller of it carries the marker ".func()", and each parsed caller
`X.func()` is replaced, with its locations kept, by the function `GetFunction` finds
for `X` in the caller's defining file, whose name is `X`, while every other caller is
unchanged, in order. (3) When the lookup for an anonymous caller fails (those before
it having succeeded), `CallHierarchy` returns that error. -/
theorem callHierarchy_resolves_anonymous (run : List String → Except String String)
    (position output : String) (parsed : Node)
    (hrun : run ["gopls", "call_hierarchy", position] = Except.ok output)
    (hparse : parseCallHierarchyResponse output = Except.ok parsed) :
    ((∀ c ∈ parsed.Callers, ∀ X : String, c.Function.Name = X ++ ".func()" →
        ∃ g, GetFunction run X c.Function.Location.File = Except.ok g) →
      ∃ node, CallHierarchy run position = Except.ok node) ∧
    (∀ node, CallHierarchy run position = Except.ok node →
      node.Function = parsed.Function ∧ node.callees = parsed.callees ∧
        (∀ c1 ∈ node.Callers, ¬ ∃ X : String, c1.Function.Name = X ++ ".func()") ∧
        List.Forall₂ (fun c c1 => c1.Locations = c.Locations ∧ ¬ Anonymous c1.Function ∧
          (∀ X : String, c.Function.Name = X ++ ".func()" →
            GetFunction run X c.Function.Location.File = Except.ok c1.Function ∧
              c1.Function.Name = X) ∧
          (¬ Anonymous c.Function → c1 = c)) parsed.Callers node.Callers) ∧
    (∀ pre c post X e,
        parsed.Callers = pre ++ c :: post →
        (∀ x ∈ pre, ∀ Y : String, x.Function.Name = Y ++ ".func()" →
          ∃ g, GetFunction run Y x.Function.Location.File = Except.ok g) →
        c.Function.Name = X ++ ".func()" →
        GetFunction run X c.Function.Location.File = Except.error e →
        CallHierarchy run position = Except.error e) := by
  refine ⟨?_, ?_, ?_⟩
  · intro h
    obtain ⟨cs1, hcs1⟩ := resolveAnonymous_succeeds run parsed.Callers h
    exact ⟨{ parsed with Callers := cs1 }, by simp only [CallHierarchy, hrun, hparse, hcs1]⟩
  · intro node h
    simp only [CallHierarchy, hrun, hparse] at h
    split at h
    · cases h
    · rename_i callers hres
      simp only [Except.ok.injEq] at h
      subst h
      have hf := resolveAnonymous_ok run _ _ hres
      exact ⟨rfl, rfl, fun c1 hc1 => forall₂_right (fun _ _ h => h.2.1) hf c1 hc1, hf⟩
  · intro pre c post X e hsplit hpre hX he
    simp only [CallHierarchy, hrun, hparse, hsplit,
      resolveAnonymous_error run pre c post X e hpre hX he]

/-- C4 on `anonResponse` and `anonListing`: the lookup of the one anonymous caller
succeeds, `CallHierarchy` returns `anonNode`, and in it the caller
`ResetWorkflow.func()` of `anonParsed` has become the method `ResetWorkflow` that the
listing defines at 157:21-34, with the call location 174:18-31 kept, while the
caller `reapplyEventsToResetWorkflow` is unchanged. -/
theorem callHierarchy_resolves_anonymous_witness :
    goplsFor "/r.go:715:32" anonResponse anonListing
        ["gopls", "call_hierarchy", "/r.go:715:32"] = Except.ok anonResponse ∧
      parseCallHierarchyResponse anonResponse = Except.ok anonParsed ∧
      anonParsed.Callers.map (fun c => c.Function.Name) =
        ["ResetWorkflow.func()", "reapplyEventsToResetWorkflow"] ∧
      CallHierarchy (goplsFor "/r.go:715:32" anonResponse anonListing) "/r.go:715:32" =
        Except.ok anonNode ∧
      anonNode.Callers =
        [⟨⟨"ResetWorkflow", ⟨"/r.go", 157, 21, 34⟩⟩, [⟨"/r.go", 174, 18, 31⟩]⟩,
          ⟨⟨"reapplyEventsToResetWorkflow", ⟨"/r.go", 312, 32, 60⟩⟩,
            [⟨"/r.go", 333, 11, 24⟩]⟩] ∧
      (∃ node, CallHierarchy (goplsFor "/r.go:715:32" anonResponse anonListing)
        "/r.go:715:32" = Except.ok node) ∧
      ∀ c1 ∈ anonNode.Callers, ¬ ∃ X : String, c1.Function.Name = X ++ ".func()" :=
  ⟨by decide!, by decide!, by decide!, by decide!, by decide!,
    (callHierarchy_resolves_anonymous (goplsFor "/r.go:715:32" anonResponse anonListing)
      "/r.go:715:32" anonResponse anonParsed (by decide!) (by decide!)).1
      (lookupsSucceed_spec _ _ (by decide!)),
    ((callHierarchy_resolves_anonymous (goplsFor "/r.go:715:32" anonResponse anonListing)
      "/r.go:715:32" anonResponse anonParsed (by decide!) (by decide!)).2.1 anonNode
      (by decide!)).2.2.1⟩

/-- An anonymous function nested in an anonymous function is not resolved: for a
parsed caller `X.func().func()` the name sought is `X.func()`, which no symbol line
carries, so `CallHierarchy` returns an error and no node. -/
theorem nested_anonymous_caller_fails (run : List String → Except String String)
    (position output : String) (parsed : Node)
    (hrun : run ["gopls", "call_hierarchy", position] = Except.ok output)
    (hparse : parseCallHierarchyResponse output = Except.ok parsed)
    (c : CallSite) (hc : c ∈ parsed.Callers) (X : String)
    (hX : c.Function.Name = X ++ ".func().func()") :
    ∃ e, CallHierarchy run position = Except.error e := by
  cases h : CallHierarchy run position with
  | error e => exact ⟨e, rfl⟩
  | ok node =>
    exfalso
    simp only [CallHierarchy, hrun, hparse] at h
    split at h
    · cases h
    · rename_i callers hres
      obtain ⟨c1, _, _, hna, hrep, _⟩ := forall₂_left (resolveAnonymous_ok run _ _ hres) c hc
      have hX1 : c.Function.Name = (X ++ ".func()") ++ ".func()" := by
        rw [hX, String.append_assoc]
        rfl
      exact hna ⟨X, (hrep _ hX1).2⟩

/-- The nested anonymous caller on a concrete response: the file defines `Outer`,
and `CallHierarchy` fails to locate `Outer.func()`. -/
theorem nested_anonymous_caller_example :
    CallHierarchy
        (goplsFor "/r.go:1:1"
          ("caller[0]: ranges 1:2-3 in /r.go from/to function Outer.func().func() in /r.go:5:6-7" ++
            "\n" ++ "identifier: function f in /r.go:1:1-2")
          "Outer Function 5:6-5:11")
        "/r.go:1:1" =
      Except.error "failed to locate symbol Outer.func() in file /r.go" := by
  decide!

end Gopls

namespace Gopls

/-! ## Theorems about the call-hierarchy parser on well-formed blocks -/

theorem reCallSite_eq :
    reCallSite = lit "calle" ++ (Re.cls (fun c => c = 'e' || c = 'r') :: Re.chr '[' ::
      Re.plus isDigit :: (lit "]: ranges " ++ (Re.group anyChar :: (lit " in " ++
      (Re.group anyChar :: (lit " from/to function " ++ (Re.group anyChar :: (lit " in " ++
      (Re.group anyChar :: reTail))))))))) := rfl

theorem reFunctionDef_eq :
    reFunctionDef = lit "function " ++ (Re.group isWord :: (lit " in " ++
      (Re.group notSpace :: reTail))) := rfl

theorem matchAt_lit (l : String) (r : Regex) (s : List Char) :
    matchAt (lit l ++ r) (l.data ++ s) = matchAt r s := by
  unfold lit
  induction l.data with
  | nil => rfl
  | cons c l ih => simpa [matchAt] using ih

/-- A match consumes a literal character of the pattern for each one it has. -/
theorem matchAt_count (ch : Char) :
    ∀ (re : Regex) (s : List Char) (caps : List (List Char)) (rest : List Char),
      matchAt re s = some (caps, rest) → countLit ch re + rest.count ch ≤ s.count ch := by
  intro re
  induction re with
  | nil =>
    intro s caps rest h
    simp only [matchAt, Option.some.injEq, Prod.mk.injEq] at h
    simp [countLit, h.2]
  | cons x re ih =>
    intro s caps rest h
    cases x with
    | chr c =>
      cases s with
      | nil => simp [matchAt] at h
      | cons y s =>
        simp only [matchAt] at h
        split at h
        · rename_i hy
          have := ih s caps rest h
          subst hy
          simp only [countLit, List.count_cons, beq_iff_eq]
          split <;> omega
        · cases h
    | cls p =>
      cases s with
      | nil => simp [matchAt] at h
      | cons y s =>
        simp only [matchAt] at h
        split at h
        · have := ih s caps rest h
          simp only [countLit, List.count_cons]
          omega
        · cases h
    | plus p =>
      simp only [matchAt] at h
      split at h
      · rename_i cap res hg
        simp only [Option.some.injEq] at h
        subst h
        obtain ⟨_, _, rest1, hs, hk⟩ := greedy_sound p _ s cap _ hg
        have := ih rest1 caps rest hk
        simp only [countLit, hs, List.count_append]
        omega
      · cases h
    | group p =>
      simp only [matchAt] at h
      split at h
      · rename_i cap caps1 rest1 hg
        simp only [Option.some.injEq, Prod.mk.injEq] at h
        obtain ⟨rfl, rfl⟩ := h
        obtain ⟨_, _, rest2, hs, hk⟩ := greedy_sound p _ s cap _ hg
        have := ih rest2 caps1 rest1 hk
        simp only [countLit, hs, List.count_append]
        omega
      · cases h

/-- A greedy repetition stops in front of the separator `ch` when the text from
there on has no more characters `ch` than the rest of the pattern needs. -/
theorem greedy_sep (p : Char → Bool) (r : Regex) (ch : Char) (a b0 : List Char)
    (res : List (List Char) × List Char) (ha : a ≠ []) (hall : ∀ c ∈ a, p c = true)
    (hk : matchAt r (ch :: b0) = some res)
    (hcount : (ch :: b0).count ch ≤ countLit ch r) :
    greedy p (matchAt r) (a ++ ch :: b0) = some (a, res) := by
  apply greedy_eq_some p _ a _ res ha hall hk
  intro e b1 he hb _
  cases e with
  | nil => exact absurd rfl he
  | cons x e =>
    simp only [List.cons_append, List.cons.injEq] at hb
    obtain ⟨rfl, rfl⟩ := hb
    cases hm : matchAt r b1 with
    | none => rfl
    | some res1 =>
      exfalso
      have := matchAt_count ch r b1 res1.1 res1.2 hm
      simp only [List.count_cons_self, List.count_append] at hcount
      omega

theorem matchAt_group_sep (p : Char → Bool) (r : Regex) (ch : Char) (a b0 : List Char)
    (caps : List (List Char)) (rest : List Char) (ha : a ≠ [])
    (hall : ∀ c ∈ a, p c = true) (hk : matchAt r (ch :: b0) = some (caps, rest))
    (hcount : (ch :: b0).count ch ≤ countLit ch r) :
    matchAt (Re.group p :: r) (a ++ ch :: b0) = some (a :: caps, rest) := by
  simp only [matchAt, greedy_sep p r ch a b0 (caps, rest) ha hall hk hcount]

theorem matchAt_group_max (p : Char → Bool) (r : Regex) (a b : List Char)
    (caps : List (List Char)) (rest : List Char) (ha : a ≠ [])
    (hall : ∀ c ∈ a, p c = true) (hb : ∀ c ∈ b.head?, p c = false)
    (hk : matchAt r b = some (caps, rest)) :
    matchAt (Re.group p :: r) (a ++ b) = some (a :: caps, rest) := by
  simp only [matchAt, greedy_max p (matchAt r) a b (caps, rest) ha hall hb hk]

theorem matchAt_plus_max (p : Char → Bool) (r : Regex) (a b : List Char)
    (caps : List (List Char)) (rest : List Char) (ha : a ≠ [])
    (hall : ∀ c ∈ a, p c = true) (hb : ∀ c ∈ b.head?, p c = false)
    (hk : matchAt r b = some (caps, rest)) :
    matchAt (Re.plus p :: r) (a ++ b) = some (caps, rest) := by
  simp only [matchAt, greedy_max p (matchAt r) a b (caps, rest) ha hall hb hk]

theorem matchAt_chr (c : Char) (r : Regex) (s : List Char) :
    matchAt (Re.chr c :: r) (c :: s) = matchAt r s := by
  simp only [matchAt, if_true]

theorem matchAt_chr_ne (c x : Char) (r : Regex) (s : List Char) (h : x ≠ c) :
    matchAt (Re.chr c :: r) (x :: s) = none := by
  simp only [matchAt, h, if_false]

/-- The pattern `(\d+):(\d+)-(\d+)` on a range followed by text that does not start
with a digit. -/
theorem matchAt_rangePattern (l s e tail : List Char) (hl : Digits l) (hs : Digits s)
    (he : Digits e) (ht : ∀ c ∈ tail.head?, isDigit c = false) :
    matchAt rangePattern (l ++ ':' :: (s ++ '-' :: (e ++ tail))) = some ([l, s, e], tail) := by
  unfold rangePattern
  apply matchAt_group_max _ _ _ _ _ _ hl.1 hl.2 (by simp; decide)
  rw [matchAt_chr]
  apply matchAt_group_max _ _ _ _ _ _ hs.1 hs.2 (by simp; decide)
  rw [matchAt_chr]
  exact matchAt_group_max _ _ _ _ _ _ he.1 he.2 ht rfl

theorem digits_count (l : List Char) (h : Digits l) (ch : Char) (hch : isDigit ch = false) :
    l.count ch = 0 := by
  rw [List.count_eq_zero]
  intro hmem
  rw [h.2 ch hmem] at hch
  cases hch

theorem token_count (s : String) (h : Token s) (ch : Char) (hch : isSpace ch = true) :
    s.data.count ch = 0 := by
  rw [List.count_eq_zero]
  intro hmem
  rw [h.2 ch hmem] at hch
  cases hch

theorem token_anyChar (s : String) (h : Token s) : ∀ c ∈ s.data, anyChar c = true := by
  intro c hc
  have := h.2 c hc
  unfold anyChar
  by_cases hn : c = '\n'
  · subst hn
    revert this
    decide
  · simp [hn]

theorem token_notSpace (s : String) (h : Token s) : ∀ c ∈ s.data, notSpace c = true := by
  intro c hc
  have := h.2 c hc
  by_contra hns
  have h1 : isSpace c = true := by
    unfold notSpace at hns
    simp only [Bool.not_eq_true', Bool.not_eq_false, Bool.or_eq_true, decide_eq_true_eq,
      Bool.not_eq_true] at hns
    unfold isSpace
    rcases hns with (((h | h) | h) | h) | h <;> simp [h]
  rw [this] at h1
  cases h1

theorem numeral_digits (s : String) (h : Numeral s) : Digits s.data := ⟨h.1, h.2.1⟩

theorem matchAt_cls (p : Char → Bool) (x : Char) (r : Regex) (s : List Char)
    (h : p x = true) : matchAt (Re.cls p :: r) (x :: s) = matchAt r s := by
  simp only [matchAt, h, if_true]

theorem matchAt_reCallSite (x : Char) (hx : (x = 'e' || x = 'r') = true)
    (idx R file name defFile dl ds de : List Char)
    (hidx : Digits idx) (hR : R ≠ [] ∧ ∀ c ∈ R, anyChar c = true)
    (hfile : Blankless file) (hname : Blankless name) (hdef : Blankless defFile)
    (hdl : Digits dl) (hds : Digits ds) (hde : Digits de) :
    matchAt reCallSite ("calle".data ++ x :: '[' :: (idx ++ ("]: ranges ".data ++ (R ++
      (" in ".data ++ (file ++ (" from/to function ".data ++ (name ++ (" in ".data ++
      (defFile ++ ':' :: (dl ++ ':' :: (ds ++ '-' :: de)))))))))))) =
      some ([R, file, name, defFile, dl, ds, de], []) := by
  have c1 : ∀ l, Digits l → l.count ':' = 0 := fun l h => digits_count l h ':' (by decide)
  have c2 : ∀ l, Digits l → l.count ' ' = 0 := fun l h => digits_count l h ' ' (by decide)
  have h5 : matchAt reTail (':' :: (dl ++ ':' :: (ds ++ '-' :: de))) =
      some ([dl, ds, de], []) := by
    unfold reTail
    rw [matchAt_chr]
    have := matchAt_rangePattern dl ds de [] hdl hds hde (by simp)
    simpa using this
  have h4 : matchAt (Re.group anyChar :: reTail)
      (defFile ++ ':' :: (dl ++ ':' :: (ds ++ '-' :: de))) =
      some ([defFile, dl, ds, de], []) := by
    apply matchAt_group_sep _ _ _ _ _ _ _ hdef.1 hdef.2.1 h5
    have : countLit ':' reTail = 2 := by decide
    rw [this]
    simp [List.count_cons, List.count_append, c1 dl hdl, c1 ds hds, c1 de hde]
  have h3 : matchAt (Re.group anyChar :: (lit " in " ++ (Re.group anyChar :: reTail)))
      (name ++ ' ' :: ("in ".data ++ (defFile ++ ':' :: (dl ++ ':' :: (ds ++ '-' :: de))))) =
      some ([name, defFile, dl, ds, de], []) := by
    apply matchAt_group_sep _ _ _ _ _ _ _ hname.1 hname.2.1
    · exact (matchAt_lit " in " _ _).trans h4
    · have : countLit ' ' (lit " in " ++ (Re.group anyChar :: reTail)) = 2 := by decide
      rw [this]
      simp [List.count_cons, List.count_append, c2 dl hdl, c2 ds hds, c2 de hde, hdef.2.2]
  have h2 : matchAt (Re.group anyChar :: (lit " from/to function " ++ (Re.group anyChar ::
      (lit " in " ++ (Re.group anyChar :: reTail)))))
      (file ++ ' ' :: ("from/to function ".data ++ (name ++ ' ' :: ("in ".data ++
        (defFile ++ ':' :: (dl ++ ':' :: (ds ++ '-' :: de))))))) =
      some ([file, name, defFile, dl, ds, de], []) := by
    apply matchAt_group_sep _ _ _ _ _ _ _ hfile.1 hfile.2.1
    · exact (matchAt_lit " from/to function " _ _).trans h3
    · have : countLit ' ' (lit " from/to function " ++ (Re.group anyChar ::
          (lit " in " ++ (Re.group anyChar :: reTail)))) = 5 := by decide
      rw [this]
      simp [List.count_cons, List.count_append, c2 dl hdl, c2 ds hds, c2 de hde, hdef.2.2,
        hname.2.2]
  have h1 : matchAt (Re.group anyChar :: (lit " in " ++ (Re.group anyChar ::
      (lit " from/to function " ++ (Re.group anyChar ::
      (lit " in " ++ (Re.group anyChar :: reTail)))))))
      (R ++ ' ' :: ("in ".data ++ (file ++ ' ' :: ("from/to function ".data ++
        (name ++ ' ' :: ("in ".data ++
        (defFile ++ ':' :: (dl ++ ':' :: (ds ++ '-' :: de))))))))) =
      some ([R, file, name, defFile, dl, ds, de], []) := by
    apply matchAt_group_sep _ _ _ _ _ _ _ hR.1 hR.2
    · exact (matchAt_lit " in " _ _).trans h2
    · have : countLit ' ' (lit " in " ++ (Re.group anyChar ::
          (lit " from/to function " ++ (Re.group anyChar ::
          (lit " in " ++ (Re.group anyChar :: reTail)))))) = 7 := by decide
      rw [this]
      simp [List.count_cons, List.count_append, c2 dl hdl, c2 ds hds, c2 de hde, hdef.2.2,
        hname.2.2, hfile.2.2]
  rw [reCallSite_eq, matchAt_lit, matchAt_cls _ _ _ _ hx, matchAt_chr]
  exact matchAt_plus_max isDigit _ idx _ _ _ hidx.1 hidx.2 (by simp; decide)
    ((matchAt_lit "]: ranges " _ _).trans h1)

theorem atoi_numeral (s : String) (h : Numeral s) : (Atoi s).1 = numeralValue s := by
  obtain ⟨hne, hdig, hlt⟩ := h
  unfold Atoi numeralValue
  cases hs : s.data with
  | nil => exact absurd hs hne
  | cons d t =>
    have hd : isDigit d = true := hdig d (by rw [hs]; exact List.mem_cons_self _ _)
    have h1 : d ≠ '+' := by rintro rfl; revert hd; decide
    have h2 : d ≠ '-' := by rintro rfl; revert hd; decide
    have hall : (d :: t).all isDigit = true := by
      rw [List.all_eq_true]
      intro x hx
      exact hdig x (by rw [hs]; exact hx)
    rw [hs] at hlt
    split
    · rename_i heq
      simp only [List.cons.injEq] at heq
      exact absurd heq.1 h1
    · rename_i heq
      simp only [List.cons.injEq] at heq
      exact absurd heq.1 h2
    · simp only [List.isEmpty_cons, hall, Bool.not_true, Bool.or_self, Bool.false_eq_true,
        if_false]
      rw [if_neg (by omega)]

theorem mustInt_numeral (s : String) (h : Numeral s) : mustInt s = numeralValue s :=
  atoi_numeral s h

theorem findSubmatch_of_matchAt (re : Regex) (s : List Char) (caps : List (List Char))
    (rest : List Char) (hs : s ≠ []) (h : matchAt re s = some (caps, rest)) :
    findSubmatch re s = s.take (s.length - rest.length) :: caps := by
  cases s with
  | nil => exact absurd rfl hs
  | cons c s => simp only [findSubmatch, h]

theorem findSubmatch_skip (re : Regex) (c : Char) (s : List Char)
    (h : matchAt re (c :: s) = none) : findSubmatch re (c :: s) = findSubmatch re s := by
  simp only [findSubmatch, h]

theorem findAllSubmatch_skip (re : Regex) :
    ∀ (x y : List Char), findAllSubmatch re x.length (x ++ y) = findAllSubmatch re 0 y := by
  intro x
  induction x with
  | nil => intro y; rfl
  | cons c x ih =>
    intro y
    simp only [List.length_cons, List.cons_append, findAllSubmatch]
    exact ih y

theorem findAllSubmatch_match (re : Regex) (c : Char) (m tail : List Char)
    (caps : List (List Char)) (h : matchAt re (c :: m ++ tail) = some (caps, tail)) :
    findAllSubmatch re 0 (c :: m ++ tail) = ((c :: m) :: caps) :: findAllSubmatch re 0 tail := by
  have h1 : (c :: (m ++ tail)).length - tail.length = m.length + 1 := by
    simp only [List.length_cons, List.length_append]
    omega
  have h2 : (c :: (m ++ tail)).take (m.length + 1) = c :: m := by
    simp [List.take_succ_cons]
  show findAllSubmatch re 0 (c :: (m ++ tail)) = _
  rw [findAllSubmatch]
  have h3 : matchAt re (c :: (m ++ tail)) = some (caps, tail) := h
  simp only [h3, h1, h2, Nat.add_sub_cancel, findAllSubmatch_skip]

theorem findAllSubmatch_nomatch (re : Regex) (c : Char) (s : List Char)
    (h : matchAt re (c :: s) = none) :
    findAllSubmatch re 0 (c :: s) = findAllSubmatch re 0 s := by
  simp only [findAllSubmatch, h]

theorem rangeText_data (r : RangeText) :
    r.text.data = r.line.data ++ ':' :: (r.startCol.data ++ '-' :: r.endCol.data) := by
  simp [RangeText.text, String.data_append]

theorem rangeText_ne_nil (r : RangeText) (h : r.WF) : r.text.data ≠ [] := by
  rw [rangeText_data]
  have := h.1.1
  intro hnil
  simp only [List.append_eq_nil] at hnil
  exact this hnil.1

theorem rangesText_cons_cons (r r2 : RangeText) (rs : List RangeText) :
    (rangesText (r :: r2 :: rs)).data =
      r.text.data ++ ',' :: ' ' :: (rangesText (r2 :: rs)).data := by
  simp [rangesText, String.data_append]

theorem rangePattern_nomatch (c : Char) (s : List Char) (h : isDigit c = false) :
    matchAt rangePattern (c :: s) = none := by
  simp [rangePattern, matchAt, greedy, h]

/-- The ranges found in the ranges text of a line: one for each range, in order. -/
theorem findAllSubmatch_rangesText :
    ∀ rs : List RangeText, (∀ r ∈ rs, r.WF) →
      findAllSubmatch rangePattern 0 (rangesText rs).data =
        rs.map (fun r => [r.text.data, r.line.data, r.startCol.data, r.endCol.data]) := by
  intro rs
  induction rs with
  | nil => intro _; rfl
  | cons r rs ih =>
    intro hwf
    have hr := hwf r (List.mem_cons_self _ _)
    have hl := numeral_digits _ hr.1
    have hs := numeral_digits _ hr.2.1
    have he := numeral_digits _ hr.2.2
    obtain ⟨c, m, hcm⟩ : ∃ c m, r.text.data = c :: m := by
      cases hd : r.text.data with
      | nil => exact absurd hd (rangeText_ne_nil r hr)
      | cons c m => exact ⟨c, m, rfl⟩
    cases rs with
    | nil =>
      have hm := matchAt_rangePattern _ _ _ [] hl hs he (by simp)
      rw [List.append_nil, ← rangeText_data, hcm] at hm
      have := findAllSubmatch_match rangePattern c m [] [_, _, _] (by simpa using hm)
      simp only [List.append_nil] at this
      simp only [rangesText, hcm, this, List.map_cons, List.map_nil, findAllSubmatch]
    | cons r2 rs =>
      have ih1 := ih (fun x hx => hwf x (List.mem_cons_of_mem _ hx))
      have hm := matchAt_rangePattern _ _ _ (',' :: ' ' :: (rangesText (r2 :: rs)).data)
        hl hs he (by simp; decide)
      have e1 : r.line.data ++ ':' :: (r.startCol.data ++ '-' ::
          (r.endCol.data ++ ',' :: ' ' :: (rangesText (r2 :: rs)).data)) =
          c :: m ++ ',' :: ' ' :: (rangesText (r2 :: rs)).data := by
        rw [← hcm, rangeText_data]
        simp
      rw [e1] at hm
      rw [rangesText_cons_cons, hcm, findAllSubmatch_match rangePattern c m _ _ hm,
        findAllSubmatch_nomatch _ _ _ (rangePattern_nomatch ',' _ (by decide)),
        findAllSubmatch_nomatch _ _ _ (rangePattern_nomatch ' ' _ (by decide)), ih1]
      simp only [List.map_cons, hcm]

theorem digit_ne_newline (c : Char) (h : isDigit c = true) : anyChar c = true := by
  unfold anyChar
  by_cases hn : c = '\n'
  · subst hn; revert h; decide
  · simp [hn]

theorem rangeText_anyChar (r : RangeText) (h : r.WF) : ∀ c ∈ r.text.data, anyChar c = true := by
  intro c hc
  rw [rangeText_data] at hc
  simp only [List.mem_append, List.mem_cons] at hc
  rcases hc with hc | rfl | hc | rfl | hc
  · exact digit_ne_newline c (h.1.2.1 c hc)
  · decide
  · exact digit_ne_newline c (h.2.1.2.1 c hc)
  · decide
  · exact digit_ne_newline c (h.2.2.2.1 c hc)

theorem rangesText_anyChar :
    ∀ rs : List RangeText, (∀ r ∈ rs, r.WF) → ∀ c ∈ (rangesText rs).data, anyChar c = true := by
  intro rs
  induction rs with
  | nil => intro _ c hc; simp [rangesText] at hc
  | cons r rs ih =>
    intro hwf c hc
    have hr := hwf r (List.mem_cons_self _ _)
    cases rs with
    | nil => exact rangeText_anyChar r hr c (by simpa [rangesText] using hc)
    | cons r2 rs =>
      rw [rangesText_cons_cons] at hc
      simp only [List.mem_append, List.mem_cons] at hc
      rcases hc with hc | rfl | rfl | hc
      · exact rangeText_anyChar r hr c hc
      · decide
      · decide
      · exact ih (fun x hx => hwf x (List.mem_cons_of_mem _ hx)) c hc

theorem rangesText_ne_nil (rs : List RangeText) (hne : rs ≠ []) (hwf : ∀ r ∈ rs, r.WF) :
    (rangesText rs).data ≠ [] := by
  cases rs with
  | nil => exact absurd rfl hne
  | cons r rs =>
    have hr := rangeText_ne_nil r (hwf r (List.mem_cons_self _ _))
    cases rs with
    | nil => simpa [rangesText] using hr
    | cons r2 rs =>
      rw [rangesText_cons_cons]
      intro h
      simp only [List.append_eq_nil] at h
      exact hr h.1

theorem token_blankless (s : String) (h : Token s) : Blankless s.data :=
  ⟨h.1, token_anyChar s h, token_count s h ' ' (by decide)⟩

theorem callLine_data (c : CallLine) :
    c.text.data = "calle".data ++ (if c.caller then 'r' else 'e') :: '[' :: (c.index.data ++
      ("]: ranges ".data ++ ((rangesText c.ranges).data ++ (" in ".data ++ (c.file.data ++
      (" from/to function ".data ++ (c.name.data ++ (" in ".data ++ (c.defFile.data ++ ':' ::
      (c.defLine.data ++ ':' :: (c.defStartCol.data ++ '-' :: c.defEndCol.data))))))))))) := by
  cases hc : c.caller <;> simp [CallLine.text, String.data_append, hc]

theorem findStringSubmatch_callLine (c : CallLine) (h : c.WF) :
    FindStringSubmatch reCallSite c.text =
      [c.text, rangesText c.ranges, c.file, c.name, c.defFile, c.defLine, c.defStartCol,
        c.defEndCol] := by
  obtain ⟨hidx, hne, hrs, hfile, hname, hdef, hdl, hds, hde⟩ := h
  have hm := matchAt_reCallSite (if c.caller then 'r' else 'e')
    (by cases c.caller <;> decide) c.index.data (rangesText c.ranges).data c.file.data
    c.name.data c.defFile.data c.defLine.data c.defStartCol.data c.defEndCol.data hidx
    ⟨rangesText_ne_nil _ hne hrs, rangesText_anyChar _ hrs⟩ (token_blankless _ hfile)
    (token_blankless _ hname) (token_blankless _ hdef) (numeral_digits _ hdl)
    (numeral_digits _ hds) (numeral_digits _ hde)
  rw [← callLine_data] at hm
  have hnil : c.text.data ≠ [] := by
    rw [callLine_data]
    simp
  unfold FindStringSubmatch
  rw [findSubmatch_of_matchAt _ _ _ _ hnil hm, List.length_nil, Nat.sub_zero, List.take_length]
  rfl

theorem parseCallSite_of_match (line m0 m1 m2 m3 m4 m5 m6 m7 : String)
    (h : FindStringSubmatch reCallSite line = [m0, m1, m2, m3, m4, m5, m6, m7]) :
    parseCallSite line = Except.ok
      { Function := ⟨m3, ⟨m4, mustInt m5, mustInt m6, mustInt m7⟩⟩
        Locations := (FindAllStringSubmatch rangePattern m1).map (fun m =>
          ⟨m2, (Atoi (m.getD 1 "")).1, (Atoi (m.getD 2 "")).1, (Atoi (m.getD 3 "")).1⟩) } := by
  unfold parseCallSite
  rw [h]
  rfl

/-- The parser on a well-formed caller or callee line. -/
theorem parseCallSite_callLine (c : CallLine) (h : c.WF) :
    parseCallSite c.text = Except.ok c.site := by
  rw [parseCallSite_of_match _ _ _ _ _ _ _ _ _ (findStringSubmatch_callLine c h)]
  obtain ⟨_, _, hrs, _, _, _, hdl, hds, hde⟩ := h
  have hall : FindAllStringSubmatch rangePattern (rangesText c.ranges) =
      c.ranges.map (fun r => [r.text, r.line, r.startCol, r.endCol]) := by
    unfold FindAllStringSubmatch
    rw [findAllSubmatch_rangesText _ hrs]
    simp
  rw [hall, mustInt_numeral _ hdl, mustInt_numeral _ hds, mustInt_numeral _ hde]
  simp only [CallLine.site, List.map_map, Except.ok.injEq, CallSite.mk.injEq, true_and]
  apply List.map_congr_left
  intro r hr
  have := hrs r hr
  show (⟨c.file, (Atoi r.line).1, (Atoi r.startCol).1, (Atoi r.endCol).1⟩ : Location) = _
  rw [atoi_numeral _ this.1, atoi_numeral _ this.2.1, atoi_numeral _ this.2.2]
  rfl

theorem matchAt_reFunctionDef (name file l s e : List Char)
    (hname : name ≠ [] ∧ ∀ c ∈ name, isWord c = true)
    (hfile : file ≠ [] ∧ ∀ c ∈ file, notSpace c = true)
    (hl : Digits l) (hs : Digits s) (he : Digits e) :
    matchAt reFunctionDef ("function ".data ++ (name ++ (" in ".data ++
      (file ++ ':' :: (l ++ ':' :: (s ++ '-' :: e)))))) =
      some ([name, file, l, s, e], []) := by
  have c1 : ∀ l, Digits l → l.count ':' = 0 := fun l h => digits_count l h ':' (by decide)
  have h5 : matchAt reTail (':' :: (l ++ ':' :: (s ++ '-' :: e))) = some ([l, s, e], []) := by
    unfold reTail
    rw [matchAt_chr]
    have := matchAt_rangePattern l s e [] hl hs he (by simp)
    simpa using this
  have h4 : matchAt (Re.group notSpace :: reTail) (file ++ ':' :: (l ++ ':' :: (s ++ '-' :: e))) =
      some ([file, l, s, e], []) := by
    apply matchAt_group_sep _ _ _ _ _ _ _ hfile.1 hfile.2 h5
    have : countLit ':' reTail = 2 := by decide
    rw [this]
    simp [List.count_cons, List.count_append, c1 l hl, c1 s hs, c1 e he]
  rw [reFunctionDef_eq, matchAt_lit]
  exact matchAt_group_max isWord _ name _ _ _ hname.1 hname.2 (by simp; decide)
    ((matchAt_lit " in " _ _).trans h4)

theorem reFunctionDef_head :
    ∃ r, reFunctionDef = Re.chr 'f' :: Re.chr 'u' :: r := ⟨_, rfl⟩

theorem findSubmatch_identifier (t : List Char) :
    findSubmatch reFunctionDef ("identifier: ".data ++ t) = findSubmatch reFunctionDef t := by
  obtain ⟨r, hr⟩ := reFunctionDef_head
  rw [hr]
  show findSubmatch _ ('i' :: 'd' :: 'e' :: 'n' :: 't' :: 'i' :: 'f' :: 'i' :: 'e' :: 'r' :: ':' ::
    ' ' :: t) = _
  rw [findSubmatch_skip _ _ _ (matchAt_chr_ne _ _ _ _ (by decide)),
    findSubmatch_skip _ _ _ (matchAt_chr_ne _ _ _ _ (by decide)),
    findSubmatch_skip _ _ _ (matchAt_chr_ne _ _ _ _ (by decide)),
    findSubmatch_skip _ _ _ (matchAt_chr_ne _ _ _ _ (by decide)),
    findSubmatch_skip _ _ _ (matchAt_chr_ne _ _ _ _ (by decide)),
    findSubmatch_skip _ _ _ (matchAt_chr_ne _ _ _ _ (by decide)),
    findSubmatch_skip _ _ _ ((matchAt_chr _ _ _).trans (matchAt_chr_ne _ _ _ _ (by decide))),
    findSubmatch_skip _ _ _ (matchAt_chr_ne _ _ _ _ (by decide)),
    findSubmatch_skip _ _ _ (matchAt_chr_ne _ _ _ _ (by decide)),
    findSubmatch_skip _ _ _ (matchAt_chr_ne _ _ _ _ (by decide)),
    findSubmatch_skip _ _ _ (matchAt_chr_ne _ _ _ _ (by decide)),
    findSubmatch_skip _ _ _ (matchAt_chr_ne _ _ _ _ (by decide))]

theorem identLine_data (i : IdentLine) :
    i.text.data = "identifier: ".data ++ ("function ".data ++ (i.name.data ++ (" in ".data ++
      (i.file.data ++ ':' :: (i.line.data ++ ':' :: (i.startCol.data ++ '-' ::
      i.endCol.data)))))) := by
  simp [IdentLine.text, String.data_append]

theorem findStringSubmatch_identLine (i : IdentLine) (h : i.WF) :
    ∃ m0, FindStringSubmatch reFunctionDef i.text =
      [m0, i.name, i.file, i.line, i.startCol, i.endCol] := by
  obtain ⟨hname, hfile, hl, hs, he⟩ := h
  have hm := matchAt_reFunctionDef i.name.data i.file.data i.line.data i.startCol.data
    i.endCol.data hname ⟨hfile.1, token_notSpace _ hfile⟩ (numeral_digits _ hl)
    (numeral_digits _ hs) (numeral_digits _ he)
  unfold FindStringSubmatch
  rw [identLine_data, findSubmatch_identifier,
    findSubmatch_of_matchAt _ _ _ _ (by simp) hm]
  exact ⟨_, rfl⟩

theorem parseFunctionDef_of_match (line m0 m1 m2 m3 m4 m5 : String)
    (h : FindStringSubmatch reFunctionDef line = [m0, m1, m2, m3, m4, m5]) :
    parseFunctionDef line =
      Except.ok ⟨m1, ⟨m2, mustInt m3, mustInt m4, mustInt m5⟩⟩ := by
  unfold parseFunctionDef
  rw [h]
  rfl

/-- The parser on a well-formed identifier line. -/
theorem parseFunctionDef_identLine (i : IdentLine) (h : i.WF) :
    parseFunctionDef i.text = Except.ok i.function := by
  obtain ⟨m0, hm⟩ := findStringSubmatch_identLine i h
  rw [parseFunctionDef_of_match _ _ _ _ _ _ _ hm, mustInt_numeral _ h.2.2.1,
    mustInt_numeral _ h.2.2.2.1, mustInt_numeral _ h.2.2.2.2]
  rfl

theorem dropWhile_of_head (p : Char → Bool) (l : List Char)
    (h : ∀ c ∈ l.head?, p c = false) : l.dropWhile p = l := by
  cases l with
  | nil => rfl
  | cons c l =>
    have := h c (by simp)
    simp [List.dropWhile, this]

theorem trimSpace_clean (s : String) (h1 : ∀ c ∈ s.data.head?, isSpace c = false)
    (h2 : ∀ c ∈ s.data.reverse.head?, isSpace c = false) : TrimSpace s = s := by
  unfold TrimSpace
  rw [dropWhile_of_head _ _ h1, dropWhile_of_head _ _ h2, List.reverse_reverse]

theorem splitNewline_ne_nil : ∀ s : List Char, splitNewline s ≠ [] := by
  intro s
  induction s with
  | nil => simp [splitNewline]
  | cons c s ih =>
    simp only [splitNewline]
    split
    · simp
    · split
      · simp
      · rename_i h; exact absurd h ih

theorem splitNewline_append (l : List Char) (hl : ∀ c ∈ l, c ≠ '\n') (rest : List Char) :
    splitNewline (l ++ '\n' :: rest) = l :: splitNewline rest := by
  induction l with
  | nil => simp [splitNewline]
  | cons c l ih =>
    have hc : c ≠ '\n' := hl c (List.mem_cons_self _ _)
    have := ih (fun x hx => hl x (List.mem_cons_of_mem _ hx))
    show splitNewline (c :: (l ++ '\n' :: rest)) = _
    rw [splitNewline, if_neg hc, this]

theorem splitNewline_line (l : List Char) (hl : ∀ c ∈ l, c ≠ '\n') :
    splitNewline l = [l] := by
  induction l with
  | nil => rfl
  | cons c l ih =>
    have hc : c ≠ '\n' := hl c (List.mem_cons_self _ _)
    have := ih (fun x hx => hl x (List.mem_cons_of_mem _ hx))
    simp only [splitNewline, hc, if_false, this]

theorem joinLines_cons_cons (l l2 : String) (ls : List String) :
    (joinLines (l :: l2 :: ls)).data = l.data ++ '\n' :: (joinLines (l2 :: ls)).data := by
  simp [joinLines, String.data_append]

/-- Clean lines joined by newlines are the lines of the joined text, and the
joined text has no white space at either end. -/
theorem joinLines_clean :
    ∀ ls : List String, ls ≠ [] → (∀ l ∈ ls, Clean l) →
      splitNewline (joinLines ls).data = ls.map String.data ∧
      (joinLines ls).data ≠ [] ∧
      (∀ c ∈ (joinLines ls).data.head?, isSpace c = false) ∧
      (∀ c ∈ (joinLines ls).data.reverse.head?, isSpace c = false) := by
  intro ls
  induction ls with
  | nil => intro h; exact absurd rfl h
  | cons l ls ih =>
    intro _ hcl
    obtain ⟨hne, hnl, hh, ht⟩ := hcl l (List.mem_cons_self _ _)
    cases ls with
    | nil =>
      refine ⟨?_, hne, hh, ht⟩
      simp only [joinLines, List.map_cons, List.map_nil]
      exact splitNewline_line _ hnl
    | cons l2 ls =>
      obtain ⟨ih1, ih2, _, ih4⟩ := ih (by simp) (fun x hx => hcl x (List.mem_cons_of_mem _ hx))
      rw [joinLines_cons_cons]
      refine ⟨?_, by simp, ?_, ?_⟩
      · rw [splitNewline_append _ hnl, ih1]
        rfl
      · rw [List.head?_append_of_ne_nil _ hne]
        exact hh
      · rw [List.reverse_append, List.reverse_cons,
          List.head?_append_of_ne_nil _ (by simp [ih2])]
        rw [List.head?_append_of_ne_nil _ (by simpa using ih2)]
        exact ih4

theorem splitLines_joinLines (ls : List String) (hne : ls ≠ []) (h : ∀ l ∈ ls, Clean l) :
    SplitLines (TrimSpace (joinLines ls)) = ls := by
  obtain ⟨h1, _, h3, h4⟩ := joinLines_clean ls hne h
  rw [trimSpace_clean _ h3 h4]
  unfold SplitLines
  rw [h1, List.map_map]
  exact List.map_id _

theorem digit_not_space (c : Char) (h : isDigit c = true) : isSpace c = false := by
  by_contra hs
  have hs1 : isSpace c = true := by simpa using hs
  unfold isDigit at h
  simp only [Bool.and_eq_true, decide_eq_true_eq] at h
  unfold isSpace at hs1
  simp only [Bool.or_eq_true, decide_eq_true_eq, Bool.and_eq_true] at hs1
  rcases hs1 with (((((((((((((h1 | h1) | h1) | h1) | h1) | h1) | h1) | h1) | h1) | h1) | h1) |
    h1) | h1) | h1) | h1
  all_goals first
    | (subst h1; revert h; decide)
    | omega

theorem last_of_append_digits (a e : List Char) (he : Digits e) :
    ∀ c ∈ (a ++ e).reverse.head?, isSpace c = false := by
  intro c hc
  rw [List.reverse_append, List.head?_append_of_ne_nil _ (by simpa using he.1)] at hc
  have : c ∈ e := by
    have := List.mem_of_mem_head? hc
    simpa using this
  exact digit_not_space c (he.2 c this)

theorem anyChar_iff (c : Char) : anyChar c = true ↔ c ≠ '\n' := by
  simp [anyChar]

theorem callLine_clean (c : CallLine) (h : c.WF) : Clean c.text := by
  obtain ⟨hidx, hne, hrs, hfile, hname, hdef, hdl, hds, hde⟩ := h
  refine ⟨?_, ?_, ?_, ?_⟩
  · rw [callLine_data]; simp
  · intro ch hch
    rw [← anyChar_iff]
    rw [callLine_data] at hch
    simp only [List.mem_append, List.mem_cons] at hch
    rcases hch with hch | hch | hch | hch | hch | hch | hch | hch | hch | hch | hch | hch |
      hch | hch | hch | hch | hch | hch
    · exact (by decide : ∀ x ∈ "calle".data, anyChar x = true) ch (by simpa using hch)
    · subst hch; cases c.caller <;> decide
    · subst hch; decide
    · exact digit_ne_newline ch (hidx.2 ch hch)
    · exact (by decide : ∀ x ∈ "]: ranges ".data, anyChar x = true) ch (by simpa using hch)
    · exact rangesText_anyChar _ hrs ch hch
    · exact (by decide : ∀ x ∈ " in ".data, anyChar x = true) ch (by simpa using hch)
    · exact token_anyChar _ hfile ch hch
    · exact (by decide : ∀ x ∈ " from/to function ".data, anyChar x = true) ch (by simpa using hch)
    · exact token_anyChar _ hname ch hch
    · exact (by decide : ∀ x ∈ " in ".data, anyChar x = true) ch (by simpa using hch)
    · exact token_anyChar _ hdef ch hch
    · subst hch; decide
    · exact digit_ne_newline ch (hdl.2.1 ch hch)
    · subst hch; decide
    · exact digit_ne_newline ch (hds.2.1 ch hch)
    · subst hch; decide
    · exact digit_ne_newline ch (hde.2.1 ch hch)
  · rw [callLine_data]
    intro ch hch
    have : ch = 'c' := by simpa using hch.symm
    subst this
    decide
  · obtain ⟨a, ha⟩ : ∃ a, c.text.data = a ++ c.defEndCol.data :=
      ⟨_, by unfold CallLine.text; rw [String.data_append]⟩
    rw [ha]
    exact last_of_append_digits _ _ (numeral_digits _ hde)

theorem word_anyChar (c : Char) (h : isWord c = true) : anyChar c = true := by
  rw [anyChar_iff]
  rintro rfl
  revert h
  decide

theorem identLine_clean (i : IdentLine) (h : i.WF) : Clean i.text := by
  obtain ⟨hname, hfile, hl, hs, he⟩ := h
  refine ⟨?_, ?_, ?_, ?_⟩
  · rw [identLine_data]; simp
  · intro ch hch
    rw [← anyChar_iff]
    rw [identLine_data] at hch
    simp only [List.mem_append, List.mem_cons] at hch
    rcases hch with hch | hch | hch | hch | hch | hch | hch | hch | hch | hch | hch
    · exact (by decide : ∀ x ∈ "identifier: ".data, anyChar x = true) ch (by simpa using hch)
    · exact (by decide : ∀ x ∈ "function ".data, anyChar x = true) ch (by simpa using hch)
    · exact word_anyChar ch (hname.2 ch hch)
    · exact (by decide : ∀ x ∈ " in ".data, anyChar x = true) ch (by simpa using hch)
    · exact token_anyChar _ hfile ch hch
    · subst hch; decide
    · exact digit_ne_newline ch (hl.2.1 ch hch)
    · subst hch; decide
    · exact digit_ne_newline ch (hs.2.1 ch hch)
    · subst hch; decide
    · exact digit_ne_newline ch (he.2.1 ch hch)
  · rw [identLine_data]
    intro ch hch
    have : ch = 'i' := by simpa using hch.symm
    subst this
    decide
  · obtain ⟨a, ha⟩ : ∃ a, i.text.data = a ++ i.endCol.data :=
      ⟨_, by unfold IdentLine.text; rw [String.data_append]⟩
    rw [ha]
    exact last_of_append_digits _ _ (numeral_digits _ he)

theorem hasPrefix_identLine (i : IdentLine) : HasPrefix i.text "identifier" = true := by
  unfold HasPrefix
  rw [identLine_data]
  rfl

theorem hasPrefix_callLine (c : CallLine) :
    HasPrefix c.text "identifier" = false ∧ HasPrefix c.text "caller" = c.caller ∧
      HasPrefix c.text "callee" = !c.caller := by
  unfold HasPrefix
  rw [callLine_data]
  cases c.caller <;> exact ⟨rfl, rfl, rfl⟩

end Gopls

namespace Gopls

/-! ## The call-hierarchy parser on whole blocks -/

/-- The loop of `parseCallHierarchyResponse` over well-formed caller and callee
lines: each is appended to its list. -/
theorem parseCallHierarchyLines_calls :
    ∀ (cs : List CallLine) (acc : Node) (rest : List String), (∀ c ∈ cs, c.WF) →
      parseCallHierarchyLines acc (cs.map CallLine.text ++ rest) =
        parseCallHierarchyLines
          ⟨acc.Callers ++ (cs.filter (fun c => c.caller)).map CallLine.site, acc.Function,
            acc.callees ++ (cs.filter (fun c => !c.caller)).map CallLine.site⟩ rest := by
  intro cs
  induction cs with
  | nil => intro acc rest _; simp
  | cons c cs ih =>
    intro acc rest hwf
    have hc := hwf c (List.mem_cons_self _ _)
    have ih1 := fun acc => ih acc rest (fun x hx => hwf x (List.mem_cons_of_mem _ hx))
    obtain ⟨hp1, hp2, hp3⟩ := hasPrefix_callLine c
    rw [List.map_cons, List.cons_append, parseCallHierarchyLines]
    simp only [hp1, Bool.false_eq_true, if_false, parseCallSite_callLine c hc, hp2, hp3]
    cases hcc : c.caller
    · simp only [Bool.false_eq_true, if_false, Bool.not_false, if_true, ih1]
      simp [List.filter_cons, hcc]
    · simp only [if_true, ih1]
      simp [List.filter_cons, hcc]

/-- C5 (amended): a block of one identifier line among caller and callee lines, all
well formed (identifier name of word characters, file paths and caller or callee
names without white space, numerals that fit `int`, one range or more on a
line), parses to the node of the identifier line's function with one caller per
caller line and one callee per callee line, in input order; each has the function
named on its line and one location per range of the line, in order, in the file named
after ` in `. -/
theorem parseCallHierarchyResponse_block (pre post : List CallLine) (i : IdentLine)
    (hpre : ∀ c ∈ pre, c.WF) (hi : i.WF) (hpost : ∀ c ∈ post, c.WF) :
    parseCallHierarchyResponse (blockText pre i post) =
      Except.ok
        ⟨((pre ++ post).filter (fun c => c.caller)).map CallLine.site, i.function,
          ((pre ++ post).filter (fun c => !c.caller)).map CallLine.site⟩ ∧
    (((pre ++ post).filter (fun c => c.caller)).map CallLine.site).length =
      (pre ++ post).countP (fun c => c.caller) ∧
    (((pre ++ post).filter (fun c => !c.caller)).map CallLine.site).length =
      (pre ++ post).countP (fun c => !c.caller) ∧
    ∀ c ∈ pre ++ post,
      c.site.Function = ⟨c.name, ⟨c.defFile, numeralValue c.defLine,
        numeralValue c.defStartCol, numeralValue c.defEndCol⟩⟩ ∧
      c.site.Locations = c.ranges.map (fun r =>
        ⟨c.file, numeralValue r.line, numeralValue r.startCol, numeralValue r.endCol⟩) ∧
      c.site.Locations.length = c.ranges.length := by
  refine ⟨?_, by simp [List.countP_eq_length_filter], by simp [List.countP_eq_length_filter],
    fun c _ => ⟨rfl, rfl, by simp [CallLine.site]⟩⟩
  unfold parseCallHierarchyResponse blockText
  rw [splitLines_joinLines _ (by simp)]
  · rw [List.append_assoc, parseCallHierarchyLines_calls pre _ _ hpre, List.singleton_append,
      parseCallHierarchyLines]
    simp only [hasPrefix_identLine, if_true, parseFunctionDef_identLine i hi]
    have := parseCallHierarchyLines_calls post
      ⟨Node.zero.Callers ++ (pre.filter (fun c => c.caller)).map CallLine.site, i.function,
        Node.zero.callees ++ (pre.filter (fun c => !c.caller)).map CallLine.site⟩ [] hpost
    rw [List.append_nil] at this
    rw [this]
    simp [parseCallHierarchyLines, Node.zero]
  · intro l hl
    simp only [List.mem_append, List.mem_map, List.mem_singleton] at hl
    rcases hl with (⟨c, hc, rfl⟩ | rfl) | ⟨c, hc, rfl⟩
    · exact callLine_clean c (hpre c hc)
    · exact identLine_clean i hi
    · exact callLine_clean c (hpost c hc)

/-- C5 (amended) at the example response of the source: 4 callers, 13 callees, and two
locations for the line `callee[9]`. -/
theorem parseCallHierarchyResponse_block_witness :
    parseCallHierarchyResponse exampleResponse =
      Except.ok
        ⟨((exampleCallers ++ exampleCallees).filter (fun c => c.caller)).map CallLine.site,
          exampleIdent.function,
          ((exampleCallers ++ exampleCallees).filter (fun c => !c.caller)).map CallLine.site⟩ ∧
    (exampleCallers ++ exampleCallees).countP (fun c => c.caller) = 4 ∧
    (exampleCallers ++ exampleCallees).countP (fun c => !c.caller) = 13 ∧
    (parseCallSite exampleCallee9).toOption.map (fun cs => cs.Locations.length) = some 2 :=
  ⟨(by decide! : blockText exampleCallers exampleIdent exampleCallees = exampleResponse) ▸
    (parseCallHierarchyResponse_block exampleCallers exampleCallees exampleIdent
      (by decide!) (by decide!) (by decide!)).1, by decide!, by decide!, by decide!⟩

/-- C5, as stated, fails: an identifier line whose function name has no white space
but is not made of word characters (`a.b`, or the Go identifier `größe`) is rejected,
and a numeral beyond the range of `int` is read as the largest `int`. -/
theorem identifier_name_must_be_word :
    Token "a.b" ∧
    blockText [] ⟨"a.b", "/x.go", "1", "2", "3"⟩ [] = "identifier: function a.b in /x.go:1:2-3" ∧
    parseCallHierarchyResponse "identifier: function a.b in /x.go:1:2-3" =
      Except.error "unexpected format: identifier: function a.b in /x.go:1:2-3" ∧
    Token "größe" ∧
    parseCallHierarchyResponse "identifier: function größe in /x.go:1:2-3" =
      Except.error "unexpected format: identifier: function größe in /x.go:1:2-3" ∧
    parseCallHierarchyResponse "identifier: function f in /x.go:99999999999999999999:2-3" =
      Except.ok ⟨[], ⟨"f", ⟨"/x.go", 9223372036854775807, 2, 3⟩⟩, []⟩ := by
  refine ⟨by decide!, by decide!, by decide!, by decide!, by decide!, by decide!⟩

theorem edgeLinesOf_isSome (relDir : String → String) :
    ∀ es : List D2.Edge, (∀ e ∈ es, e.From.Locations ≠ []) →
      (D2.edgeLinesOf relDir es).isSome = true := by
  intro es
  induction es with
  | nil => intro _; rfl
  | cons e es ih =>
    intro h
    have he := h e (List.mem_cons_self _ _)
    have ih1 := ih (fun x hx => h x (List.mem_cons_of_mem _ hx))
    simp only [D2.edgeLinesOf]
    split
    · rename_i hnil; exact absurd hnil he
    · split
      · rename_i hn; rw [hn] at ih1; cases ih1
      · rfl

/-- On every well-formed caller or callee line, which lists one range or more,
`parseCallSite` succeeds with one location per range, so with a non-empty list; and
`Graph.Write` indexes in range on every graph whose edges carry the locations of call
sites parsed from such lines. -/
theorem callSite_locations_nonempty (c : CallLine) (h : c.WF) :
    (∃ cs, parseCallSite c.text = Except.ok cs ∧ cs.Locations ≠ [] ∧
      cs.Locations.length = c.ranges.length) ∧
    ∀ (relDir : String → String) (g : D2.Graph),
      (∀ e ∈ g.Edges, ∃ (c1 : CallLine) (cs : CallSite), c1.WF ∧
        parseCallSite c1.text = Except.ok cs ∧ e.From.Locations = cs.Locations) →
      (g.edgeLines relDir).isSome = true := by
  have key : ∀ c1 : CallLine, c1.WF → c1.site.Locations ≠ [] := by
    intro c1 h1
    simp only [CallLine.site, ne_eq, List.map_eq_nil_iff]
    exact h1.2.1
  refine ⟨⟨c.site, parseCallSite_callLine c h, key c h, by simp [CallLine.site]⟩, ?_⟩
  intro relDir g hg
  apply edgeLinesOf_isSome
  intro e he
  obtain ⟨c1, cs, h1, hp, hl⟩ := hg e he
  rw [parseCallSite_callLine c1 h1] at hp
  simp only [Except.ok.injEq] at hp
  rw [hl, ← hp]
  exact key c1 h1

/-- The line `callee[9]` of the example response, with two ranges, gives two
locations. -/
theorem callSite_locations_nonempty_example :
    exampleCallee9Fields.WF ∧
    ∃ cs, parseCallSite exampleCallee9 = Except.ok cs ∧ cs.Locations ≠ [] ∧
      cs.Locations.length = exampleCallee9Fields.ranges.length :=
  ⟨by decide!, (by decide! : exampleCallee9Fields.text = exampleCallee9) ▸
    (callSite_locations_nonempty exampleCallee9Fields (by decide!)).1⟩

/-- C9, at the failing input: on the line
`caller[0]: ranges x in f from/to function g in h:1:2-3`, whose ranges field holds no
range, `parseCallSite` succeeds with no location at all, against the comment
"Location(s) of call sites" of `CallSite`; `parseCallHierarchyResponse` passes that
call site on as a caller; and `Graph.Write` indexes `Locations[0]` out of range, and
so panics, on the graph with the edge from that caller. -/
theorem callSite_without_locations :
    parseCallSite "caller[0]: ranges x in f from/to function g in h:1:2-3" =
      Except.ok ⟨⟨"g", ⟨"h", 1, 2, 3⟩⟩, []⟩ ∧
    parseCallHierarchyResponse
        ("caller[0]: ranges x in f from/to function g in h:1:2-3" ++ "\n" ++
          "identifier: function s in h:9:1-2") =
      Except.ok ⟨[⟨⟨"g", ⟨"h", 1, 2, 3⟩⟩, []⟩], ⟨"s", ⟨"h", 9, 1, 2⟩⟩, []⟩ ∧
    D2.Graph.edgeLines id ⟨[⟨⟨⟨"g", ⟨"h", 1, 2, 3⟩⟩, []⟩, ⟨"s", ⟨"h", 9, 1, 2⟩⟩⟩]⟩ = none := by
  refine ⟨by decide!, by decide!, by decide!⟩

end Gopls
namespace Gopls

/-! ## Theorems about the symbol lookup -/

theorem symbolLine_data (l : SymbolLine) :
    l.text.data = l.name.data ++ ' ' :: (l.kind.data ++ ' ' :: (l.line.data ++ ':' ::
      (l.col.data ++ '-' :: (l.endLine.data ++ ':' :: l.endCol.data)))) := by
  simp [SymbolLine.text, String.data_append]

/-- A name is its qualifier followed by the identifier it ends in. -/
theorem name_split (name : String) :
    name.data = (qualifierOf name).data ++ (identOf name).data := by
  simp only [qualifierOf, identOf]
  rw [← List.reverse_append, List.takeWhile_append_dropWhile, List.reverse_reverse]

theorem identOf_word (name : String) : ∀ c ∈ (identOf name).data, isWord c = true := by
  intro c hc
  simp only [identOf, List.mem_reverse] at hc
  exact (List.mem_takeWhile_imp hc)

theorem head_dropWhile (p : Char → Bool) :
    ∀ l : List Char, ∀ c ∈ (l.dropWhile p).head?, p c = false := by
  intro l
  induction l with
  | nil => intro c hc; simp at hc
  | cons x l ih =>
    intro c hc
    by_cases hx : p x = true
    · rw [List.dropWhile_cons_of_pos hx] at hc
      exact ih c hc
    · rw [List.dropWhile_cons_of_neg hx] at hc
      simp only [List.head?_cons, Option.mem_def, Option.some.injEq] at hc
      subst hc
      simpa using hx

theorem qualifierOf_last (name : String) :
    ∀ c ∈ (qualifierOf name).data.reverse.head?, isWord c = false := by
  simp only [qualifierOf, List.reverse_reverse]
  exact head_dropWhile isWord _

/-- The identifier of a name of word characters is the name. -/
theorem identOf_of_word (name : String) (h : ∀ c ∈ name.data, isWord c = true) :
    identOf name = name := by
  have : name.data.reverse.takeWhile isWord = name.data.reverse := by
    rw [List.takeWhile_eq_self_iff]
    intro c hc
    exact h c (List.mem_reverse.mp hc)
  simp only [identOf, this, List.reverse_reverse]

theorem matchAt_group_none (p : Char → Bool) (r : Regex) (s : List Char)
    (h : greedy p (matchAt r) s = none) : matchAt (Re.group p :: r) s = none := by
  simp only [matchAt, h]

/-- The pattern of `parseSymbolsResponse` does not match at the start of a text
that has a character outside `\w` before its first blank. -/
theorem matchAt_reSymbols_none (q rest : List Char) (x : Char) (hx : x ∈ q)
    (hxw : isWord x = false) (hq : ∀ c ∈ q, c ≠ ' ') :
    matchAt reSymbols (q ++ rest) = none := by
  unfold reSymbols
  apply matchAt_group_none
  apply greedy_none
  intro e b1 he hb hall
  rcases List.append_eq_append_iff.mp hb with ⟨a1, ha, _⟩ | ⟨c1, hc, hb1⟩
  · have : x ∈ e := by rw [ha]; exact List.mem_append_left _ hx
    rw [hall x this] at hxw
    cases hxw
  · cases c1 with
    | nil =>
      have : x ∈ e := by rw [hc] at hx; simpa using hx
      rw [hall x this] at hxw
      cases hxw
    | cons y c1 =>
      have hy : y ∈ q := by rw [hc]; simp
      rw [hb1]
      exact matchAt_chr_ne _ _ _ _ (hq y hy)

/-- The leftmost match passes over a qualifier: text without a blank that ends
outside `\w`. -/
theorem findSubmatch_reSymbols_skip :
    ∀ (q rest : List Char), (∀ c ∈ q, c ≠ ' ') → (∀ c ∈ q.reverse.head?, isWord c = false) →
      findSubmatch reSymbols (q ++ rest) = findSubmatch reSymbols rest := by
  intro q
  induction q with
  | nil => intro rest _ _; rfl
  | cons c q ih =>
    intro rest hq hlast
    have hne : (c :: q).reverse ≠ [] := by simp
    obtain ⟨x, hx⟩ : ∃ x, (c :: q).reverse.head? = some x := by
      cases h : (c :: q).reverse with
      | nil => exact absurd h hne
      | cons y t => exact ⟨y, rfl⟩
    have hxm : x ∈ c :: q := List.mem_reverse.mp (List.mem_of_mem_head? hx)
    have hnone : matchAt reSymbols (c :: (q ++ rest)) = none :=
      matchAt_reSymbols_none (c :: q) rest x hxm (hlast x hx) hq
    rw [List.cons_append, findSubmatch_skip _ _ _ hnone]
    apply ih rest (fun y hy => hq y (List.mem_cons_of_mem _ hy))
    intro y hy
    apply hlast y
    cases hq1 : q.reverse with
    | nil => rw [hq1] at hy; simp at hy
    | cons z t =>
      rw [hq1] at hy
      simp only [List.reverse_cons, hq1, List.cons_append, List.head?_cons] at hy ⊢
      exact hy

/-- A pattern with more literal characters `ch` than the text has matches nowhere. -/
theorem findSubmatch_none_of_count (re : Regex) (ch : Char) :
    ∀ s : List Char, s.count ch < countLit ch re → findSubmatch re s = [] := by
  intro s
  induction s with
  | nil =>
    intro h
    cases hm : matchAt re [] with
    | none => simp only [findSubmatch, hm]
    | some r =>
      have := matchAt_count ch re [] r.1 r.2 hm
      simp only [List.count_nil] at h this
      omega
  | cons c s ih =>
    intro h
    have hs : s.count ch ≤ (c :: s).count ch := by
      rw [List.count_cons]; omega
    cases hm : matchAt re (c :: s) with
    | none =>
      rw [findSubmatch_skip _ _ _ hm]
      exact ih (by omega)
    | some r =>
      have := matchAt_count ch re (c :: s) r.1 r.2 hm
      omega

/-- The pattern of `parseSymbolsResponse` at the identifier of a symbol line. -/
theorem matchAt_reSymbols (w k l c el ec : List Char)
    (hw : w ≠ [] ∧ ∀ x ∈ w, isWord x = true) (hk : k ≠ [] ∧ ∀ x ∈ k, isWord x = true)
    (hl : Digits l) (hc : Digits c) (hel : Digits el) (hec : Digits ec) :
    matchAt reSymbols (w ++ ' ' :: (k ++ ' ' :: (l ++ ':' :: (c ++ '-' :: (el ++ ':' :: ec))))) =
      some ([w, k, l, c, el, ec], []) := by
  unfold reSymbols
  apply matchAt_group_max _ _ _ _ _ _ hw.1 hw.2 (by simp; decide)
  rw [matchAt_chr]
  apply matchAt_group_max _ _ _ _ _ _ hk.1 hk.2 (by simp; decide)
  rw [matchAt_chr]
  apply matchAt_group_max _ _ _ _ _ _ hl.1 hl.2 (by simp; decide)
  rw [matchAt_chr]
  apply matchAt_group_max _ _ _ _ _ _ hc.1 hc.2 (by simp; decide)
  rw [matchAt_chr]
  apply matchAt_group_max _ _ _ _ _ _ hel.1 hel.2 (by simp; decide)
  rw [matchAt_chr]
  have := matchAt_group_max isDigit [] ec [] [] [] hec.1 hec.2 (by simp) rfl
  simpa using this

theorem word_count (l : List Char) (h : ∀ c ∈ l, isWord c = true) (ch : Char)
    (hch : isWord ch = false) : l.count ch = 0 := by
  rw [List.count_eq_zero]
  intro hmem
  rw [h ch hmem] at hch
  cases hch

theorem digit_word (c : Char) (h : isDigit c = true) : isWord c = true := by
  simp [isWord, h]

theorem qualifierOf_mem (name : String) : ∀ c ∈ (qualifierOf name).data, c ∈ name.data := by
  intro c hc
  rw [name_split]
  exact List.mem_append_left _ hc

theorem token_no_blank (s : String) (h : Token s) : ∀ c ∈ s.data, c ≠ ' ' := by
  intro c hc hb
  have := h.2 c hc
  rw [hb] at this
  revert this
  decide

theorem identOf_data_ne (name : String) (h : identOf name ≠ "") : (identOf name).data ≠ [] := by
  intro hd
  apply h
  cases hi : identOf name with
  | mk d =>
    rw [hi] at hd
    simp only at hd
    rw [hd]

/-- What the pattern of `parseSymbolsResponse` finds on a symbol line whose name ends
in an identifier: the match starts at that identifier. -/
theorem findStringSubmatch_symbolLine (l : SymbolLine) (h : l.Format)
    (hi : identOf l.name ≠ "") :
    ∃ m0, FindStringSubmatch reSymbols l.text =
      [m0, identOf l.name, l.kind, l.line, l.col, l.endLine, l.endCol] := by
  obtain ⟨hname, hkind, hl, hc, hel, hec⟩ := h
  have hm := matchAt_reSymbols (identOf l.name).data l.kind.data l.line.data l.col.data
    l.endLine.data l.endCol.data ⟨identOf_data_ne _ hi, identOf_word _⟩ hkind
    (numeral_digits _ hl) (numeral_digits _ hc) (numeral_digits _ hel) (numeral_digits _ hec)
  unfold FindStringSubmatch
  rw [symbolLine_data, name_split, List.append_assoc,
    findSubmatch_reSymbols_skip _ _
      (fun c hc => token_no_blank _ hname c (qualifierOf_mem _ c hc)) (qualifierOf_last _),
    findSubmatch_of_matchAt _ _ _ _ (by simp) hm]
  exact ⟨_, rfl⟩

/-- The pattern of `parseSymbolsResponse` finds nothing on a symbol line whose name
does not end in a letter, a digit or an underscore. -/
theorem findStringSubmatch_symbolLine_none (l : SymbolLine) (h : l.Format)
    (hi : identOf l.name = "") : FindStringSubmatch reSymbols l.text = [] := by
  obtain ⟨hname, hkind, hl, hc, hel, hec⟩ := h
  have c2 : ∀ l, Digits l → l.count ' ' = 0 := fun l h => digits_count l h ' ' (by decide)
  have hnil : (identOf l.name).data = [] := by rw [hi]
  unfold FindStringSubmatch
  rw [symbolLine_data, name_split, hnil, List.append_nil,
    findSubmatch_reSymbols_skip _ _
      (fun c hc => token_no_blank _ hname c (qualifierOf_mem _ c hc)) (qualifierOf_last _)]
  have h0 : matchAt reSymbols (' ' :: (l.kind.data ++ ' ' :: (l.line.data ++ ':' ::
      (l.col.data ++ '-' :: (l.endLine.data ++ ':' :: l.endCol.data))))) = none := by
    unfold reSymbols
    apply matchAt_group_none
    simp [greedy, isWord, isDigit]
  rw [findSubmatch_skip _ _ _ h0, findSubmatch_none_of_count reSymbols ' ']
  · rfl
  · have : countLit ' ' reSymbols = 2 := by decide
    rw [this]
    simp [List.count_cons, List.count_append, word_count _ hkind.2 ' ' (by decide),
      c2 _ (numeral_digits _ hl), c2 _ (numeral_digits _ hc), c2 _ (numeral_digits _ hel),
      c2 _ (numeral_digits _ hec)]

theorem parseSymbolsResponse_of_match (line file m0 m1 m2 m3 m4 m5 m6 : String)
    (h : FindStringSubmatch reSymbols line = [m0, m1, m2, m3, m4, m5, m6]) :
    parseSymbolsResponse line file =
      if mustInt m5 ≠ mustInt m3 then
        Except.error ("start and end line numbers differ (" ++ toString (mustInt m3) ++
          " vs " ++ toString (mustInt m5) ++ ") in response for symbols query: " ++ line)
      else Except.ok ⟨m1, m2, ⟨file, mustInt m3, mustInt m4, mustInt m6⟩⟩ := by
  unfold parseSymbolsResponse
  rw [h]
  rfl

theorem parseSymbolsResponse_of_nomatch (line file : String)
    (h : FindStringSubmatch reSymbols line = []) :
    parseSymbolsResponse line file = Except.ok symbol.zero := by
  unfold parseSymbolsResponse
  rw [h]
  rfl

/-- The parser on a symbol line: the name it reads is the identifier the name field
ends in; a line whose name does not end in one is read as the empty symbol; a span
of two lines is an error. -/
theorem parseSymbolsResponse_symbolLine (l : SymbolLine) (file : String) (h : l.Format) :
    parseSymbolsResponse l.text file =
      if identOf l.name = "" then Except.ok symbol.zero
      else if l.singleLine then Except.ok ⟨identOf l.name, l.kind, l.location file⟩
      else Except.error (differError l) := by
  by_cases hi : identOf l.name = ""
  · rw [if_pos hi]
    exact parseSymbolsResponse_of_nomatch _ _ (findStringSubmatch_symbolLine_none l h hi)
  · rw [if_neg hi]
    obtain ⟨m0, hm⟩ := findStringSubmatch_symbolLine l h hi
    rw [parseSymbolsResponse_of_match _ _ _ _ _ _ _ _ _ hm, mustInt_numeral _ h.2.2.1,
      mustInt_numeral _ h.2.2.2.1, mustInt_numeral _ h.2.2.2.2.1,
      mustInt_numeral _ h.2.2.2.2.2]
    by_cases hs : l.singleLine
    · rw [if_pos hs, if_neg (by simpa [SymbolLine.singleLine] using hs)]
      rfl
    · rw [if_neg hs, if_pos (by simpa [SymbolLine.singleLine] using hs)]
      rfl

/-- One turn of the loop of `GetFunction` on a symbol line. -/
theorem lookupSymbol_symbolLine (sought file : String) (l : SymbolLine) (rest : List String)
    (h : l.Format) :
    lookupSymbol sought file (l.text :: rest) =
      if identOf l.name ≠ "" ∧ ¬ l.singleLine then Except.error (differError l)
      else if l.endsIn sought = true then Except.ok ⟨sought, l.location file⟩
      else lookupSymbol sought file rest := by
  simp only [lookupSymbol, parseSymbolsResponse_symbolLine l file h]
  by_cases hi : identOf l.name = ""
  · have he : l.endsIn sought = false := by simp [SymbolLine.endsIn, hi]
    simp [hi, he, symbol.zero]
  · by_cases hs : l.singleLine
    · simp only [hi, hs, if_false, if_true, not_true_eq_false, and_false, ne_eq,
        not_false_eq_true]
      by_cases hc : l.endsIn sought = true
      · have hc1 := hc
        simp only [SymbolLine.endsIn, SymbolLine.isFunction, Bool.and_eq_true,
          Bool.or_eq_true, decide_eq_true_eq] at hc1
        rw [if_pos ⟨hc1.1, hc1.2.1⟩, if_pos hc, hc1.2.1]
      · rw [if_neg hc, if_neg]
        intro hcand
        apply hc
        simp only [SymbolLine.endsIn, SymbolLine.isFunction, Bool.and_eq_true,
          Bool.or_eq_true, decide_eq_true_eq]
        exact ⟨hcand.1, hcand.2, by simpa using hi⟩
    · simp [hi, hs]

/-- The loop of `GetFunction` on a listing whose lines report one line number each. -/
theorem lookupSymbol_listing (sought file : String) :
    ∀ ls : List SymbolLine, (∀ l ∈ ls, l.Format) → (∀ l ∈ ls, l.singleLine) →
      lookupSymbol sought file (ls.map SymbolLine.text) = firstEndingIn sought file ls := by
  intro ls
  induction ls with
  | nil => intro _ _; rfl
  | cons l ls ih =>
    intro hf hs
    have hl := hs l (List.mem_cons_self _ _)
    rw [List.map_cons, lookupSymbol_symbolLine sought file l _ (hf l (List.mem_cons_self _ _)),
      if_neg (fun h => h.2 hl)]
    by_cases hc : l.endsIn sought = true
    · rw [if_pos hc]
      simp only [firstEndingIn, List.find?_cons, hc]
    · rw [if_neg hc, ih (fun x hx => hf x (List.mem_cons_of_mem _ hx))
        (fun x hx => hs x (List.mem_cons_of_mem _ hx))]
      have hc1 : l.endsIn sought = false := by simpa using hc
      simp only [firstEndingIn, List.find?_cons, hc1]

theorem symbolLine_clean (l : SymbolLine) (h : l.Format) : Clean l.text := by
  obtain ⟨hname, hkind, hl, hc, hel, hec⟩ := h
  refine ⟨?_, ?_, ?_, ?_⟩
  · rw [symbolLine_data]; simp
  · intro ch hch
    rw [← anyChar_iff]
    rw [symbolLine_data] at hch
    simp only [List.mem_append, List.mem_cons] at hch
    rcases hch with hch | hch | hch | hch | hch | hch | hch | hch | hch | hch | hch
    · exact token_anyChar _ hname ch hch
    · subst hch; decide
    · exact word_anyChar ch (hkind.2 ch hch)
    · subst hch; decide
    · exact digit_ne_newline ch (hl.2.1 ch hch)
    · subst hch; decide
    · exact digit_ne_newline ch (hc.2.1 ch hch)
    · subst hch; decide
    · exact digit_ne_newline ch (hel.2.1 ch hch)
    · subst hch; decide
    · exact digit_ne_newline ch (hec.2.1 ch hch)
  · rw [symbolLine_data]
    intro ch hch
    rw [List.head?_append_of_ne_nil _ hname.1] at hch
    exact hname.2 ch (List.mem_of_mem_head? hch)
  · obtain ⟨a, ha⟩ : ∃ a, l.text.data = a ++ l.endCol.data :=
      ⟨_, by unfold SymbolLine.text; rw [String.data_append]⟩
    rw [ha]
    exact last_of_append_digits _ _ (numeral_digits _ hec)

/-- The lines `GetFunction` reads from the text of a listing are the lines of the
listing; the empty listing is read as one empty line, which changes nothing. -/
theorem getFunction_listing (run : List String → Except String String)
    (ls : List SymbolLine) (sought file : String)
    (hrun : run ["gopls", "symbols", file] = Except.ok (listingText ls))
    (hf : ∀ l ∈ ls, l.Format) :
    GetFunction run sought file = lookupSymbol sought file (ls.map SymbolLine.text) := by
  simp only [GetFunction, hrun]
  cases ls with
  | nil =>
    have h0 : SplitLines (TrimSpace (listingText [])) = [""] := by decide
    rw [h0]
    have h1 : parseSymbolsResponse "" file = Except.ok symbol.zero :=
      parseSymbolsResponse_of_nomatch _ _ (by decide)
    simp [lookupSymbol, h1, symbol.zero]
  | cons l ls =>
    unfold listingText
    rw [splitLines_joinLines _ (by simp)]
    intro x hx
    obtain ⟨y, hy, rfl⟩ := List.mem_map.mp hx
    exact symbolLine_clean y (hf y hy)

theorem firstEndingIn_of_word (sought file : String) :
    ∀ ls : List SymbolLine, (∀ l ∈ ls, Word l.name) →
      firstEndingIn sought file ls = firstNamed sought file ls := by
  intro ls
  induction ls with
  | nil => intro _; rfl
  | cons l ls ih =>
    intro hw
    have hl := hw l (List.mem_cons_self _ _)
    have hid : identOf l.name = l.name := identOf_of_word _ hl.2
    have hne : l.name ≠ "" := by
      intro h
      apply hl.1
      rw [h]
    have ih1 := ih (fun x hx => hw x (List.mem_cons_of_mem _ hx))
    simp only [firstEndingIn, firstNamed] at ih1 ⊢
    by_cases hc : l.named sought = true
    · have hc2 := hc
      simp only [SymbolLine.named, Bool.and_eq_true, decide_eq_true_eq] at hc2
      have hc1 : l.endsIn sought = true := by
        simp only [SymbolLine.endsIn, Bool.and_eq_true, decide_eq_true_eq, hid]
        exact ⟨hc2.1, hc2.2, hne⟩
      rw [List.find?_cons_of_pos _ hc1, List.find?_cons_of_pos _ hc]
      simp only [hc2.2]
    · have hc1 : ¬ l.endsIn sought = true := by
        intro h
        apply hc
        simp only [SymbolLine.endsIn, Bool.and_eq_true, decide_eq_true_eq, hid] at h
        simp [SymbolLine.named, h.1, h.2.1]
      rw [List.find?_cons_of_neg _ hc1, List.find?_cons_of_neg _ hc]
      exact ih1

theorem endsIn_eq_named (sought : String) (l : SymbolLine) (hw : Word l.name) :
    l.endsIn sought = l.named sought := by
  have hid : identOf l.name = l.name := identOf_of_word _ hw.2
  have hne : l.name ≠ "" := by
    intro h
    apply hw.1
    rw [h]
  simp only [SymbolLine.endsIn, SymbolLine.named, hid]
  simp [hne]

theorem find?_first {α : Type} (p : α → Bool) :
    ∀ (pre : List α) (l : α) (post : List α), (∀ x ∈ pre, p x = false) → p l = true →
      (pre ++ l :: post).find? p = some l := by
  intro pre
  induction pre with
  | nil => intro l post _ hl; simp [hl]
  | cons x pre ih =>
    intro l post hpre hl
    rw [List.cons_append, List.find?_cons_of_neg _ (by simp [hpre x (List.mem_cons_self _ _)])]
    exact ih l post (fun y hy => hpre y (List.mem_cons_of_mem _ hy)) hl

/-- The loop of `GetFunction` passes over single-line lines that are no candidates. -/
theorem lookupSymbol_filter (sought file : String) :
    ∀ ls : List SymbolLine, (∀ l ∈ ls, l.Format) →
      (∀ l ∈ ls, l.endsIn sought = false → l.singleLine) →
      lookupSymbol sought file (ls.map SymbolLine.text) =
        lookupSymbol sought file ((ls.filter (SymbolLine.endsIn sought)).map SymbolLine.text) := by
  intro ls
  induction ls with
  | nil => intro _ _; rfl
  | cons l ls ih =>
    intro hf hs
    have hfl := hf l (List.mem_cons_self _ _)
    have ih1 := ih (fun x hx => hf x (List.mem_cons_of_mem _ hx))
      (fun x hx => hs x (List.mem_cons_of_mem _ hx))
    cases hc : l.endsIn sought with
    | true =>
      rw [List.filter_cons_of_pos hc, List.map_cons, List.map_cons,
        lookupSymbol_symbolLine sought file l _ hfl, lookupSymbol_symbolLine sought file l _ hfl]
      simp only [hc, if_true]
    | false =>
      rw [List.filter_cons_of_neg (by simp [hc]), List.map_cons,
        lookupSymbol_symbolLine sought file l _ hfl,
        if_neg (fun h => h.2 (hs l (List.mem_cons_self _ _) hc)), if_neg (by simp [hc])]
      exact ih1

/-- The loop of `GetFunction` fails at the first line with a span of two lines when
the lines before it are single-line lines that are no candidates. -/
theorem lookupSymbol_differ (sought file : String) :
    ∀ (pre : List SymbolLine) (l : SymbolLine) (post : List SymbolLine),
      (∀ x ∈ pre ++ l :: post, x.Format) →
      (∀ x ∈ pre, x.endsIn sought = false ∧ x.singleLine) →
      identOf l.name ≠ "" → ¬ l.singleLine →
      lookupSymbol sought file ((pre ++ l :: post).map SymbolLine.text) =
        Except.error (differError l) := by
  intro pre
  induction pre with
  | nil =>
    intro l post hf _ hi hs
    rw [List.nil_append, List.map_cons,
      lookupSymbol_symbolLine sought file l _ (hf l (by simp)), if_pos ⟨hi, hs⟩]
  | cons x pre ih =>
    intro l post hf hpre hi hs
    have hx := hpre x (List.mem_cons_self _ _)
    rw [List.cons_append, List.map_cons,
      lookupSymbol_symbolLine sought file x _ (hf x (by simp)),
      if_neg (fun h => h.2 hx.2), if_neg (by simp [hx.1])]
    exact ih l post (fun y hy => hf y (by simp only [List.cons_append, List.mem_cons]; exact Or.inr hy))
      (fun y hy => hpre y (List.mem_cons_of_mem _ hy)) hi hs

/-- C6, as stated, fails. The name the lookup compares is not the name field of the
line but the identifier that field ends in. On the listing `größe Function 3:6-3:11`
the sought name `größe` is not found, although the line has that name and kind, and
the sought name `e` is found, although no line has that name; on the listing
`(*T).Bar Method 7:8-7:11`, `Bar Function 3:1-3:4` the sought name `Bar` gives the
method of line 7, although the first line named `Bar` is the function of line 3. -/
theorem name_field_not_compared :
    (¬ ∀ (ls : List SymbolLine) (sought file : String),
      (∀ l ∈ ls, l.Format ∧ l.singleLine) →
      GetFunction (printing (listingText ls)) sought file = firstNamed sought file ls) ∧
    listingText umlautListing = "größe Function 3:6-3:11" ∧
    (∀ l ∈ umlautListing, l.Format ∧ l.singleLine) ∧
    GetFunction (printing (listingText umlautListing)) "größe" "a.go" =
      Except.error "failed to locate symbol größe in file a.go" ∧
    firstNamed "größe" "a.go" umlautListing = Except.ok ⟨"größe", ⟨"a.go", 3, 6, 11⟩⟩ ∧
    GetFunction (printing (listingText umlautListing)) "e" "a.go" =
      Except.ok ⟨"e", ⟨"a.go", 3, 6, 11⟩⟩ ∧
    firstNamed "e" "a.go" umlautListing =
      Except.error "failed to locate symbol e in file a.go" ∧
    listingText methodListing = "(*T).Bar Method 7:8-7:11\nBar Function 3:1-3:4" ∧
    (∀ l ∈ methodListing, l.Format ∧ l.singleLine) ∧
    GetFunction (printing (listingText methodListing)) "Bar" "a.go" =
      Except.ok ⟨"Bar", ⟨"a.go", 7, 8, 11⟩⟩ ∧
    firstNamed "Bar" "a.go" methodListing = Except.ok ⟨"Bar", ⟨"a.go", 3, 1, 4⟩⟩ := by
  refine ⟨?_, by decide!, by decide!, by decide!, by decide!, by decide!, by decide!,
    by decide!, by decide!, by decide!, by decide!⟩
  intro h
  have h1 := h umlautListing "größe" "a.go" (by decide!)
  revert h1
  decide!

/-- C6 (amended): let the symbol listing of `file` consist of lines
`<name> <kind> <line>:<col>-<endLine>:<endCol>`, each with a name without white
space, a kind of letters, numerals that fit `int`, and equal start and end line
numbers. Then `GetFunction` returns the first line, in listing order, whose kind is
"Function" or "Method" and whose name ends in the sought identifier (the identifier a
name ends in being its longest suffix of ASCII letters, digits and underscores), as
the function with the sought name, the listed file, and the line, start column and end
column of that line; it returns the not-found error exactly when no line is such; and
when all names consist of ASCII letters, digits and underscores, the line returned is
the first of kind "Function" or "Method" whose name is the sought name. -/
theorem getFunction_first_candidate (run : List String → Except String String)
    (ls : List SymbolLine) (sought file : String)
    (hrun : run ["gopls", "symbols", file] = Except.ok (listingText ls))
    (hf : ∀ l ∈ ls, l.Format) (hs : ∀ l ∈ ls, l.singleLine) :
    GetFunction run sought file = firstEndingIn sought file ls ∧
    (∀ pre l post, ls = pre ++ l :: post → (∀ x ∈ pre, x.endsIn sought = false) →
      l.endsIn sought = true →
      GetFunction run sought file = Except.ok
        ⟨sought, ⟨file, numeralValue l.line, numeralValue l.col, numeralValue l.endCol⟩⟩) ∧
    ((∀ l ∈ ls, l.endsIn sought = false) ↔
      GetFunction run sought file = Except.error (notFound sought file)) ∧
    ((∀ l ∈ ls, Word l.name) →
      (∀ l ∈ ls, l.endsIn sought = l.named sought) ∧
        GetFunction run sought file = firstNamed sought file ls) := by
  have hg : GetFunction run sought file = firstEndingIn sought file ls := by
    rw [getFunction_listing run ls sought file hrun hf, lookupSymbol_listing sought file ls hf hs]
  refine ⟨hg, ?_, ?_, ?_⟩
  · intro pre l post hsplit hpre hl
    rw [hg, hsplit]
    simp only [firstEndingIn, find?_first _ pre l post hpre hl]
    rfl
  · rw [hg]
    unfold firstEndingIn
    constructor
    · intro h
      have : ls.find? (SymbolLine.endsIn sought) = none := by
        rw [List.find?_eq_none]
        intro x hx
        simp [h x hx]
      rw [this]
    · intro h
      cases hfind : ls.find? (SymbolLine.endsIn sought) with
      | some l =>
        rw [hfind] at h
        cases h
      | none =>
        rw [List.find?_eq_none] at hfind
        intro x hx
        simpa using hfind x hx
  · intro hw
    exact ⟨fun l hl => endsIn_eq_named sought l (hw l hl),
      by rw [hg, firstEndingIn_of_word sought file ls hw]⟩

/-- C6 (amended) at the listing `Foo Method 10:2-10:5`, for the names `Foo` and `Bar`,
and at the listing `(*T).Bar Method 7:8-7:11`, `Bar Function 3:1-3:4` for `Bar`. -/
theorem getFunction_first_candidate_witness :
    listingText fooListing = "Foo Method 10:2-10:5" ∧
    GetFunction (printing (listingText fooListing)) "Foo" "a.go" =
      Except.ok ⟨"Foo", ⟨"a.go", 10, 2, 5⟩⟩ ∧
    GetFunction (printing (listingText fooListing)) "Bar" "a.go" =
      Except.error "failed to locate symbol Bar in file a.go" ∧
    GetFunction (printing (listingText methodListing)) "Bar" "a.go" =
      Except.ok ⟨"Bar", ⟨"a.go", 7, 8, 11⟩⟩ :=
  ⟨by decide!,
    (by decide! : firstNamed "Foo" "a.go" fooListing = Except.ok ⟨"Foo", ⟨"a.go", 10, 2, 5⟩⟩) ▸
      ((getFunction_first_candidate (printing (listingText fooListing)) fooListing "Foo" "a.go"
        rfl (by decide!) (by decide!)).2.2.2 (by decide!)).2,
    (by decide! : notFound "Bar" "a.go" = "failed to locate symbol Bar in file a.go") ▸
      (getFunction_first_candidate (printing (listingText fooListing)) fooListing "Bar" "a.go"
        rfl (by decide!) (by decide!)).2.2.1.mp (by decide!),
    (by decide! : firstEndingIn "Bar" "a.go" methodListing =
        Except.ok ⟨"Bar", ⟨"a.go", 7, 8, 11⟩⟩) ▸
      (getFunction_first_candidate (printing (listingText methodListing)) methodListing "Bar"
        "a.go" rfl (by decide!) (by decide!)).1⟩

/-- C7, as stated, fails: a line of kind "Struct", whose name differs from the sought
name too, makes `GetFunction` fail when its start and end line numbers differ, while
on the listing with the lines of other kind or name removed the function is found. -/
theorem noncandidate_line_fails_lookup :
    (¬ ∀ (ls : List SymbolLine) (sought file : String), (∀ l ∈ ls, l.Format) →
      GetFunction (printing (listingText ls)) sought file =
        GetFunction (printing (listingText (ls.filter (SymbolLine.named sought)))) sought
          file) ∧
    listingText structListing = "Foo Struct 10:2-12:1\nBar Function 3:1-3:4" ∧
    (∀ l ∈ structListing, l.Format) ∧
    GetFunction (printing (listingText structListing)) "Bar" "a.go" =
      Except.error
        "start and end line numbers differ (10 vs 12) in response for symbols query: Foo Struct 10:2-12:1" ∧
    structListing.filter (SymbolLine.named "Bar") = [⟨"Bar", "Function", "3", "1", "3", "4"⟩] ∧
    GetFunction (printing (listingText (structListing.filter (SymbolLine.named "Bar")))) "Bar"
      "a.go" = Except.ok ⟨"Bar", ⟨"a.go", 3, 1, 4⟩⟩ := by
  refine ⟨?_, by decide!, by decide!, by decide!, by decide!, by decide!⟩
  intro h
  have h1 := h structListing "Bar" "a.go" (by decide!)
  revert h1
  decide!

/-- C7 (amended): let the symbol listing of `file` consist of lines
`<name> <kind> <line>:<col>-<endLine>:<endCol>`, each with a name without white
space, a kind of letters and numerals that fit `int`, and call a line a candidate
when its kind is "Function" or "Method" and its name ends in the sought identifier
(for a name of ASCII letters, digits and underscores: when its name is the sought
name). (1) When every line that is no candidate reports equal start and end line
numbers, the result of `GetFunction` is its result on the listing with those lines
removed. (2) A line whose name ends in an identifier and whose start and end line
numbers differ, candidate or not, makes `GetFunction` fail with the error of
`parseSymbolsResponse` when every line before it is no candidate and reports equal
start and end line numbers. -/
theorem noncandidates_skipped (run : List String → Except String String)
    (ls : List SymbolLine) (sought file : String)
    (hrun : run ["gopls", "symbols", file] = Except.ok (listingText ls))
    (hf : ∀ l ∈ ls, l.Format) :
    ((∀ l ∈ ls, l.endsIn sought = false → l.singleLine) →
      ∀ run1 : List String → Except String String,
        run1 ["gopls", "symbols", file] =
          Except.ok (listingText (ls.filter (SymbolLine.endsIn sought))) →
        GetFunction run sought file = GetFunction run1 sought file) ∧
    ((∀ l ∈ ls, Word l.name) → ∀ l ∈ ls, l.endsIn sought = l.named sought) ∧
    (∀ pre l post, ls = pre ++ l :: post →
      (∀ x ∈ pre, x.endsIn sought = false ∧ x.singleLine) →
      identOf l.name ≠ "" → ¬ l.singleLine →
      GetFunction run sought file = Except.error (differError l)) := by
  refine ⟨?_, fun hw l hl => endsIn_eq_named sought l (hw l hl), ?_⟩
  · intro hs run1 hrun1
    rw [getFunction_listing run ls sought file hrun hf,
      getFunction_listing run1 _ sought file hrun1
        (fun l hl => hf l (List.mem_filter.mp hl).1)]
    exact lookupSymbol_filter sought file ls hf hs
  · intro pre l post hsplit hpre hi hs
    rw [getFunction_listing run ls sought file hrun hf, hsplit]
    exact lookupSymbol_differ sought file pre l post (hsplit ▸ hf) hpre hi hs

/-- C7 (amended) at a listing of three single-line lines, one of them a candidate for
`Bar`, and at the listing of a struct on the lines 10 to 12 before the function
`Bar`. -/
theorem noncandidates_skipped_witness :
    mixedListing.filter (SymbolLine.endsIn "Bar") = [⟨"Bar", "Function", "3", "1", "3", "4"⟩] ∧
    GetFunction (printing (listingText mixedListing)) "Bar" "a.go" =
      GetFunction (printing (listingText (mixedListing.filter (SymbolLine.endsIn "Bar"))))
        "Bar" "a.go" ∧
    GetFunction (printing (listingText structListing)) "Bar" "a.go" =
      Except.error
        "start and end line numbers differ (10 vs 12) in response for symbols query: Foo Struct 10:2-12:1" :=
  ⟨by decide!,
    (noncandidates_skipped (printing (listingText mixedListing)) mixedListing "Bar" "a.go" rfl
      (by decide!)).1 (by decide!)
      (printing (listingText (mixedListing.filter (SymbolLine.endsIn "Bar")))) rfl,
    (by decide! : differError ⟨"Foo", "Struct", "10", "2", "12", "1"⟩ =
        "start and end line numbers differ (10 vs 12) in response for symbols query: Foo Struct 10:2-12:1") ▸
      (noncandidates_skipped (printing (listingText structListing)) structListing "Bar" "a.go"
        rfl (by decide!)).2.2 [] ⟨"Foo", "Struct", "10", "2", "12", "1"⟩
        [⟨"Bar", "Function", "3", "1", "3", "4"⟩] rfl (by decide!) (by decide!) (by decide!)⟩

end Gopls
